import Mathlib

/-!
Verification of the mixed-priority routing core
(backend/src: data_models, qubo_builder, qaoa_solver's MockSampler,
greedy_solver, metrics).

Python strings are modelled as lists of characters (`Str`), floats as
exact real numbers (rationals wherever the code only manipulates
rational values; `Real.sqrt` for the Euclidean fallback), dicts as
association lists or finitely-supported functions, and exceptions as
`Option` results.
-/

/-- Python strings, modelled as lists of characters. -/
abbrev Str := List Char

/-! ## Character and number-literal toolkit

Models Python's `str.split(sep)` (single-character separator),
`sep.join(parts)`, `f"{n}"` rendering of a natural number, and `int(s)`
(restricted to ASCII digit strings with Python's underscore-grouping
rule; `int` raises on anything else, modelled as `none`). -/

/-- `s.split(sep)` for a one-character separator, Python semantics:
splits at every occurrence, keeping empty fragments. -/
def splitOnChar (sep : Char) : Str → List Str
  | [] => [[]]
  | c :: cs =>
    let r := splitOnChar sep cs
    if c = sep then [] :: r
    else
      match r with
      | [] => [[c]]
      | h :: t => (c :: h) :: t

/-- `sep.join(parts)` for a one-character separator. -/
def joinSep (sep : Char) : List Str → Str
  | [] => []
  | [x] => x
  | x :: xs => x ++ sep :: joinSep sep xs

theorem splitOnChar_ne_nil (sep : Char) (s : Str) : splitOnChar sep s ≠ [] := by
  cases s with
  | nil => simp [splitOnChar]
  | cons c cs =>
    simp only [splitOnChar]
    split
    · simp
    · split <;> simp

theorem joinSep_splitOnChar (sep : Char) (s : Str) :
    joinSep sep (splitOnChar sep s) = s := by
  induction s with
  | nil => rfl
  | cons c cs ih =>
    simp only [splitOnChar]
    split
    · rename_i h
      subst h
      rcases hr : splitOnChar c cs with _ | ⟨h1, t1⟩
      · exact absurd hr (splitOnChar_ne_nil c cs)
      · rw [hr] at ih
        cases t1 with
        | nil => simpa [joinSep] using ih
        | cons a b => simpa [joinSep] using ih
    · rcases hr : splitOnChar sep cs with _ | ⟨h1, t1⟩
      · exact absurd hr (splitOnChar_ne_nil sep cs)
      · rw [hr] at ih
        cases t1 with
        | nil => simpa [joinSep] using ih
        | cons a b => simpa [joinSep] using ih

theorem splitOnChar_append_sep (sep : Char) (xs ys : Str) :
    splitOnChar sep (xs ++ sep :: ys) = splitOnChar sep xs ++ splitOnChar sep ys := by
  induction xs with
  | nil => simp [splitOnChar]
  | cons c cs ih =>
    show splitOnChar sep (c :: (cs ++ sep :: ys)) = splitOnChar sep (c :: cs) ++ _
    simp only [splitOnChar]
    rw [ih]
    by_cases hc : c = sep
    · simp [hc]
    · rw [if_neg hc, if_neg hc]
      rcases hr : splitOnChar sep cs with _ | ⟨h1, t1⟩
      · exact absurd hr (splitOnChar_ne_nil sep cs)
      · simp [hr]

theorem splitOnChar_of_not_mem (sep : Char) (xs : Str) (h : sep ∉ xs) :
    splitOnChar sep xs = [xs] := by
  induction xs with
  | nil => rfl
  | cons c cs ih =>
    simp only [List.mem_cons, not_or] at h
    simp only [splitOnChar, ih h.2]
    rw [if_neg (Ne.symm h.1)]

/-- ASCII digit test (models the digits accepted by Python's `int`,
restricted to ASCII). -/
def isDigitChar (c : Char) : Bool := 48 ≤ c.toNat && c.toNat ≤ 57

/-- Value of an ASCII digit character. -/
def charVal (c : Char) : ℕ := c.toNat - 48

/-- The decimal digit character for `d < 10`. -/
def digChar (d : ℕ) : Char :=
  match d with
  | 0 => '0' | 1 => '1' | 2 => '2' | 3 => '3' | 4 => '4'
  | 5 => '5' | 6 => '6' | 7 => '7' | 8 => '8' | _ => '9'

theorem charVal_digChar {d : ℕ} (h : d < 10) : charVal (digChar d) = d := by
  interval_cases d <;> rfl

theorem isDigitChar_digChar (d : ℕ) : isDigitChar (digChar d) = true := by
  match d with
  | 0 | 1 | 2 | 3 | 4 | 5 | 6 | 7 | 8 => rfl
  | n + 9 =>
    show isDigitChar (digChar (n + 9)) = true
    match n with
    | 0 => rfl
    | m + 1 => rfl

/-- Decimal rendering of a natural number, matching Python's `f"{n}"`. -/
def natChars (n : ℕ) : Str :=
  if _h : n < 10 then [digChar n]
  else natChars (n / 10) ++ [digChar (n % 10)]
termination_by n
decreasing_by
  exact Nat.div_lt_self (by omega) (by omega)

theorem natChars_ne_nil (n : ℕ) : natChars n ≠ [] := by
  rw [natChars]
  split
  · simp
  · simp

theorem natChars_all_digits (n : ℕ) : ∀ c ∈ natChars n, isDigitChar c = true := by
  induction n using Nat.strong_induction_on with
  | _ n ih =>
    rw [natChars]
    split
    · intro c hc
      simp only [List.mem_singleton] at hc
      subst hc
      exact isDigitChar_digChar n
    · intro c hc
      rcases List.mem_append.mp hc with h1 | h2
      · exact ih (n / 10) (Nat.div_lt_self (by omega) (by omega)) c h1
      · simp only [List.mem_singleton] at h2
        subst h2
        exact isDigitChar_digChar (n % 10)

theorem digit_ne_underscore {c : Char} (h : isDigitChar c = true) : c ≠ '_' := by
  intro hc
  subst hc
  simp [isDigitChar] at h

theorem underscore_not_mem_natChars (n : ℕ) : '_' ∉ natChars n := by
  intro h
  exact digit_ne_underscore (natChars_all_digits n '_' h) rfl

/-- Digit-string value, skipping underscores (Python's grouped literals). -/
def digitsVal (s : Str) : ℕ :=
  s.foldl (fun a c => if c = '_' then a else 10 * a + charVal c) 0

theorem digitsVal_append_digit (xs : Str) (c : Char) (hc : c ≠ '_') :
    digitsVal (xs ++ [c]) = 10 * digitsVal xs + charVal c := by
  simp [digitsVal, List.foldl_append, hc]

theorem digitsVal_natChars (n : ℕ) : digitsVal (natChars n) = n := by
  induction n using Nat.strong_induction_on with
  | _ n ih =>
    rw [natChars]
    split
    · rename_i h
      show digitsVal [digChar n] = n
      rw [show [digChar n] = [] ++ [digChar n] from rfl,
        digitsVal_append_digit [] (digChar n)
          (digit_ne_underscore (isDigitChar_digChar n))]
      simp [digitsVal, charVal_digChar h]
    · rename_i h
      rw [digitsVal_append_digit _ _
          (digit_ne_underscore (isDigitChar_digChar (n % 10))),
        ih (n / 10) (Nat.div_lt_self (by omega) (by omega)),
        charVal_digChar (Nat.mod_lt n (by omega))]
      omega

/-- Well-formedness of the digit part accepted by Python's `int`:
nonempty digits with single underscores strictly between digits. -/
def gdAux : Str → Bool
  | [] => false
  | [c] => isDigitChar c
  | c :: u :: rest =>
    isDigitChar c && (if u = '_' then gdAux rest else gdAux (u :: rest))

theorem gdAux_of_all_digits (s : Str) (hne : s ≠ [])
    (h : ∀ c ∈ s, isDigitChar c = true) : gdAux s = true := by
  induction s with
  | nil => exact absurd rfl hne
  | cons c cs ih =>
    cases cs with
    | nil => simpa [gdAux] using h c (by simp)
    | cons u rest =>
      have hu : isDigitChar u = true := h u (by simp)
      simp only [gdAux, if_neg (digit_ne_underscore hu)]
      rw [h c (by simp), ih (by simp) (fun x hx => h x (List.mem_cons_of_mem c hx))]
      rfl

/-- Python's `str.strip()` (whitespace from both ends). -/
def pyStrip (s : Str) : Str :=
  ((s.dropWhile Char.isWhitespace).reverse.dropWhile Char.isWhitespace).reverse

theorem pyStrip_of_digits (s : Str) (h : ∀ c ∈ s, isDigitChar c = true) :
    pyStrip s = s := by
  have hnw : ∀ c ∈ s, Char.isWhitespace c = false := by
    intro c hc
    have hd := h c hc
    simp only [isDigitChar, decide_eq_true_eq, Bool.and_eq_true] at hd
    revert hd
    simp only [Char.isWhitespace]
    intro hd
    have h1 : c.toNat ≠ 32 := by omega
    have h2 : c.toNat ≠ 9 := by omega
    have h3 : c.toNat ≠ 13 := by omega
    have h4 : c.toNat ≠ 10 := by omega
    simp only [Bool.or_eq_false_iff, decide_eq_false_iff_not]
    refine ⟨⟨⟨fun hc32 => h1 ?_, fun hc9 => h2 ?_⟩, fun hc13 => h3 ?_⟩, fun hc10 => h4 ?_⟩
    · rw [hc32]; rfl
    · rw [hc9]; rfl
    · rw [hc13]; rfl
    · rw [hc10]; rfl
  have key : ∀ t : Str, (∀ c ∈ t, Char.isWhitespace c = false) →
      t.dropWhile Char.isWhitespace = t := by
    intro t ht
    cases t with
    | nil => rfl
    | cons c cs => simp [List.dropWhile_cons, ht c (by simp)]
  rw [pyStrip, key s hnw, key s.reverse (fun c hc => hnw c (List.mem_reverse.mp hc)),
    List.reverse_reverse]

/-- Python's `int(s)`, modelled for ASCII: optional surrounding
whitespace, optional sign, then grouped decimal digits; every other
input raises (`none`). -/
def pyInt (s : Str) : Option ℤ :=
  match pyStrip s with
  | '+' :: rest => if gdAux rest then some (digitsVal rest : ℤ) else none
  | '-' :: rest => if gdAux rest then some (-(digitsVal rest : ℤ)) else none
  | rest => if gdAux rest then some (digitsVal rest : ℤ) else none

theorem pyInt_natChars (n : ℕ) : pyInt (natChars n) = some (n : ℤ) := by
  have hval : digitsVal (natChars n) = n := digitsVal_natChars n
  have hs : pyStrip (natChars n) = natChars n :=
    pyStrip_of_digits _ (natChars_all_digits n)
  have hgd : gdAux (natChars n) = true :=
    gdAux_of_all_digits _ (natChars_ne_nil n) (natChars_all_digits n)
  have hhead : ∃ c cs, natChars n = c :: cs ∧ isDigitChar c = true := by
    rcases h : natChars n with _ | ⟨c, cs⟩
    · exact absurd h (natChars_ne_nil n)
    · exact ⟨c, cs, rfl, natChars_all_digits n c (by rw [h]; simp)⟩
  obtain ⟨c, cs, hc, hcd⟩ := hhead
  have hplus : c ≠ '+' := by
    intro h
    rw [h] at hcd
    exact absurd hcd (by decide)
  have hminus : c ≠ '-' := by
    intro h
    rw [h] at hcd
    exact absurd hcd (by decide)
  rw [pyInt, hs, hc]
  rw [hc] at hgd hval
  split
  · rename_i rest heq
    exact absurd (List.cons.inj heq).1 hplus
  · rename_i rest heq
    exact absurd (List.cons.inj heq).1 hminus
  · rw [if_pos hgd, hval]

/-- The QUBO variable name `f"x_{node_id}_{pos}"`. -/
def vrName (nid : Str) (p : ℕ) : Str :=
  'x' :: '_' :: (nid ++ '_' :: natChars p)

/-- The shared decode/sampler parsing of a variable name:
`parts = key.split("_")`, `node_id = "_".join(parts[1:-1])`,
`pos = int(parts[-1])` — the last step can raise. -/
def parseVarName (s : Str) : Option (Str × ℤ) :=
  let parts := splitOnChar '_' s
  match pyInt (parts.getLastD []) with
  | none => none
  | some z => some (joinSep '_' ((parts.drop 1).dropLast), z)

theorem splitOnChar_vrName (nid : Str) (p : ℕ) :
    splitOnChar '_' (vrName nid p) =
      ['x'] :: splitOnChar '_' nid ++ [natChars p] := by
  have h1 : vrName nid p = ['x'] ++ '_' :: (nid ++ '_' :: natChars p) := rfl
  rw [h1, splitOnChar_append_sep, splitOnChar_append_sep,
    splitOnChar_of_not_mem _ _ (underscore_not_mem_natChars p)]
  rfl

theorem parseVarName_vrName (nid : Str) (p : ℕ) :
    parseVarName (vrName nid p) = some (nid, (p : ℤ)) := by
  rw [parseVarName]
  have hsplit := splitOnChar_vrName nid p
  have hlast : (splitOnChar '_' (vrName nid p)).getLastD [] = natChars p := by
    rw [hsplit]
    have : (['x'] :: splitOnChar '_' nid ++ [natChars p] : List Str) =
        (['x'] :: splitOnChar '_' nid) ++ [natChars p] := by simp
    rw [this, List.getLastD_concat]
  have hmid : ((splitOnChar '_' (vrName nid p)).drop 1).dropLast =
      splitOnChar '_' nid := by
    rw [hsplit]
    have : (['x'] :: splitOnChar '_' nid ++ [natChars p] : List Str) =
        ['x'] :: (splitOnChar '_' nid ++ [natChars p]) := by simp
    rw [this, List.drop_one, List.tail_cons, List.dropLast_concat]
  simp only [hlast, hmid, pyInt_natChars, joinSep_splitOnChar]

/-! ## Data model (backend/src/data_models.py)

`NodeType`, `Node`, `Edge`, `CityGraph` and `QUBOParams` follow
data_models.py.  The repository's solvers, simulator and tests also use
a depot classification and the derived views `delivery_nodes` /
`depot_node`, whose declarations are not present under src; those are
modelled from the spec (§3). -/

/-- Node priority classification.  `priority` and `normal` are
`NodeType` from data_models.py; the `depot` member is modelled from the
spec ("classification {priority, normal, at most one depot}") — it is
used by simulator.py, qubo_builder.py and the tests but its declaration
is missing from src's data_models.py. -/
inductive NodeType where
  | priority
  | normal
  | depot
deriving DecidableEq

/-- Traffic intensity levels (`TrafficLevel`). -/
inductive TrafficLevel where
  | low
  | medium
  | high
deriving DecidableEq

/-- The `.value` string of a `TrafficLevel` member. -/
def TrafficLevel.value : TrafficLevel → Str
  | .low => "low".toList
  | .medium => "medium".toList
  | .high => "high".toList

/-- A delivery location (`Node`).  The optional human-readable label is
omitted: nothing in the verified core reads it. -/
structure Node where
  id : Str
  x : ℚ
  y : ℚ
  type : NodeType
deriving DecidableEq

/-- An edge with base distance and traffic level (`Edge`). -/
structure Edge where
  from_node : Str
  to_node : Str
  distance : ℚ
  traffic : TrafficLevel
deriving DecidableEq

/-- Python `dict.get(key, default)` over an association list. -/
def dictGet (m : List (Str × ℚ)) (k : Str) (d : ℚ) : ℚ :=
  match m.find? (fun p => p.1 == k) with
  | some p => p.2
  | none => d

/-- Complete city graph (`CityGraph`): nodes, edges, and the traffic
multiplier table (a string-keyed dict in the code). -/
structure CityGraph where
  nodes : List Node
  edges : List Edge
  traffic_multipliers : List (Str × ℚ)
deriving DecidableEq

/-- Default traffic multipliers: low 1.0, medium 1.5, high 2.0. -/
def defaultMultipliers : List (Str × ℚ) :=
  [("low".toList, 1), ("medium".toList, 3/2), ("high".toList, 2)]

/-- All priority nodes (`CityGraph.priority_nodes`). -/
def CityGraph.priority_nodes (g : CityGraph) : List Node :=
  g.nodes.filter (fun n => n.type == NodeType.priority)

/-- All normal nodes (`CityGraph.normal_nodes`). -/
def CityGraph.normal_nodes (g : CityGraph) : List Node :=
  g.nodes.filter (fun n => n.type == NodeType.normal)

/-- Modelled from the spec: the delivery subset — "all but depot"
(§3); the accessor `CityGraph.delivery_nodes` is used by
qubo_builder.py and qaoa_solver.py but its declaration is missing from
src's data_models.py.  simulator.py computes the same subset as
`[n for n in nodes if n.type != NodeType.DEPOT]`. -/
def CityGraph.delivery_nodes (g : CityGraph) : List Node :=
  g.nodes.filter (fun n => n.type != NodeType.depot)

/-- Modelled from the spec: the unique depot node, if any (§3,
invariant ≤ 1 depot); the accessor `CityGraph.depot_node` is used by
qubo_builder.py and qaoa_solver.py but its declaration is missing from
src's data_models.py. -/
def CityGraph.depot_node (g : CityGraph) : Option Node :=
  g.nodes.find? (fun n => n.type == NodeType.depot)

/-- Get node by id (`CityGraph.get_node`). -/
def CityGraph.get_node (g : CityGraph) (node_id : Str) : Option Node :=
  g.nodes.find? (fun n => n.id == node_id)

/-- Traffic-weighted edge distance (`CityGraph.get_edge_weight`).
`none` models the `float('inf')` returned when either node is unknown;
a missing edge falls back to the Euclidean distance between the node
coordinates (`math.sqrt`, modelled exactly by `Real.sqrt`). -/
noncomputable def CityGraph.get_edge_weight (g : CityGraph) (from_id to_id : Str) :
    Option ℝ :=
  match g.edges.find? (fun e =>
      (e.from_node == from_id && e.to_node == to_id) ||
      (e.from_node == to_id && e.to_node == from_id)) with
  | some e =>
      some ((e.distance * dictGet g.traffic_multipliers e.traffic.value 1 : ℚ) : ℝ)
  | none =>
      match g.get_node from_id, g.get_node to_id with
      | some n1, some n2 =>
          some (Real.sqrt (((n1.x - n2.x) ^ 2 + (n1.y - n2.y) ^ 2 : ℚ) : ℝ))
      | _, _ => none

/-- QUBO penalty coefficients (`QUBOParams`), defaults
A=100, B=500, Bp=1000, C=1. -/
structure QUBOParams where
  A : ℚ := 100
  B : ℚ := 500
  Bp : ℚ := 1000
  C : ℚ := 1
deriving DecidableEq

/-- Modelled from the spec: `CityGraph` construction validation.
data_models.py enforces `min_length=2` on nodes and `min_length=1` on
edges at construction; the "At most 1 depot" validator is exercised by
test_qubo.py (`pytest.raises(ValueError, match="At most 1 depot")`) but
its declaration is missing from src's data_models.py, so it is modelled
from the spec's invariant "≤1 depot ... rejected at Graph construction"
(§3, §7).  `none` models the construction error. -/
def mkCityGraph (nodes : List Node) (edges : List Edge)
    (mult : List (Str × ℚ)) : Option CityGraph :=
  if nodes.length < 2 then none
  else if edges.length < 1 then none
  else if 1 < (nodes.filter (fun n => n.type == NodeType.depot)).length then none
  else some ⟨nodes, edges, mult⟩

/-! ## Metrics (backend/src/metrics.py) -/

/-- Solver result (`SolverResponse`), restricted to the fields the
verified claims read: route, total distance, traffic-weighted time and
the two constraint flags.  Timing, energy and the derived-metric
fields are not referenced by any claim. -/
structure SolverResponse where
  route : List Str
  total_distance : ℚ
  travel_time : ℚ
  feasible : Bool
  priority_satisfied : Bool
deriving DecidableEq

/-- Percentage distance reduction (`compute_distance_reduction`):
`(D_greedy - D_quantum) / D_greedy * 100`, and 0.0 when the baseline
distance is zero. -/
def compute_distance_reduction (greedy quantum : SolverResponse) : ℚ :=
  if greedy.total_distance = 0 then 0
  else (greedy.total_distance - quantum.total_distance) / greedy.total_distance * 100

/-! ## Decoder / validator (backend/src/qubo_builder.py) -/

/-- Does the key start with `"x_"` (Python `key.startswith("x_")`). -/
def startsWithX (s : Str) : Bool :=
  match s with
  | 'x' :: '_' :: _ => true
  | _ => false

/-- Python `set(a) == set(b)` for string lists. -/
def setEqStr (a b : List Str) : Bool :=
  a.all (fun x => decide (x ∈ b)) && b.all (fun x => decide (x ∈ a))

/-- One iteration of `decode_route`'s scan over `sample.items()`:
sets `route[pos] = node_id` for a 1-valued well-formed variable,
ignores 0-valued keys, keys without the `x_` prefix and out-of-range
positions, and raises (`none`) when `int(parts[-1])` raises. -/
def decodeStep (n : ℕ) :
    Option (List (Option Str)) → Str × ℕ → Option (List (Option Str))
  | none, _ => none
  | some route, kv =>
    if kv.2 = 1 ∧ startsWithX kv.1 then
      match parseVarName kv.1 with
      | none => none
      | some (node_id, pos) =>
          if 0 ≤ pos ∧ pos < (n : ℤ) then some (route.set pos.toNat (some node_id))
          else some route
    else some route

/-- Decode a QUBO sample into an ordered route (`decode_route`).
The assignment dict is modelled as its item list in insertion order;
`none` models the `ValueError` escaping from `int(parts[-1])`. -/
def decode_route (sample : List (Str × ℕ)) (node_ids : List Str)
    (depot_id : Option Str) : Option (List Str) :=
  let n := node_ids.length
  match sample.foldl (decodeStep n) (some (List.replicate n none)) with
  | none => none
  | some route =>
    let decoded := route.filterMap id
    match depot_id with
    | some d => some (d :: decoded)
    | none => some decoded

/-- Validate a route against constraints (`validate_route`): returns
`(feasible, priority_satisfied)`; routes whose id set differs from the
graph's id set return `(false, false)` without reaching the priority
check. -/
def validate_route (route : List Str) (g : CityGraph) : Bool × Bool :=
  let node_ids := g.nodes.map Node.id
  let priority_ids := (g.priority_nodes.map Node.id).dedup
  let k := priority_ids.length
  if setEqStr route node_ids = false then (false, false)
  else
    let delivery_route :=
      match g.depot_node, route with
      | some d, r0 :: rest => if r0 = d.id then rest else route
      | _, _ => route
    let priority_positions :=
      (delivery_route.enum.filter (fun p => decide (p.2 ∈ priority_ids))).map Prod.fst
    let priority_satisfied :=
      if priority_positions.isEmpty then decide (k = 0)
      else decide (priority_positions.foldl Nat.max 0 < k)
    let feasible :=
      decide (route.length = node_ids.length) && decide (route.dedup.length = route.length)
    (feasible, priority_satisfied)

/-- The priority-satisfaction rule as the spec states it, written from
the spec's words for comparison with `validate_route`: strip a leading
depot; with k the priority-node count, satisfied iff k=0 and no
priority node appears, or k>0, some priority node appears, and the
maximum index among priority occurrences is < k. -/
def specPrioritySatisfied (route : List Str) (g : CityGraph) : Bool :=
  let priority_ids := (g.priority_nodes.map Node.id).dedup
  let k := priority_ids.length
  let delivery_route :=
    match g.depot_node, route with
    | some d, r0 :: rest => if r0 = d.id then rest else route
    | _, _ => route
  let priority_positions :=
    (delivery_route.enum.filter (fun p => decide (p.2 ∈ priority_ids))).map Prod.fst
  if k = 0 then priority_positions.isEmpty
  else !priority_positions.isEmpty && decide (priority_positions.foldl Nat.max 0 < k)

/-! ## Decode totality helpers -/

theorem decodeStep_some (n : ℕ) (acc : List (Option Str)) (kv : Str × ℕ)
    (h : kv.2 = 1 → startsWithX kv.1 = true → (parseVarName kv.1).isSome) :
    ∃ acc', decodeStep n (some acc) kv = some acc' := by
  show ∃ acc',
    (if kv.2 = 1 ∧ startsWithX kv.1 then
      match parseVarName kv.1 with
      | none => none
      | some (node_id, pos) =>
          if 0 ≤ pos ∧ pos < (n : ℤ) then some (acc.set pos.toNat (some node_id))
          else some acc
    else some acc) = some acc'
  by_cases hc : kv.2 = 1 ∧ startsWithX kv.1 = true
  · rw [if_pos hc]
    rcases hp : parseVarName kv.1 with _ | ⟨nid, pos⟩
    · have := h hc.1 hc.2
      rw [hp] at this
      simp at this
    · show ∃ acc',
        (if 0 ≤ pos ∧ pos < (n : ℤ) then some (acc.set pos.toNat (some nid))
          else some acc) = some acc'
      by_cases hr : 0 ≤ pos ∧ pos < (n : ℤ)
      · exact ⟨_, by rw [if_pos hr]⟩
      · exact ⟨acc, by rw [if_neg hr]⟩
  · rw [if_neg hc]
    exact ⟨acc, rfl⟩

theorem decodeFold_isSome (n : ℕ) (sample : List (Str × ℕ)) (acc : List (Option Str))
    (h : ∀ kv ∈ sample, kv.2 = 1 → startsWithX kv.1 = true →
      (parseVarName kv.1).isSome) :
    (sample.foldl (decodeStep n) (some acc)).isSome := by
  induction sample generalizing acc with
  | nil => simp
  | cons kv rest ih =>
    rw [List.foldl_cons]
    obtain ⟨acc', ha⟩ := decodeStep_some n acc kv (h kv (List.mem_cons_self kv rest))
    rw [ha]
    exact ih acc' (fun kv' hkv' => h kv' (List.mem_cons_of_mem kv hkv'))

theorem decodeStep_ignores (n : ℕ) (acc : Option (List (Option Str))) (kv : Str × ℕ)
    (h : kv.2 = 1 ∧ startsWithX kv.1 = true →
      ∃ nid pos, parseVarName kv.1 = some (nid, pos) ∧ ¬(0 ≤ pos ∧ pos < (n : ℤ))) :
    decodeStep n acc kv = acc := by
  cases acc with
  | none => rfl
  | some route =>
    show (if kv.2 = 1 ∧ startsWithX kv.1 then
        match parseVarName kv.1 with
        | none => none
        | some (node_id, pos) =>
            if 0 ≤ pos ∧ pos < (n : ℤ) then some (route.set pos.toNat (some node_id))
            else some route
      else some route) = some route
    by_cases hc : kv.2 = 1 ∧ startsWithX kv.1 = true
    · rw [if_pos hc]
      obtain ⟨nid, pos, hp, hr⟩ := h hc
      rw [hp]
      show (if 0 ≤ pos ∧ pos < (n : ℤ) then some (route.set pos.toNat (some nid))
        else some route) = some route
      rw [if_neg hr]
    · rw [if_neg hc]

/-! ## Scenario graphs used as concrete inputs -/

/-- Two-node graph with one priority and one normal node (used for the
validate counterexample and witnesses). -/
def gP1N1 : CityGraph :=
  ⟨[⟨"P1".toList, 0, 0, NodeType.priority⟩, ⟨"N1".toList, 1, 0, NodeType.normal⟩],
   [⟨"P1".toList, "N1".toList, 1, TrafficLevel.low⟩],
   defaultMultipliers⟩

/-! ## Claim theorems: error handling and validator -/

/-- C8: graph construction rejects every input with more than one
depot-classified node, with fewer than 2 nodes, or with fewer than
1 edge; `none` is the construction error, so the core never receives
such a graph. -/
theorem mkCityGraph_rejects_invalid (nodes : List Node) (edges : List Edge)
    (mult : List (Str × ℚ))
    (h : nodes.length < 2 ∨ edges.length < 1 ∨
      1 < (nodes.filter (fun n => n.type == NodeType.depot)).length) :
    mkCityGraph nodes edges mult = none := by
  unfold mkCityGraph
  by_cases h1 : nodes.length < 2
  · rw [if_pos h1]
  · rw [if_neg h1]
    by_cases h2 : edges.length < 1
    · rw [if_pos h2]
    · rw [if_neg h2]
      have h3 : 1 < (nodes.filter (fun n => n.type == NodeType.depot)).length := by
        rcases h with h | h | h
        · exact absurd h h1
        · exact absurd h h2
        · exact h
      rw [if_pos h3]

theorem mkCityGraph_rejects_invalid_witness :
    mkCityGraph
      [⟨"D1".toList, 0, 0, NodeType.depot⟩, ⟨"D2".toList, 1, 0, NodeType.depot⟩,
       ⟨"N1".toList, 2, 0, NodeType.normal⟩]
      [⟨"D1".toList, "D2".toList, 1, TrafficLevel.low⟩]
      defaultMultipliers = none :=
  mkCityGraph_rejects_invalid _ _ _ (Or.inr (Or.inr (by decide)))

/-- C9: the distance-reduction percentage is
`(baseline − candidate)/baseline × 100` when the baseline distance is
nonzero, exactly 0 when it is zero (total, no division error), and
baseline 10 with candidate 8 yields 20. -/
theorem compute_distance_reduction_spec (g q : SolverResponse) :
    (g.total_distance ≠ 0 →
      compute_distance_reduction g q =
        (g.total_distance - q.total_distance) / g.total_distance * 100) ∧
    (g.total_distance = 0 → compute_distance_reduction g q = 0) ∧
    (g.total_distance = 10 → q.total_distance = 8 →
      compute_distance_reduction g q = 20) := by
  refine ⟨fun h => ?_, fun h => ?_, fun h1 h2 => ?_⟩
  · rw [compute_distance_reduction, if_neg h]
  · rw [compute_distance_reduction, if_pos h]
  · rw [compute_distance_reduction, if_neg (by rw [h1]; norm_num), h1, h2]
    norm_num

theorem compute_distance_reduction_spec_witness :
    compute_distance_reduction ⟨[], 10, 0, false, false⟩ ⟨[], 8, 0, false, false⟩
      = 20 :=
  (compute_distance_reduction_spec ⟨[], 10, 0, false, false⟩
    ⟨[], 8, 0, false, false⟩).2.2 rfl rfl

/-- C3 counterexample: on the incomplete route `["P1"]` over a graph
with priority node P1 and normal node N1, the claim's rule yields
priority_satisfied = true, but `validate_route` returns false for it —
the flag is not computed independently of the coverage check. -/
theorem validate_route_priority_not_independent :
    specPrioritySatisfied ["P1".toList] gP1N1 = true ∧
    (validate_route ["P1".toList] gP1N1).2 = false := by
  decide

theorem validate_prio_if_eq (ps : List ℕ) (k : ℕ) :
    (if ps.isEmpty then decide (k = 0) else decide (ps.foldl Nat.max 0 < k)) =
    (if k = 0 then ps.isEmpty
     else !ps.isEmpty && decide (ps.foldl Nat.max 0 < k)) := by
  by_cases hps : ps.isEmpty <;> by_cases hk : k = 0 <;>
    simp [hps, hk, Nat.not_lt_zero]

/-- C3 (amended): for every route whose id set equals the graph's id
set, `validate_route`'s priority_satisfied flag equals the claimed
rule (strip leading depot; k = priority count; true iff k = 0 and no
priority node appears, or some priority node appears with maximum
occurrence index < k), independently of the duplicate/length
feasibility check; routes failing set coverage return (false, false)
before the rule is consulted. -/
theorem validate_route_priority_of_coverage (route : List Str) (g : CityGraph)
    (h : setEqStr route (g.nodes.map Node.id) = true) :
    (validate_route route g).2 = specPrioritySatisfied route g := by
  unfold validate_route specPrioritySatisfied
  simp only [h, Bool.true_eq_false, if_false]
  exact validate_prio_if_eq _ _

theorem validate_route_priority_of_coverage_witness :
    (validate_route ["P1".toList, "N1".toList] gP1N1).2 =
      specPrioritySatisfied ["P1".toList, "N1".toList] gP1N1 :=
  validate_route_priority_of_coverage _ _ (by decide)

/-- C7 counterexample: `decode_route` is not total — a 1-valued key
with the `x_` prefix whose final segment is not a numeric literal makes
`int(parts[-1])` raise, modelled as `none`. -/
theorem decode_route_raises_on_malformed :
    decode_route [("x_A_b".toList, 1)] ["A".toList] none = none := by
  decide

/-- C7 (amended): when every 1-valued `x_`-prefixed key has a final
segment accepted by `int`, decode returns a route (no error), and a
key that fails the value/prefix test or whose parsed position lies
outside `[0, n)` is silently ignored and contributes nothing; but a
1-valued `x_`-prefixed key whose final segment `int` rejects raises
(so decode is not total on arbitrary assignments). -/
theorem decode_route_total_and_ignores (node_ids : List Str) (depot_id : Option Str) :
    (∀ sample : List (Str × ℕ),
      (∀ kv ∈ sample, kv.2 = 1 → startsWithX kv.1 = true →
        (parseVarName kv.1).isSome) →
      (decode_route sample node_ids depot_id).isSome) ∧
    (∀ (sample : List (Str × ℕ)) (kv : Str × ℕ),
      (kv.2 = 1 ∧ startsWithX kv.1 = true →
        ∃ nid pos, parseVarName kv.1 = some (nid, pos) ∧
          ¬(0 ≤ pos ∧ pos < (node_ids.length : ℤ))) →
      decode_route (sample ++ [kv]) node_ids depot_id =
        decode_route sample node_ids depot_id) := by
  constructor
  · intro sample h
    unfold decode_route
    have := decodeFold_isSome node_ids.length sample
      (List.replicate node_ids.length none) h
    rcases hf : sample.foldl (decodeStep node_ids.length)
        (some (List.replicate node_ids.length none)) with _ | route
    · rw [hf] at this
      simp at this
    · simp only [hf]
      cases depot_id <;> simp
  · intro sample kv h
    unfold decode_route
    simp only [List.foldl_append, List.foldl_cons, List.foldl_nil,
      decodeStep_ignores _ _ _ h]

theorem decode_route_total_and_ignores_witness :
    (decode_route [("x_A_0".toList, 1)] ["A".toList] none).isSome :=
  (decode_route_total_and_ignores ["A".toList] none).1
    [("x_A_0".toList, 1)] (by decide)

/-! ## Baseline greedy solver (backend/src/greedy_solver.py)

greedy_solve is a two-phase nearest-neighbor heuristic: it visits all
priority nodes, then all normal nodes.  Distances flow through
`math.sqrt` (Euclidean fallback), so weights live in ℝ; the rounded
distance/time/solve-ms response fields are not read by any claim and
are omitted from the modelled result.  The `while` loops are modelled
with fuel `g.nodes.length`, which suffices on every run on which the
Python loop terminates. -/

/-- Base distance and traffic-weighted time between two nodes
(`get_weighted_distance` inside `greedy_solve`): a direct edge gives
`(distance, distance * multiplier)`, else the Euclidean distance with
no traffic adjustment.  The `(0, 0)` arm corresponds to the `KeyError`
Python would raise for an id absent from the graph; every call site
passes ids of graph nodes, so that arm is unreachable in the
algorithm. -/
noncomputable def get_weighted_distance (g : CityGraph) (from_id to_id : Str) : ℝ × ℝ :=
  match g.edges.find? (fun e =>
      (e.from_node == from_id && e.to_node == to_id) ||
      (e.from_node == to_id && e.to_node == from_id)) with
  | some e =>
      (((e.distance : ℚ) : ℝ),
       ((e.distance * dictGet g.traffic_multipliers e.traffic.value 1 : ℚ) : ℝ))
  | none =>
      match g.get_node from_id, g.get_node to_id with
      | some n1, some n2 =>
          let d := Real.sqrt (((n1.x - n2.x) ^ 2 + (n1.y - n2.y) ^ 2 : ℚ) : ℝ)
          (d, d)
      | _, _ => (0, 0)

/-- One fold step of `find_nearest`: keep the best (id, weighted time)
seen so far, replacing it on a strictly smaller weighted time (so the
first-encountered candidate wins ties; `none` models the initial
`best_time = inf`). -/
noncomputable def nnStep (g : CityGraph) (current_id : Str)
    (best : Option (Str × ℝ)) (c : Node) : Option (Str × ℝ) :=
  let wt := (get_weighted_distance g current_id c.id).2
  match best with
  | none => some (c.id, wt)
  | some (bid, bt) => if wt < bt then some (c.id, wt) else some (bid, bt)

/-- Find the nearest candidate by traffic-weighted distance
(`find_nearest`): `none` iff the candidate list is empty. -/
noncomputable def find_nearest (g : CityGraph) (current_id : Str)
    (candidates : List Node) : Option Str :=
  (candidates.foldl (nnStep g current_id) none).map Prod.fst

/-- Phase-1 loop of `greedy_solve` (`while unvisited_priority:`).
Python retries forever when `nearest_id` is falsy (None or the empty
string); under the fuel model such an iteration leaves the state
unchanged. -/
noncomputable def phase1Loop (g : CityGraph) :
    ℕ → Str → List Node → List Str → List Str × Str
  | 0, current, _, route => (route, current)
  | fuel + 1, current, unvisited, route =>
    match unvisited with
    | [] => (route, current)
    | _ :: _ =>
      match find_nearest g current unvisited with
      | some nid =>
        if nid ≠ [] then
          phase1Loop g fuel nid (unvisited.filter (fun n => n.id ≠ nid))
            (route ++ [nid])
        else phase1Loop g fuel current unvisited route
      | none => phase1Loop g fuel current unvisited route

/-- Phase-2 loop of `greedy_solve` (`while unvisited_normal:` with an
explicit `break` on a falsy `nearest_id`). -/
noncomputable def phase2Loop (g : CityGraph) :
    ℕ → Str → List Node → List Str → List Str
  | 0, _, _, route => route
  | fuel + 1, current, unvisited, route =>
    match unvisited with
    | [] => route
    | _ :: _ =>
      match find_nearest g current unvisited with
      | some nid =>
        if nid ≠ [] then
          phase2Loop g fuel nid (unvisited.filter (fun n => n.id ≠ nid))
            (route ++ [nid])
        else route
      | none => route

/-- Baseline result, restricted to the fields the claims read. -/
structure GreedyResult where
  route : List Str
  feasible : Bool
  priority_satisfied : Bool

/-- The route built by `greedy_solve` before its validation section:
phase 1 starts from the first priority node and visits all priority
nodes nearest-first; when there is no priority node the start is the
first normal node (`None` — empty route — when there is neither);
phase 2 then visits the remaining normal nodes.  The depot, being
neither priority- nor normal-classified, is never considered. -/
noncomputable def greedyRoute (g : CityGraph) : List Str :=
  let fuel := g.nodes.length
  let priority_nodes := g.nodes.filter (fun n => n.type == NodeType.priority)
  let normal_nodes := g.nodes.filter (fun n => n.type == NodeType.normal)
  match priority_nodes with
  | p0 :: rest =>
      let r := phase1Loop g fuel p0.id rest [p0.id]
      phase2Loop g fuel r.2 normal_nodes r.1
  | [] =>
      match normal_nodes with
      | n0 :: _ => phase2Loop g fuel n0.id normal_nodes.tail [n0.id]
      | [] => []

/-- The baseline solver (`greedy_solve`): the two-phase route plus the
in-function validation computing the feasible and priority_satisfied
flags exactly as in the source. -/
noncomputable def greedy_solve (g : CityGraph) : GreedyResult :=
  let route := greedyRoute g
  let priority_ids :=
    ((g.nodes.filter (fun n => n.type == NodeType.priority)).map Node.id).dedup
  let k := priority_ids.length
  let priority_satisfied :=
    if 0 < k then
      let priority_positions :=
        (route.enum.filter (fun p => decide (p.2 ∈ priority_ids))).map Prod.fst
      if priority_positions.isEmpty then false
      else decide (priority_positions.foldl Nat.max 0 < k)
    else true
  let feasible :=
    decide (route.length = g.nodes.length) &&
    decide (route.dedup.length = route.length)
  ⟨route, feasible, priority_satisfied⟩

/-! ## Greedy loop lemmas -/

theorem nnStep_isSome (g : CityGraph) (cid : Str) (best : Option (Str × ℝ))
    (c : Node) : (nnStep g cid best c).isSome := by
  cases best with
  | none => rfl
  | some p =>
    rcases p with ⟨bid, bt⟩
    simp only [nnStep]
    split <;> rfl

theorem nnFold_isSome (g : CityGraph) (cid : Str) :
    ∀ (cands : List Node) (acc : Option (Str × ℝ)),
      acc.isSome ∨ cands ≠ [] →
      (cands.foldl (nnStep g cid) acc).isSome := by
  intro cands
  induction cands with
  | nil =>
    intro acc h
    rcases h with h | h
    · simpa using h
    · exact absurd rfl h
  | cons c cs ih =>
    intro acc h
    rw [List.foldl_cons]
    exact ih _ (Or.inl (nnStep_isSome g cid acc c))

theorem nnFold_mem (g : CityGraph) (cid : Str) :
    ∀ (cands : List Node) (acc : Option (Str × ℝ)) (p : Str × ℝ),
      cands.foldl (nnStep g cid) acc = some p →
      (∃ w, acc = some (p.1, w)) ∨ p.1 ∈ cands.map Node.id := by
  intro cands
  induction cands with
  | nil =>
    intro acc p h
    simp only [List.foldl_nil] at h
    exact Or.inl ⟨p.2, by rw [h]⟩
  | cons c cs ih =>
    intro acc p h
    rw [List.foldl_cons] at h
    rcases ih _ p h with ⟨w, hw⟩ | hmem
    · cases acc with
      | none =>
        have h1 : nnStep g cid none c =
            some (c.id, (get_weighted_distance g cid c.id).2) := rfl
        rw [h1] at hw
        have h2 := congrArg Prod.fst (Option.some.inj hw)
        exact Or.inr (by rw [List.map_cons, ← h2]; exact List.mem_cons_self _ _)
      | some q =>
        rcases q with ⟨bid, bt⟩
        have h1 : nnStep g cid (some (bid, bt)) c =
            if (get_weighted_distance g cid c.id).2 < bt
            then some (c.id, (get_weighted_distance g cid c.id).2)
            else some (bid, bt) := rfl
        rw [h1] at hw
        split at hw
        · have h2 := congrArg Prod.fst (Option.some.inj hw)
          exact Or.inr (by rw [List.map_cons, ← h2]; exact List.mem_cons_self _ _)
        · have h2 := congrArg Prod.fst (Option.some.inj hw)
          exact Or.inl ⟨bt, by rw [← h2]⟩
    · exact Or.inr (by rw [List.map_cons]; exact List.mem_cons_of_mem _ hmem)

theorem find_nearest_some (g : CityGraph) (cid : Str) (cands : List Node)
    (h : cands ≠ []) :
    ∃ nid, find_nearest g cid cands = some nid ∧ nid ∈ cands.map Node.id := by
  have hs := nnFold_isSome g cid cands none (Or.inr h)
  rcases hf : cands.foldl (nnStep g cid) none with _ | p
  · rw [hf] at hs
    simp at hs
  · refine ⟨p.1, ?_, ?_⟩
    · rw [find_nearest, hf]
      rfl
    · rcases nnFold_mem g cid cands none p hf with ⟨w, hw⟩ | hm
      · simp at hw
      · exact hm

theorem filter_ne_perm (nid : Str) :
    ∀ (l : List Node), (l.map Node.id).Nodup → nid ∈ l.map Node.id →
      (nid :: (l.filter (fun n => n.id ≠ nid)).map Node.id).Perm
        (l.map Node.id) := by
  intro l
  induction l with
  | nil =>
    intro _ h
    simp at h
  | cons a l ih =>
    intro hnd hmem
    rw [List.map_cons, List.nodup_cons] at hnd
    by_cases ha : a.id = nid
    · rw [List.filter_cons_of_neg (by simp [ha])]
      have hkeep : l.filter (fun n => n.id ≠ nid) = l := by
        rw [List.filter_eq_self]
        intro n hn
        have hne : n.id ≠ nid := by
          intro hc
          have hm : n.id ∈ l.map Node.id := List.mem_map_of_mem Node.id hn
          rw [hc, ← ha] at hm
          exact hnd.1 hm
        simpa using hne
      rw [hkeep, List.map_cons, ← ha]
    · have hmem' : nid ∈ l.map Node.id := by
        rw [List.map_cons, List.mem_cons] at hmem
        rcases hmem with h | h
        · exact absurd h.symm ha
        · exact h
      rw [List.filter_cons_of_pos (by simpa using ha), List.map_cons, List.map_cons]
      exact (List.Perm.swap a.id nid _).trans ((ih hnd.2 hmem').cons a.id)

theorem phase1Loop_appends (g : CityGraph) :
    ∀ (fuel : ℕ) (current : Str) (unvisited : List Node) (route : List Str),
      unvisited.length ≤ fuel →
      (∀ n ∈ unvisited, n.id ≠ []) →
      (unvisited.map Node.id).Nodup →
      ∃ perm : List Str,
        (phase1Loop g fuel current unvisited route).1 = route ++ perm ∧
        perm.Perm (unvisited.map Node.id) := by
  intro fuel
  induction fuel with
  | zero =>
    intro current unvisited route hlen _ _
    have h0 : unvisited = [] := List.length_eq_zero.mp (Nat.le_zero.mp hlen)
    subst h0
    exact ⟨[], by simp [phase1Loop], by simp⟩
  | succ f ih =>
    intro current unvisited route hlen hne hnd
    cases unvisited with
    | nil => exact ⟨[], by simp [phase1Loop], by simp⟩
    | cons u us =>
      obtain ⟨nid, hfn, hmem⟩ := find_nearest_some g current (u :: us) (by simp)
      obtain ⟨n0, hn0mem, hn0id⟩ := List.mem_map.mp hmem
      have hnidne : nid ≠ [] := hn0id ▸ hne n0 hn0mem
      have hstep : phase1Loop g (f + 1) current (u :: us) route =
          phase1Loop g f nid ((u :: us).filter (fun n => n.id ≠ nid))
            (route ++ [nid]) := by
        rw [phase1Loop, hfn]
        show (if nid ≠ [] then
            phase1Loop g f nid ((u :: us).filter (fun n => n.id ≠ nid))
              (route ++ [nid])
          else phase1Loop g f current (u :: us) route) = _
        rw [if_pos hnidne]
      have hperm0 : (nid :: ((u :: us).filter (fun n => n.id ≠ nid)).map Node.id).Perm
          ((u :: us).map Node.id) := filter_ne_perm nid _ hnd hmem
      have hlen' : ((u :: us).filter (fun n => n.id ≠ nid)).length ≤ f := by
        have h1 := hperm0.length_eq
        simp only [List.length_cons, List.length_map] at h1 hlen ⊢
        omega
      have hne' : ∀ n ∈ (u :: us).filter (fun n => n.id ≠ nid), n.id ≠ [] :=
        fun n hn => hne n (List.mem_of_mem_filter hn)
      have hnd' : (((u :: us).filter (fun n => n.id ≠ nid)).map Node.id).Nodup :=
        (List.nodup_cons.mp (hperm0.nodup_iff.mpr hnd)).2
      obtain ⟨perm, hperm1, hperm2⟩ := ih nid _ (route ++ [nid]) hlen' hne' hnd'
      refine ⟨nid :: perm, ?_, ?_⟩
      · rw [hstep, hperm1, List.append_assoc]
        rfl
      · exact (hperm2.cons nid).trans hperm0

theorem phase2Loop_appends (g : CityGraph) :
    ∀ (fuel : ℕ) (current : Str) (unvisited : List Node) (route : List Str),
      unvisited.length ≤ fuel →
      (∀ n ∈ unvisited, n.id ≠ []) →
      (unvisited.map Node.id).Nodup →
      ∃ perm : List Str,
        phase2Loop g fuel current unvisited route = route ++ perm ∧
        perm.Perm (unvisited.map Node.id) := by
  intro fuel
  induction fuel with
  | zero =>
    intro current unvisited route hlen _ _
    have h0 : unvisited = [] := List.length_eq_zero.mp (Nat.le_zero.mp hlen)
    subst h0
    exact ⟨[], by simp [phase2Loop], by simp⟩
  | succ f ih =>
    intro current unvisited route hlen hne hnd
    cases unvisited with
    | nil => exact ⟨[], by simp [phase2Loop], by simp⟩
    | cons u us =>
      obtain ⟨nid, hfn, hmem⟩ := find_nearest_some g current (u :: us) (by simp)
      obtain ⟨n0, hn0mem, hn0id⟩ := List.mem_map.mp hmem
      have hnidne : nid ≠ [] := hn0id ▸ hne n0 hn0mem
      have hstep : phase2Loop g (f + 1) current (u :: us) route =
          phase2Loop g f nid ((u :: us).filter (fun n => n.id ≠ nid))
            (route ++ [nid]) := by
        rw [phase2Loop, hfn]
        show (if nid ≠ [] then
            phase2Loop g f nid ((u :: us).filter (fun n => n.id ≠ nid))
              (route ++ [nid])
          else route) = _
        rw [if_pos hnidne]
      have hperm0 : (nid :: ((u :: us).filter (fun n => n.id ≠ nid)).map Node.id).Perm
          ((u :: us).map Node.id) := filter_ne_perm nid _ hnd hmem
      have hlen' : ((u :: us).filter (fun n => n.id ≠ nid)).length ≤ f := by
        have h1 := hperm0.length_eq
        simp only [List.length_cons, List.length_map] at h1 hlen ⊢
        omega
      have hne' : ∀ n ∈ (u :: us).filter (fun n => n.id ≠ nid), n.id ≠ [] :=
        fun n hn => hne n (List.mem_of_mem_filter hn)
      have hnd' : (((u :: us).filter (fun n => n.id ≠ nid)).map Node.id).Nodup :=
        (List.nodup_cons.mp (hperm0.nodup_iff.mpr hnd)).2
      obtain ⟨perm, hperm1, hperm2⟩ := ih nid _ (route ++ [nid]) hlen' hne' hnd'
      refine ⟨nid :: perm, ?_, ?_⟩
      · rw [hstep, hperm1, List.append_assoc]
        rfl
      · exact (hperm2.cons nid).trans hperm0

/-! ## Greedy route structure -/

theorem greedyRoute_structure (g : CityGraph)
    (hnd : (g.nodes.map Node.id).Nodup)
    (hne : ∀ n ∈ g.nodes, n.id ≠ []) :
    ∃ pPerm nPerm : List Str,
      greedyRoute g = pPerm ++ nPerm ∧
      pPerm.Perm ((g.nodes.filter (fun n => n.type == NodeType.priority)).map Node.id) ∧
      nPerm.Perm ((g.nodes.filter (fun n => n.type == NodeType.normal)).map Node.id) ∧
      pPerm.head? =
        ((g.nodes.filter (fun n => n.type == NodeType.priority)).map Node.id).head? ∧
      (g.nodes.filter (fun n => n.type == NodeType.priority) = [] →
        nPerm.head? =
          ((g.nodes.filter (fun n => n.type == NodeType.normal)).map Node.id).head?) := by
  have hndP : ((g.nodes.filter (fun n => n.type == NodeType.priority)).map Node.id).Nodup :=
    List.Nodup.sublist ((List.filter_sublist _).map _) hnd
  have hndN : ((g.nodes.filter (fun n => n.type == NodeType.normal)).map Node.id).Nodup :=
    List.Nodup.sublist ((List.filter_sublist _).map _) hnd
  have hneP : ∀ n ∈ g.nodes.filter (fun n => n.type == NodeType.priority), n.id ≠ [] :=
    fun n hn => hne n (List.mem_of_mem_filter hn)
  have hneN : ∀ n ∈ g.nodes.filter (fun n => n.type == NodeType.normal), n.id ≠ [] :=
    fun n hn => hne n (List.mem_of_mem_filter hn)
  have hlenN : (g.nodes.filter (fun n => n.type == NodeType.normal)).length ≤
      g.nodes.length := List.length_filter_le _ _
  rcases hp : g.nodes.filter (fun n => n.type == NodeType.priority) with _ | ⟨p0, rest⟩
  · rcases hq : g.nodes.filter (fun n => n.type == NodeType.normal) with _ | ⟨n0, ns⟩
    · refine ⟨[], [], ?_, by rw [hp]; simp, by rw [hq]; simp, by rw [hp]; rfl,
        fun _ => by rw [hq]; rfl⟩
      unfold greedyRoute
      rw [hp, hq]
      rfl
    · rw [hq] at hndN hneN hlenN
      rw [List.map_cons, List.nodup_cons] at hndN
      obtain ⟨permN, hPN1, hPN2⟩ := phase2Loop_appends g g.nodes.length n0.id ns [n0.id]
        (by simp only [List.length_cons] at hlenN; omega)
        (fun n hn => hneN n (List.mem_cons_of_mem n0 hn)) hndN.2
      refine ⟨[], n0.id :: permN, ?_, by rw [hp]; simp, ?_, by rw [hp]; rfl,
        fun _ => by rw [hq]; rfl⟩
      · unfold greedyRoute
        rw [hp, hq]
        show phase2Loop g g.nodes.length n0.id (n0 :: ns).tail [n0.id] = _
        rw [List.tail_cons, hPN1]
        rfl
      · rw [hq, List.map_cons]
        exact hPN2.cons n0.id
  · rw [hp] at hndP hneP
    rw [List.map_cons, List.nodup_cons] at hndP
    obtain ⟨permP, hPP1, hPP2⟩ := phase1Loop_appends g g.nodes.length p0.id rest [p0.id]
      (by
        have := List.length_filter_le (fun n => n.type == NodeType.priority) g.nodes
        rw [hp] at this
        simp only [List.length_cons] at this
        omega)
      (fun n hn => hneP n (List.mem_cons_of_mem p0 hn)) hndP.2
    obtain ⟨permN, hPN1, hPN2⟩ := phase2Loop_appends g g.nodes.length
      (phase1Loop g g.nodes.length p0.id rest [p0.id]).2
      (g.nodes.filter (fun n => n.type == NodeType.normal))
      (phase1Loop g g.nodes.length p0.id rest [p0.id]).1
      hlenN hneN hndN
    refine ⟨p0.id :: permP, permN, ?_, ?_, hPN2, by rw [hp]; rfl, fun hc => by rw [hp] at hc; cases hc⟩
    · unfold greedyRoute
      rw [hp]
      show phase2Loop g g.nodes.length
        (phase1Loop g g.nodes.length p0.id rest [p0.id]).2
        (g.nodes.filter (fun n => n.type == NodeType.normal))
        (phase1Loop g g.nodes.length p0.id rest [p0.id]).1 = _
      rw [hPN1, hPP1]
      rfl
    · rw [hp, List.map_cons]
      exact hPP2.cons p0.id

theorem normal_id_not_priority (g : CityGraph)
    (hnd : (g.nodes.map Node.id).Nodup) :
    ∀ x, x ∈ (g.nodes.filter (fun n => n.type == NodeType.normal)).map Node.id →
      x ∉ (g.nodes.filter (fun n => n.type == NodeType.priority)).map Node.id := by
  intro x hxN hxP
  obtain ⟨n1, hn1, hid1⟩ := List.mem_map.mp hxN
  obtain ⟨n2, hn2, hid2⟩ := List.mem_map.mp hxP
  rw [List.mem_filter] at hn1 hn2
  have ht1 : n1.type = NodeType.normal := by simpa using hn1.2
  have ht2 : n2.type = NodeType.priority := by simpa using hn2.2
  have heq : n1 = n2 :=
    List.inj_on_of_nodup_map hnd hn1.1 hn2.1 (by rw [hid1, hid2])
  rw [heq, ht2] at ht1
  cases ht1

theorem enumFrom_filter_none (P : Str → Prop) [DecidablePred P] :
    ∀ (l : List Str) (k : ℕ), (∀ x ∈ l, ¬ P x) →
      (List.enumFrom k l).filter (fun p => decide (P p.2)) = [] := by
  intro l
  induction l with
  | nil => intro k _; rfl
  | cons x xs ih =>
    intro k h
    show (((k, x) : ℕ × Str) :: List.enumFrom (k + 1) xs).filter
      (fun p => decide (P p.2)) = []
    rw [List.filter_cons_of_neg (by simpa using h x (List.mem_cons_self x xs))]
    exact ih (k + 1) (fun y hy => h y (List.mem_cons_of_mem x hy))

theorem enumFrom_filter_prefix (P : Str → Prop) [DecidablePred P] (post : List Str)
    (hpost : ∀ x ∈ post, ¬ P x) :
    ∀ (pre : List Str) (k : ℕ), (∀ x ∈ pre, P x) →
      ((List.enumFrom k (pre ++ post)).filter (fun p => decide (P p.2))).map Prod.fst =
        List.range' k pre.length := by
  intro pre
  induction pre with
  | nil =>
    intro k _
    rw [List.nil_append, enumFrom_filter_none P post k hpost]
    rfl
  | cons x xs ih =>
    intro k h
    show ((((k, x) : ℕ × Str) :: List.enumFrom (k + 1) (xs ++ post)).filter
      (fun p => decide (P p.2))).map Prod.fst = _
    rw [List.filter_cons_of_pos (by simpa using h x (List.mem_cons_self x xs)),
      List.map_cons, ih (k + 1) (fun y hy => h y (List.mem_cons_of_mem x hy))]
    rfl

theorem foldl_max_lt (k : ℕ) :
    ∀ (l : List ℕ) (acc : ℕ), acc < k → (∀ x ∈ l, x < k) →
      l.foldl Nat.max acc < k := by
  intro l
  induction l with
  | nil =>
    intro acc h _
    simpa using h
  | cons x xs ih =>
    intro acc hacc h
    rw [List.foldl_cons]
    have hx := h x (List.mem_cons_self x xs)
    exact ih _ (Nat.max_lt.mpr ⟨hacc, hx⟩) (fun y hy => h y (List.mem_cons_of_mem x hy))

theorem greedy_priority_satisfied_eq_true (g : CityGraph)
    (hnd : (g.nodes.map Node.id).Nodup)
    (hne : ∀ n ∈ g.nodes, n.id ≠ []) :
    (greedy_solve g).priority_satisfied = true := by
  obtain ⟨pPerm, nPerm, hroute, hpP, hpN, _, _⟩ := greedyRoute_structure g hnd hne
  have hndP : ((g.nodes.filter (fun n => n.type == NodeType.priority)).map Node.id).Nodup :=
    List.Nodup.sublist ((List.filter_sublist _).map _) hnd
  have hdedup : ((g.nodes.filter (fun n => n.type == NodeType.priority)).map Node.id).dedup
      = (g.nodes.filter (fun n => n.type == NodeType.priority)).map Node.id :=
    List.dedup_eq_self.mpr hndP
  have hform : (greedy_solve g).priority_satisfied =
      (if 0 < ((g.nodes.filter (fun n => n.type == NodeType.priority)).map Node.id).dedup.length
        then
          (if (((greedyRoute g).enum.filter (fun p => decide (p.2 ∈
              ((g.nodes.filter (fun n => n.type == NodeType.priority)).map Node.id).dedup))).map
              Prod.fst).isEmpty then false
          else decide ((((greedyRoute g).enum.filter (fun p => decide (p.2 ∈
              ((g.nodes.filter (fun n => n.type == NodeType.priority)).map Node.id).dedup))).map
              Prod.fst).foldl Nat.max 0 <
            ((g.nodes.filter (fun n => n.type == NodeType.priority)).map Node.id).dedup.length))
        else true) := rfl
  rw [hform, hdedup]
  by_cases hk : 0 <
      ((g.nodes.filter (fun n => n.type == NodeType.priority)).map Node.id).length
  · rw [if_pos hk]
    have hpreP : ∀ x ∈ pPerm,
        x ∈ (g.nodes.filter (fun n => n.type == NodeType.priority)).map Node.id :=
      fun x hx => hpP.mem_iff.mp hx
    have hpostP : ∀ x ∈ nPerm,
        ¬ x ∈ (g.nodes.filter (fun n => n.type == NodeType.priority)).map Node.id :=
      fun x hx => normal_id_not_priority g hnd x (hpN.mem_iff.mp hx)
    have hfil : (((greedyRoute g).enum.filter (fun p => decide (p.2 ∈
        ((g.nodes.filter (fun n => n.type == NodeType.priority)).map Node.id)))).map
        Prod.fst) = List.range' 0 pPerm.length := by
      rw [hroute]
      have := enumFrom_filter_prefix
        (fun x => x ∈ (g.nodes.filter (fun n => n.type == NodeType.priority)).map Node.id)
        nPerm hpostP pPerm 0 hpreP
      simpa [List.enum] using this
    rw [hfil]
    have hlenP : pPerm.length =
        ((g.nodes.filter (fun n => n.type == NodeType.priority)).map Node.id).length :=
      hpP.length_eq
    have hnonempty : (List.range' 0 pPerm.length).isEmpty = false := by
      rw [List.isEmpty_eq_false_iff_exists_mem]
      exact ⟨0, by rw [List.mem_range'_1]; omega⟩
    rw [hnonempty]
    simp only [Bool.false_eq_true, if_false, decide_eq_true_eq]
    apply foldl_max_lt
    · omega
    · intro x hx
      rw [List.mem_range'_1] at hx
      omega
  · rw [if_neg hk]

/-- C10: for every graph with unique, nonempty node ids, the baseline
route lists every priority-classified node before any normal-classified
node, and the result's priority_satisfied flag is true: the
implementation enforces priority ordering by construction. -/
theorem greedy_solve_priority_first (g : CityGraph)
    (hnd : (g.nodes.map Node.id).Nodup)
    (hne : ∀ n ∈ g.nodes, n.id ≠ []) :
    (∀ i j x y, (greedy_solve g).route.get? i = some x →
        (greedy_solve g).route.get? j = some y →
        x ∈ g.priority_nodes.map Node.id →
        y ∈ g.normal_nodes.map Node.id → i < j) ∧
    (greedy_solve g).priority_satisfied = true := by
  refine ⟨?_, greedy_priority_satisfied_eq_true g hnd hne⟩
  obtain ⟨pPerm, nPerm, hroute, hpP, hpN, _, _⟩ := greedyRoute_structure g hnd hne
  intro i j x y hi hj hxP hyN
  have hrr : (greedy_solve g).route = pPerm ++ nPerm := hroute
  rw [hrr] at hi hj
  have hxP' : x ∈ (g.nodes.filter (fun n => n.type == NodeType.priority)).map Node.id :=
    hxP
  have hyN' : y ∈ (g.nodes.filter (fun n => n.type == NodeType.normal)).map Node.id :=
    hyN
  have hi' : i < pPerm.length := by
    by_contra hcon
    push_neg at hcon
    rw [List.get?_append_right hcon] at hi
    have hMem : x ∈ nPerm := List.get?_mem hi
    exact normal_id_not_priority g hnd x (hpN.mem_iff.mp hMem) hxP'
  have hj' : pPerm.length ≤ j := by
    by_contra hcon
    push_neg at hcon
    rw [List.get?_append hcon] at hj
    have hMem : y ∈ pPerm := List.get?_mem hj
    exact normal_id_not_priority g hnd y hyN' (hpP.mem_iff.mp hMem)
  omega

theorem greedy_solve_priority_first_witness :
    (greedy_solve gP1N1).priority_satisfied = true :=
  (greedy_solve_priority_first gP1N1 (by decide) (by decide)).2

/-- Three-node graph (P1, P2 priority; N1 normal) in which, from P1,
the normal node N1 is strictly nearer than the other priority node P2. -/
def gC2 : CityGraph :=
  ⟨[⟨"P1".toList, 0, 0, NodeType.priority⟩, ⟨"P2".toList, 10, 0, NodeType.priority⟩,
    ⟨"N1".toList, 1, 0, NodeType.normal⟩],
   [⟨"P1".toList, "P2".toList, 10, TrafficLevel.low⟩,
    ⟨"P1".toList, "N1".toList, 1, TrafficLevel.low⟩,
    ⟨"P2".toList, "N1".toList, 9, TrafficLevel.low⟩],
   defaultMultipliers⟩

/-- C2 counterexample: after starting at P1, the unvisited node of
minimum traffic-weighted cost from P1 is N1 (cost 1 versus 10 for P2),
yet the baseline appends P2 next — each step's candidates are
restricted to priority nodes before normal nodes, contradicting the
claim; the route also does not start at a depot-independent "first
node" choice among all nodes but at the first priority node. -/
theorem greedy_not_all_unvisited :
    (greedy_solve gC2).route = ["P1".toList, "P2".toList, "N1".toList] ∧
    (get_weighted_distance gC2 "P1".toList "N1".toList).2 <
      (get_weighted_distance gC2 "P1".toList "P2".toList).2 := by
  constructor
  · rfl
  · have h1 : (get_weighted_distance gC2 "P1".toList "N1".toList).2 =
        ((1 * 1 : ℚ) : ℝ) := rfl
    have h2 : (get_weighted_distance gC2 "P1".toList "P2".toList).2 =
        ((10 * 1 : ℚ) : ℝ) := rfl
    rw [h1, h2]
    norm_num

/-- The selection rule of the amended claim, written from its words:
starting at `current`, the route visits all of `cands`, at every step
picking an unvisited candidate whose traffic-weighted cost from the
current node is minimal among the unvisited candidates — the first
such candidate in enumeration order on a tie — appending it and moving
there. -/
def NNVisitsAll (g : CityGraph) : Str → List Node → List Str → Prop
  | _, cands, [] => cands = []
  | current, cands, next :: rest =>
      (∃ pre c post, cands = pre ++ c :: post ∧ next = c.id ∧
        (∀ d ∈ pre, (get_weighted_distance g current c.id).2 <
          (get_weighted_distance g current d.id).2) ∧
        (∀ d ∈ cands, (get_weighted_distance g current c.id).2 ≤
          (get_weighted_distance g current d.id).2)) ∧
      NNVisitsAll g next (cands.filter (fun n => n.id ≠ next)) rest

theorem nnFold_spec (g : CityGraph) (cid : Str) :
    ∀ (cands : List Node) (bid : Str) (bt : ℝ),
      (cands.foldl (nnStep g cid) (some (bid, bt)) = some (bid, bt) ∧
        ∀ d ∈ cands, bt ≤ (get_weighted_distance g cid d.id).2) ∨
      (∃ pre c post, cands = pre ++ c :: post ∧
        cands.foldl (nnStep g cid) (some (bid, bt)) =
          some (c.id, (get_weighted_distance g cid c.id).2) ∧
        (get_weighted_distance g cid c.id).2 < bt ∧
        (∀ d ∈ pre, (get_weighted_distance g cid c.id).2 <
          (get_weighted_distance g cid d.id).2) ∧
        (∀ d ∈ post, (get_weighted_distance g cid c.id).2 ≤
          (get_weighted_distance g cid d.id).2)) := by
  intro cands
  induction cands with
  | nil =>
    intro bid bt
    exact Or.inl ⟨rfl, by simp⟩
  | cons u us ih =>
    intro bid bt
    by_cases hu : (get_weighted_distance g cid u.id).2 < bt
    · have hfold : (u :: us).foldl (nnStep g cid) (some (bid, bt)) =
          us.foldl (nnStep g cid)
            (some (u.id, (get_weighted_distance g cid u.id).2)) := by
        rw [List.foldl_cons]
        have hs : nnStep g cid (some (bid, bt)) u =
            some (u.id, (get_weighted_distance g cid u.id).2) := by
          show (if (get_weighted_distance g cid u.id).2 < bt
            then some (u.id, (get_weighted_distance g cid u.id).2)
            else some (bid, bt)) = _
          rw [if_pos hu]
        rw [hs]
      rcases ih u.id (get_weighted_distance g cid u.id).2 with
        ⟨hf, hall⟩ | ⟨pre, c, post, hsplit, hf, hlt, hpre, hpost⟩
      · exact Or.inr ⟨[], u, us, rfl, hfold.trans hf, hu, by simp, hall⟩
      · refine Or.inr ⟨u :: pre, c, post, by rw [hsplit, List.cons_append], hfold.trans hf,
          lt_trans hlt hu, ?_, hpost⟩
        intro d hd
        rcases List.mem_cons.mp hd with rfl | hd'
        · exact hlt
        · exact hpre d hd'
    · have hfold : (u :: us).foldl (nnStep g cid) (some (bid, bt)) =
          us.foldl (nnStep g cid) (some (bid, bt)) := by
        rw [List.foldl_cons]
        have hs : nnStep g cid (some (bid, bt)) u = some (bid, bt) := by
          show (if (get_weighted_distance g cid u.id).2 < bt
            then some (u.id, (get_weighted_distance g cid u.id).2)
            else some (bid, bt)) = _
          rw [if_neg hu]
        rw [hs]
      rcases ih bid bt with
        ⟨hf, hall⟩ | ⟨pre, c, post, hsplit, hf, hlt, hpre, hpost⟩
      · refine Or.inl ⟨hfold.trans hf, ?_⟩
        intro d hd
        rcases List.mem_cons.mp hd with rfl | hd'
        · exact not_lt.mp hu
        · exact hall d hd'
      · refine Or.inr ⟨u :: pre, c, post, by rw [hsplit, List.cons_append], hfold.trans hf, hlt,
          ?_, hpost⟩
        intro d hd
        rcases List.mem_cons.mp hd with rfl | hd'
        · exact lt_of_lt_of_le hlt (not_lt.mp hu)
        · exact hpre d hd'

theorem find_nearest_first_min (g : CityGraph) (cid : Str)
    (cands : List Node) (hne : cands ≠ []) :
    ∃ pre c post, cands = pre ++ c :: post ∧
      find_nearest g cid cands = some c.id ∧
      (∀ d ∈ pre, (get_weighted_distance g cid c.id).2 <
        (get_weighted_distance g cid d.id).2) ∧
      (∀ d ∈ cands, (get_weighted_distance g cid c.id).2 ≤
        (get_weighted_distance g cid d.id).2) := by
  cases cands with
  | nil => exact absurd rfl hne
  | cons u us =>
    have hfold : (u :: us).foldl (nnStep g cid) none =
        us.foldl (nnStep g cid)
          (some (u.id, (get_weighted_distance g cid u.id).2)) := by
      rw [List.foldl_cons]
      rfl
    rcases nnFold_spec g cid us u.id (get_weighted_distance g cid u.id).2 with
      ⟨hf, hall⟩ | ⟨pre, c, post, hsplit, hf, hlt, hpre, hpost⟩
    · refine ⟨[], u, us, rfl, ?_, by simp, ?_⟩
      · rw [find_nearest, hfold, hf]
        rfl
      · intro d hd
        rcases List.mem_cons.mp hd with rfl | hd'
        · exact le_refl _
        · exact hall d hd'
    · refine ⟨u :: pre, c, post, by rw [hsplit, List.cons_append], ?_, ?_, ?_⟩
      · rw [find_nearest, hfold, hf]
        rfl
      · intro d hd
        rcases List.mem_cons.mp hd with rfl | hd'
        · exact hlt
        · exact hpre d hd'
      · intro d hd
        rcases List.mem_cons.mp hd with rfl | hd'
        · exact le_of_lt hlt
        · rw [hsplit] at hd'
          rcases List.mem_append.mp hd' with hd2 | hd2
          · exact le_of_lt (hpre d hd2)
          · rcases List.mem_cons.mp hd2 with rfl | hd3
            · exact le_refl _
            · exact hpost d hd3

theorem phase1Loop_nn (g : CityGraph) :
    ∀ (fuel : ℕ) (current : Str) (unvisited : List Node) (route : List Str),
      unvisited.length ≤ fuel →
      (∀ n ∈ unvisited, n.id ≠ []) →
      ∃ perm : List Str,
        phase1Loop g fuel current unvisited route =
          (route ++ perm, perm.getLastD current) ∧
        NNVisitsAll g current unvisited perm := by
  intro fuel
  induction fuel with
  | zero =>
    intro current unvisited route hlen _
    have h0 : unvisited = [] := List.length_eq_zero.mp (Nat.le_zero.mp hlen)
    subst h0
    exact ⟨[], by simp [phase1Loop], rfl⟩
  | succ f ih =>
    intro current unvisited route hlen hne
    cases unvisited with
    | nil => exact ⟨[], by simp [phase1Loop], rfl⟩
    | cons u us =>
      obtain ⟨pre, c, post, hsplit, hfn, hpre, hall⟩ :=
        find_nearest_first_min g current (u :: us) (by simp)
      have hcmem : c ∈ u :: us := by
        rw [hsplit]
        exact List.mem_append_right _ (List.mem_cons_self _ _)
      have hcne : c.id ≠ [] := hne c hcmem
      have hstep : phase1Loop g (f + 1) current (u :: us) route =
          phase1Loop g f c.id ((u :: us).filter (fun n => n.id ≠ c.id))
            (route ++ [c.id]) := by
        rw [phase1Loop, hfn]
        show (if c.id ≠ [] then
            phase1Loop g f c.id ((u :: us).filter (fun n => n.id ≠ c.id))
              (route ++ [c.id])
          else phase1Loop g f current (u :: us) route) = _
        rw [if_pos hcne]
      have hflt : ((u :: us).filter (fun n => n.id ≠ c.id)).length <
          (u :: us).length := by
        rw [List.length_filter_lt_length_iff_exists]
        exact ⟨c, hcmem, by simp⟩
      have hlen' : ((u :: us).filter (fun n => n.id ≠ c.id)).length ≤ f := by
        simp only [List.length_cons] at hlen hflt
        omega
      have hne' : ∀ n ∈ (u :: us).filter (fun n => n.id ≠ c.id), n.id ≠ [] :=
        fun n hn => hne n (List.mem_of_mem_filter hn)
      obtain ⟨perm, hloop, hnn⟩ := ih c.id _ (route ++ [c.id]) hlen' hne'
      refine ⟨c.id :: perm, ?_, ?_⟩
      · rw [hstep, hloop]
        have h1 : route ++ [c.id] ++ perm = route ++ c.id :: perm := by
          rw [List.append_assoc]
          rfl
        have h2 : perm.getLastD c.id = (c.id :: perm).getLastD current :=
          (List.getLastD_cons current c.id perm).symm
        rw [h1, h2]
      · exact ⟨⟨pre, c, post, hsplit, rfl, hpre, hall⟩, hnn⟩

theorem phase2Loop_nn (g : CityGraph) :
    ∀ (fuel : ℕ) (current : Str) (unvisited : List Node) (route : List Str),
      unvisited.length ≤ fuel →
      (∀ n ∈ unvisited, n.id ≠ []) →
      ∃ perm : List Str,
        phase2Loop g fuel current unvisited route = route ++ perm ∧
        NNVisitsAll g current unvisited perm := by
  intro fuel
  induction fuel with
  | zero =>
    intro current unvisited route hlen _
    have h0 : unvisited = [] := List.length_eq_zero.mp (Nat.le_zero.mp hlen)
    subst h0
    exact ⟨[], by simp [phase2Loop], rfl⟩
  | succ f ih =>
    intro current unvisited route hlen hne
    cases unvisited with
    | nil => exact ⟨[], by simp [phase2Loop], rfl⟩
    | cons u us =>
      obtain ⟨pre, c, post, hsplit, hfn, hpre, hall⟩ :=
        find_nearest_first_min g current (u :: us) (by simp)
      have hcmem : c ∈ u :: us := by
        rw [hsplit]
        exact List.mem_append_right _ (List.mem_cons_self _ _)
      have hcne : c.id ≠ [] := hne c hcmem
      have hstep : phase2Loop g (f + 1) current (u :: us) route =
          phase2Loop g f c.id ((u :: us).filter (fun n => n.id ≠ c.id))
            (route ++ [c.id]) := by
        rw [phase2Loop, hfn]
        show (if c.id ≠ [] then
            phase2Loop g f c.id ((u :: us).filter (fun n => n.id ≠ c.id))
              (route ++ [c.id])
          else route) = _
        rw [if_pos hcne]
      have hflt : ((u :: us).filter (fun n => n.id ≠ c.id)).length <
          (u :: us).length := by
        rw [List.length_filter_lt_length_iff_exists]
        exact ⟨c, hcmem, by simp⟩
      have hlen' : ((u :: us).filter (fun n => n.id ≠ c.id)).length ≤ f := by
        simp only [List.length_cons] at hlen hflt
        omega
      have hne' : ∀ n ∈ (u :: us).filter (fun n => n.id ≠ c.id), n.id ≠ [] :=
        fun n hn => hne n (List.mem_of_mem_filter hn)
      obtain ⟨perm, hloop, hnn⟩ := ih c.id _ (route ++ [c.id]) hlen' hne'
      refine ⟨c.id :: perm, ?_, ?_⟩
      · rw [hstep, hloop, List.append_assoc]
        rfl
      · exact ⟨⟨pre, c, post, hsplit, rfl, hpre, hall⟩, hnn⟩

theorem NNVisitsAll_perm (g : CityGraph) :
    ∀ (perm : List Str) (current : Str) (cands : List Node),
      (cands.map Node.id).Nodup →
      NNVisitsAll g current cands perm →
      perm.Perm (cands.map Node.id) := by
  intro perm
  induction perm with
  | nil =>
    intro current cands _ h
    have h' : cands = [] := h
    subst h'
    exact List.Perm.nil
  | cons next rest ih =>
    intro current cands hnd h
    have h' : (∃ pre c post, cands = pre ++ c :: post ∧ next = c.id ∧
        (∀ d ∈ pre, (get_weighted_distance g current c.id).2 <
          (get_weighted_distance g current d.id).2) ∧
        (∀ d ∈ cands, (get_weighted_distance g current c.id).2 ≤
          (get_weighted_distance g current d.id).2)) ∧
        NNVisitsAll g next (cands.filter (fun n => n.id ≠ next)) rest := h
    obtain ⟨⟨pre, c, post, hsplit, hnext, _, _⟩, hrec⟩ := h'
    have hcmem : c ∈ cands := by
      rw [hsplit]
      exact List.mem_append_right _ (List.mem_cons_self _ _)
    have hmemN : next ∈ cands.map Node.id := by
      rw [hnext]
      exact List.mem_map_of_mem Node.id hcmem
    have hperm0 :=
      filter_ne_perm next cands hnd hmemN
    have hnd' : ((cands.filter (fun n => n.id ≠ next)).map Node.id).Nodup :=
      (List.nodup_cons.mp (hperm0.nodup_iff.mpr hnd)).2
    exact ((ih next _ hnd' hrec).cons next).trans hperm0

theorem greedyRoute_nn (g : CityGraph)
    (hnd : (g.nodes.map Node.id).Nodup)
    (hne : ∀ n ∈ g.nodes, n.id ≠ []) :
    ∃ pPerm nPerm : List Str,
      greedyRoute g = pPerm ++ nPerm ∧
      pPerm.Perm ((g.nodes.filter (fun n => n.type == NodeType.priority)).map Node.id) ∧
      nPerm.Perm ((g.nodes.filter (fun n => n.type == NodeType.normal)).map Node.id) ∧
      pPerm.head? =
        ((g.nodes.filter (fun n => n.type == NodeType.priority)).map Node.id).head? ∧
      (g.nodes.filter (fun n => n.type == NodeType.priority) = [] →
        nPerm.head? =
          ((g.nodes.filter (fun n => n.type == NodeType.normal)).map Node.id).head?) ∧
      (∀ p0 prest,
        g.nodes.filter (fun n => n.type == NodeType.priority) = p0 :: prest →
        NNVisitsAll g p0.id prest pPerm.tail ∧
        NNVisitsAll g (pPerm.getLastD p0.id)
          (g.nodes.filter (fun n => n.type == NodeType.normal)) nPerm) ∧
      (g.nodes.filter (fun n => n.type == NodeType.priority) = [] →
        ∀ n0 nrest,
          g.nodes.filter (fun n => n.type == NodeType.normal) = n0 :: nrest →
          NNVisitsAll g n0.id nrest nPerm.tail) := by
  have hndP : ((g.nodes.filter (fun n => n.type == NodeType.priority)).map Node.id).Nodup :=
    List.Nodup.sublist ((List.filter_sublist _).map _) hnd
  have hndN : ((g.nodes.filter (fun n => n.type == NodeType.normal)).map Node.id).Nodup :=
    List.Nodup.sublist ((List.filter_sublist _).map _) hnd
  have hneN : ∀ n ∈ g.nodes.filter (fun n => n.type == NodeType.normal), n.id ≠ [] :=
    fun n hn => hne n (List.mem_of_mem_filter hn)
  have hlenN : (g.nodes.filter (fun n => n.type == NodeType.normal)).length ≤
      g.nodes.length := List.length_filter_le _ _
  rcases hp : g.nodes.filter (fun n => n.type == NodeType.priority) with _ | ⟨p0, prest⟩
  · rcases hq : g.nodes.filter (fun n => n.type == NodeType.normal) with _ | ⟨n0, ns⟩
    · refine ⟨[], [], ?_, ?_, ?_, ?_, ?_, ?_, ?_⟩
      · unfold greedyRoute
        rw [hp, hq]
        rfl
      · rw [hp]
        exact List.Perm.nil
      · rw [hq]
        exact List.Perm.nil
      · rw [hp]
        rfl
      · intro _
        rw [hq]
        rfl
      · intro p0 prest hp'
        rw [hp] at hp'
        cases hp'
      · intro _ n0 nrest hn'
        rw [hq] at hn'
        cases hn'
    · have hlen' : ns.length ≤ g.nodes.length := by
        have h1 := List.length_filter_le (fun n => n.type == NodeType.normal) g.nodes
        rw [hq] at h1
        simp only [List.length_cons] at h1
        omega
      have hne' : ∀ n ∈ ns, n.id ≠ [] := by
        intro n hn
        have hmemf : n ∈ g.nodes.filter (fun n => n.type == NodeType.normal) := by
          rw [hq]
          exact List.mem_cons_of_mem n0 hn
        exact hne n (List.mem_of_mem_filter hmemf)
      obtain ⟨perm, hloop, hnn⟩ :=
        phase2Loop_nn g g.nodes.length n0.id ns [n0.id] hlen' hne'
      have hndns : (ns.map Node.id).Nodup := by
        rw [hq, List.map_cons, List.nodup_cons] at hndN
        exact hndN.2
      refine ⟨[], n0.id :: perm, ?_, ?_, ?_, ?_, ?_, ?_, ?_⟩
      · unfold greedyRoute
        rw [hp, hq]
        show phase2Loop g g.nodes.length n0.id (n0 :: ns).tail [n0.id] = _
        rw [List.tail_cons, hloop]
        rfl
      · rw [hp]
        exact List.Perm.nil
      · rw [hq, List.map_cons]
        exact (NNVisitsAll_perm g perm n0.id ns hndns hnn).cons n0.id
      · rw [hp]
        rfl
      · intro _
        rw [hq]
        rfl
      · intro p0 prest hp'
        rw [hp] at hp'
        cases hp'
      · intro _ n0' nrest hn'
        rw [hq] at hn'
        obtain ⟨h1, h2⟩ := List.cons.inj hn'
        subst h1
        subst h2
        exact hnn
  · have hlenP : prest.length ≤ g.nodes.length := by
      have h1 := List.length_filter_le (fun n => n.type == NodeType.priority) g.nodes
      rw [hp] at h1
      simp only [List.length_cons] at h1
      omega
    have hneP' : ∀ n ∈ prest, n.id ≠ [] := by
      intro n hn
      have hmemf : n ∈ g.nodes.filter (fun n => n.type == NodeType.priority) := by
        rw [hp]
        exact List.mem_cons_of_mem p0 hn
      exact hne n (List.mem_of_mem_filter hmemf)
    obtain ⟨permP, hloopP, hnnP⟩ :=
      phase1Loop_nn g g.nodes.length p0.id prest [p0.id] hlenP hneP'
    obtain ⟨permN, hloopN, hnnN⟩ := phase2Loop_nn g g.nodes.length
      (phase1Loop g g.nodes.length p0.id prest [p0.id]).2
      (g.nodes.filter (fun n => n.type == NodeType.normal))
      (phase1Loop g g.nodes.length p0.id prest [p0.id]).1
      hlenN hneN
    have hsnd : (phase1Loop g g.nodes.length p0.id prest [p0.id]).2 =
        permP.getLastD p0.id := by
      rw [hloopP]
    have hfst : (phase1Loop g g.nodes.length p0.id prest [p0.id]).1 =
        [p0.id] ++ permP := by
      rw [hloopP]
    rw [hsnd] at hnnN
    have hroute : greedyRoute g = (p0.id :: permP) ++ permN := by
      unfold greedyRoute
      rw [hp]
      show phase2Loop g g.nodes.length
        (phase1Loop g g.nodes.length p0.id prest [p0.id]).2
        (g.nodes.filter (fun n => n.type == NodeType.normal))
        (phase1Loop g g.nodes.length p0.id prest [p0.id]).1 = _
      rw [hloopN, hfst]
      rfl
    have hndprest : (prest.map Node.id).Nodup := by
      rw [hp, List.map_cons, List.nodup_cons] at hndP
      exact hndP.2
    refine ⟨p0.id :: permP, permN, hroute, ?_, ?_, ?_, ?_, ?_, ?_⟩
    · rw [hp, List.map_cons]
      exact (NNVisitsAll_perm g permP p0.id prest hndprest hnnP).cons p0.id
    · exact NNVisitsAll_perm g permN _ _ hndN hnnN
    · rw [hp]
      rfl
    · intro hc
      rw [hp] at hc
      cases hc
    · intro p0' prest' hp'
      rw [hp] at hp'
      obtain ⟨h1, h2⟩ := List.cons.inj hp'
      subst h1
      subst h2
      refine ⟨hnnP, ?_⟩
      rw [List.getLastD_cons]
      exact hnnN
    · intro hc
      rw [hp] at hc
      cases hc

/-- C2 (amended): the baseline does not pick each step's node among all
unvisited nodes: it is a two-phase priority-first nearest neighbor.
For every graph with unique, nonempty node ids, the route is the
priority ids followed by the normal ids, starting at the first
priority node in enumeration order (or the first normal node when
there is no priority node); within each phase every subsequent node is
an unvisited node of that phase's class with minimum traffic-weighted
cost from the current node, the first such in enumeration order on a
tie (`NNVisitsAll`), phase 2 resuming from the last phase-1 node; and
a depot node is never visited at all (rather than being the start). -/
theorem greedy_solve_two_phase (g : CityGraph)
    (hnd : (g.nodes.map Node.id).Nodup)
    (hne : ∀ n ∈ g.nodes, n.id ≠ []) :
    (∃ pPerm nPerm : List Str,
      (greedy_solve g).route = pPerm ++ nPerm ∧
      pPerm.Perm (g.priority_nodes.map Node.id) ∧
      nPerm.Perm (g.normal_nodes.map Node.id) ∧
      pPerm.head? = (g.priority_nodes.map Node.id).head? ∧
      (g.priority_nodes = [] →
        nPerm.head? = (g.normal_nodes.map Node.id).head?) ∧
      (∀ p0 prest, g.priority_nodes = p0 :: prest →
        NNVisitsAll g p0.id prest pPerm.tail ∧
        NNVisitsAll g (pPerm.getLastD p0.id) g.normal_nodes nPerm) ∧
      (g.priority_nodes = [] →
        ∀ n0 nrest, g.normal_nodes = n0 :: nrest →
          NNVisitsAll g n0.id nrest nPerm.tail)) ∧
    (∀ n ∈ g.nodes, n.type = NodeType.depot →
      n.id ∉ (greedy_solve g).route) := by
  obtain ⟨pPerm, nPerm, hroute, hpP, hpN, hheadP, hheadN, hnnP, hnnN⟩ :=
    greedyRoute_nn g hnd hne
  constructor
  · exact ⟨pPerm, nPerm, hroute, hpP, hpN, hheadP, hheadN, hnnP, hnnN⟩
  · intro n hn htype hmem
    have hmem' : n.id ∈ pPerm ++ nPerm := by
      have hrr : (greedy_solve g).route = pPerm ++ nPerm := hroute
      rw [← hrr]
      exact hmem
    rcases List.mem_append.mp hmem' with hm | hm
    · have hx : n.id ∈
          (g.nodes.filter (fun m => m.type == NodeType.priority)).map Node.id :=
        hpP.mem_iff.mp hm
      obtain ⟨m, hmf, hmid⟩ := List.mem_map.mp hx
      rw [List.mem_filter] at hmf
      have heqn : n = m := List.inj_on_of_nodup_map hnd hn hmf.1 hmid.symm
      have ht : m.type = NodeType.priority := by simpa using hmf.2
      rw [heqn, ht] at htype
      cases htype
    · have hx : n.id ∈
          (g.nodes.filter (fun m => m.type == NodeType.normal)).map Node.id :=
        hpN.mem_iff.mp hm
      obtain ⟨m, hmf, hmid⟩ := List.mem_map.mp hx
      rw [List.mem_filter] at hmf
      have heqn : n = m := List.inj_on_of_nodup_map hnd hn hmf.1 hmid.symm
      have ht : m.type = NodeType.normal := by simpa using hmf.2
      rw [heqn, ht] at htype
      cases htype

theorem greedy_solve_two_phase_witness :
    (∃ pPerm nPerm : List Str,
      (greedy_solve gC2).route = pPerm ++ nPerm ∧
      pPerm.Perm (gC2.priority_nodes.map Node.id) ∧
      nPerm.Perm (gC2.normal_nodes.map Node.id) ∧
      pPerm.head? = (gC2.priority_nodes.map Node.id).head? ∧
      (gC2.priority_nodes = [] →
        nPerm.head? = (gC2.normal_nodes.map Node.id).head?) ∧
      (∀ p0 prest, gC2.priority_nodes = p0 :: prest →
        NNVisitsAll gC2 p0.id prest pPerm.tail ∧
        NNVisitsAll gC2 (pPerm.getLastD p0.id) gC2.normal_nodes nPerm) ∧
      (gC2.priority_nodes = [] →
        ∀ n0 nrest, gC2.normal_nodes = n0 :: nrest →
          NNVisitsAll gC2 n0.id nrest nPerm.tail)) ∧
    (∀ n ∈ gC2.nodes, n.type = NodeType.depot →
      n.id ∉ (greedy_solve gC2).route) :=
  greedy_solve_two_phase gC2 (by decide) (by decide)

/-! ## QUBO builder (backend/src/qubo_builder.py, build_qubo)

A dimod `BinaryQuadraticModel` is modelled by its insertion-ordered
variable list, total linear-bias function, symmetric quadratic-bias
function (0 where dimod stores no interaction, matching dimod's
adjacency semantics in every read the code performs) and offset.
Biases accumulate additively, exactly as dimod's `add_linear` /
`add_quadratic` do. -/

structure BQM where
  vars : List Str
  linear : Str → ℝ
  quad : Str → Str → ℝ
  offset : ℝ

/-- dimod `add_variable(v, bias)`: registers the variable (insertion
order, no duplicates) and adds to its linear bias. -/
noncomputable def BQM.add_variable (b : BQM) (v : Str) (bias : ℝ) : BQM :=
  { b with
    vars := if v ∈ b.vars then b.vars else b.vars ++ [v]
    linear := fun w => if w = v then b.linear w + bias else b.linear w }

/-- dimod `add_linear(v, bias)`: same registration-and-accumulate
behavior as `add_variable`. -/
noncomputable def BQM.add_linear (b : BQM) (v : Str) (bias : ℝ) : BQM :=
  b.add_variable v bias

/-- dimod `add_quadratic(u, v, bias)`: registers both variables and
adds to the (unordered) interaction bias. -/
noncomputable def BQM.add_quadratic (b : BQM) (u v : Str) (bias : ℝ) : BQM :=
  { b with
    vars :=
      let vs := if u ∈ b.vars then b.vars else b.vars ++ [u]
      if v ∈ vs then vs else vs ++ [v]
    quad := fun a c =>
      if (a = u ∧ c = v) ∨ (a = v ∧ c = u) then b.quad a c + bias else b.quad a c }

/-- The empty binary BQM. -/
noncomputable def emptyBQM : BQM := ⟨[], fun _ => 0, fun _ _ => 0, 0⟩

/-- Registration loop of `build_qubo`: `add_variable(var(nid, p), 0.0)`
for every delivery node id and position. -/
noncomputable def addVarsLoop (node_ids : List Str) (n : ℕ) (b : BQM) : BQM :=
  node_ids.foldl (fun b nid =>
    (List.range n).foldl (fun b p => b.add_variable (vrName nid p) 0) b) b

/-- Constraint 1 of `build_qubo` (one node per position): per position,
`-2A` linear on every variable, `+2A` quadratic on every i<j node pair,
`+A` offset. -/
noncomputable def constraint1 (node_ids : List Str) (n : ℕ) (A : ℚ) (b : BQM) : BQM :=
  (List.range n).foldl (fun b p =>
    let b1 := node_ids.foldl (fun b nid =>
      b.add_linear (vrName nid p) (-2 * (A : ℝ))) b
    let b2 := node_ids.enum.foldl (fun b pi =>
      node_ids.enum.foldl (fun b pj =>
        if pi.1 < pj.1 then
          b.add_quadratic (vrName pi.2 p) (vrName pj.2 p) (2 * (A : ℝ))
        else b) b) b1
    { b2 with offset := b2.offset + (A : ℝ) }) b

/-- Constraint 2 of `build_qubo` (one position per node): per node,
`-2A` linear on every position, `+2A` quadratic on every p<q position
pair, `+A` offset. -/
noncomputable def constraint2 (node_ids : List Str) (n : ℕ) (A : ℚ) (b : BQM) : BQM :=
  node_ids.foldl (fun b nid =>
    let b1 := (List.range n).foldl (fun b p =>
      b.add_linear (vrName nid p) (-2 * (A : ℝ))) b
    let b2 := (List.range n).foldl (fun b p =>
      (List.range' (p + 1) (n - (p + 1))).foldl (fun b q =>
        b.add_quadratic (vrName nid p) (vrName nid q) (2 * (A : ℝ))) b) b1
    { b2 with offset := b2.offset + (A : ℝ) }) b

/-- Constraint 3 of `build_qubo` (priority zone): `+B` linear on
priority variables at positions ≥ k and on normal variables at
positions < k. -/
noncomputable def constraint3 (priority_ids normal_ids : List Str) (n k : ℕ)
    (B : ℚ) (b : BQM) : BQM :=
  let b1 := priority_ids.foldl (fun b nid =>
    (List.range' k (n - k)).foldl (fun b p =>
      b.add_linear (vrName nid p) (B : ℝ)) b) b
  normal_ids.foldl (fun b nid =>
    (List.range k).foldl (fun b p =>
      b.add_linear (vrName nid p) (B : ℝ)) b) b1

/-- Constraint 4 of `build_qubo` (priority coverage): the row one-hot
pattern reapplied to priority nodes with coefficient Bp. -/
noncomputable def constraint4 (priority_ids : List Str) (n : ℕ) (Bp : ℚ)
    (b : BQM) : BQM :=
  priority_ids.foldl (fun b nid =>
    let b1 := (List.range n).foldl (fun b p =>
      b.add_linear (vrName nid p) (-2 * (Bp : ℝ))) b
    let b2 := (List.range n).foldl (fun b p =>
      (List.range' (p + 1) (n - (p + 1))).foldl (fun b q =>
        b.add_quadratic (vrName nid p) (vrName nid q) (2 * (Bp : ℝ))) b) b1
    { b2 with offset := b2.offset + (Bp : ℝ) }) b

/-- Distance objective of `build_qubo`: `C * weight(u, v)` quadratic
between adjacent positions for every ordered pair of distinct delivery
nodes with a finite weight. -/
noncomputable def objectiveLoop (g : CityGraph) (node_ids : List Str) (n : ℕ)
    (C : ℚ) (b : BQM) : BQM :=
  (List.range (n - 1)).foldl (fun b p =>
    node_ids.foldl (fun b u =>
      node_ids.foldl (fun b v =>
        if u ≠ v then
          match g.get_edge_weight u v with
          | some w => b.add_quadratic (vrName u p) (vrName v (p + 1)) ((C : ℝ) * w)
          | none => b
        else b) b) b) b

/-- Depot bias of `build_qubo`: `C * weight(depot, node)` linear on
each delivery node's position-0 variable, when a depot exists. -/
noncomputable def depotLoop (g : CityGraph) (node_ids : List Str) (C : ℚ)
    (b : BQM) : BQM :=
  match g.depot_node with
  | some d =>
      node_ids.foldl (fun b nid =>
        match g.get_edge_weight d.id nid with
        | some w => b.add_linear (vrName nid 0) ((C : ℝ) * w)
        | none => b) b
  | none => b

/-- Build the QUBO for the priority-constrained routing problem
(`build_qubo`): variables range over (delivery node, position) pairs —
the depot is excluded — and the five bias groups accumulate in source
order. -/
noncomputable def build_qubo (g : CityGraph) (params : QUBOParams) : BQM :=
  let delivery_nodes := g.delivery_nodes
  let n := delivery_nodes.length
  let node_ids := delivery_nodes.map Node.id
  let priority_ids :=
    (delivery_nodes.filter (fun nd => nd.type == NodeType.priority)).map Node.id
  let normal_ids :=
    (delivery_nodes.filter (fun nd => nd.type == NodeType.normal)).map Node.id
  let k := priority_ids.length
  depotLoop g node_ids params.C
    (objectiveLoop g node_ids n params.C
      (constraint4 priority_ids n params.Bp
        (constraint3 priority_ids normal_ids n k params.B
          (constraint2 node_ids n params.A
            (constraint1 node_ids n params.A
              (addVarsLoop node_ids n emptyBQM))))))

/-! ## Additive-update characterization of the builder loops

Every builder step leaves the variable list fixed (its keys are
already registered) and adds point contributions to the linear and
quadratic bias functions.  `AddUpd F V dL dQ` captures this; the
offset is pure bookkeeping that no claim reads and is left
unconstrained. -/

def AddUpd (F : BQM → BQM) (V : List Str) (dL : Str → ℝ)
    (dQ : Str → Str → ℝ) : Prop :=
  ∀ b : BQM, b.vars = V →
    (F b).vars = V ∧
    (∀ v, (F b).linear v = b.linear v + dL v) ∧
    (∀ v w, (F b).quad v w = b.quad v w + dQ v w)

theorem addUpd_id (V : List Str) :
    AddUpd (fun b => b) V (fun _ => 0) (fun _ _ => 0) :=
  fun _ hb => ⟨hb, fun _ => by ring, fun _ _ => by ring⟩

theorem addUpd_comp {F G : BQM → BQM} {V dL1 dQ1 dL2 dQ2}
    (hF : AddUpd F V dL1 dQ1) (hG : AddUpd G V dL2 dQ2) :
    AddUpd (fun b => G (F b)) V (fun v => dL1 v + dL2 v)
      (fun v w => dQ1 v w + dQ2 v w) := by
  intro b hb
  obtain ⟨h1, h2, h3⟩ := hF b hb
  obtain ⟨g1, g2, g3⟩ := hG (F b) h1
  exact ⟨g1, fun v => by rw [g2, h2]; ring, fun v w => by rw [g3, h3]; ring⟩

theorem addUpd_add_linear (V : List Str) (key : Str) (c : ℝ) (hk : key ∈ V) :
    AddUpd (fun b => b.add_linear key c) V
      (fun v => if v = key then c else 0) (fun _ _ => 0) := by
  intro b hb
  refine ⟨?_, ?_, fun v w => by simp [BQM.add_linear, BQM.add_variable]⟩
  · simp [BQM.add_linear, BQM.add_variable, hb, hk]
  · intro v
    by_cases hv : v = key <;> simp [BQM.add_linear, BQM.add_variable, hv]

theorem addUpd_add_quadratic (V : List Str) (u v' : Str) (c : ℝ)
    (hu : u ∈ V) (hv : v' ∈ V) :
    AddUpd (fun b => b.add_quadratic u v' c) V (fun _ => 0)
      (fun a b' => if (a = u ∧ b' = v') ∨ (a = v' ∧ b' = u) then c else 0) := by
  intro b hb
  refine ⟨?_, fun v => by simp [BQM.add_quadratic], ?_⟩
  · simp [BQM.add_quadratic, hb, hu, hv]
  · intro v w
    by_cases hc : (v = u ∧ w = v') ∨ (v = v' ∧ w = u) <;>
      simp [BQM.add_quadratic, hc]

theorem addUpd_offset (V : List Str) (F : BQM → ℝ) :
    AddUpd (fun b => { b with offset := F b }) V (fun _ => 0) (fun _ _ => 0) :=
  fun _ hb => ⟨hb, fun _ => by ring, fun _ _ => by ring⟩

theorem addUpd_foldl {α : Type} (V : List Str) (step : α → BQM → BQM)
    (dL : α → Str → ℝ) (dQ : α → Str → Str → ℝ) :
    ∀ xs : List α, (∀ x ∈ xs, AddUpd (step x) V (dL x) (dQ x)) →
      AddUpd (fun b => xs.foldl (fun b x => step x b) b) V
        (fun v => (xs.map (fun x => dL x v)).sum)
        (fun v w => (xs.map (fun x => dQ x v w)).sum) := by
  intro xs
  induction xs with
  | nil =>
    intro _
    simpa using addUpd_id V
  | cons x xs ih =>
    intro h
    have hx := h x (List.mem_cons_self x xs)
    have hrest := ih (fun y hy => h y (List.mem_cons_of_mem x hy))
    have hcomp := addUpd_comp hx hrest
    intro b hb
    obtain ⟨h1, h2, h3⟩ := hcomp b hb
    refine ⟨by simpa using h1, fun v => ?_, fun v w => ?_⟩
    · simpa [List.foldl_cons, List.map_cons, List.sum_cons] using h2 v
    · simpa [List.foldl_cons, List.map_cons, List.sum_cons] using h3 v w

theorem addUpd_ite {cond : Prop} [Decidable cond] {F : BQM → BQM} {V dL dQ}
    (hF : AddUpd F V dL dQ) :
    AddUpd (fun b => if cond then F b else b) V
      (fun v => if cond then dL v else 0)
      (fun v w => if cond then dQ v w else 0) := by
  by_cases hc : cond
  · simpa [hc] using hF
  · simpa [hc] using addUpd_id V

theorem addUpd_congr {F : BQM → BQM} {V dL dQ dL' dQ'}
    (h : AddUpd F V dL dQ) (hL : ∀ v, dL' v = dL v)
    (hQ : ∀ v w, dQ' v w = dQ v w) : AddUpd F V dL' dQ' := by
  intro b hb
  obtain ⟨h1, h2, h3⟩ := h b hb
  exact ⟨h1, fun v => by rw [h2, hL], fun v w => by rw [h3, hQ]⟩

/-! ## Variable-name injectivity and the canonical variable list -/

theorem vrName_inj {nid nid' : Str} {p p' : ℕ}
    (h : vrName nid p = vrName nid' p') : nid = nid' ∧ p = p' := by
  have h1 := parseVarName_vrName nid p
  rw [h, parseVarName_vrName nid' p'] at h1
  have h2 := Option.some.inj h1
  have h3 : nid' = nid := congrArg Prod.fst h2
  have h4 : (p' : ℤ) = (p : ℤ) := congrArg Prod.snd h2
  exact ⟨h3.symm, by exact_mod_cast h4.symm⟩

theorem vrName_eq_iff (nid : Str) (p : ℕ) (nid' : Str) (p' : ℕ) :
    vrName nid p = vrName nid' p' ↔ nid = nid' ∧ p = p' := by
  constructor
  · exact vrName_inj
  · rintro ⟨rfl, rfl⟩
    rfl

/-- The variable list `build_qubo` registers: one name per
(delivery-node id, position) pair, node-major in enumeration order. -/
def canonVars (node_ids : List Str) (n : ℕ) : List Str :=
  node_ids.flatMap (fun nid => (List.range n).map (vrName nid))

theorem mem_canonVars {node_ids : List Str} {n : ℕ} {v : Str} :
    v ∈ canonVars node_ids n ↔ ∃ nid ∈ node_ids, ∃ p, p < n ∧ v = vrName nid p := by
  simp only [canonVars, List.mem_flatMap, List.mem_map, List.mem_range]
  constructor
  · rintro ⟨nid, hnid, p, hp, rfl⟩
    exact ⟨nid, hnid, p, hp, rfl⟩
  · rintro ⟨nid, hnid, p, hp, rfl⟩
    exact ⟨nid, hnid, p, hp, rfl⟩

theorem canonVars_nodup (node_ids : List Str) (n : ℕ) (hnd : node_ids.Nodup) :
    (canonVars node_ids n).Nodup := by
  induction node_ids with
  | nil => exact List.nodup_nil
  | cons nid rest ih =>
    rw [List.nodup_cons] at hnd
    have hblock : ((List.range n).map (vrName nid)).Nodup :=
      (List.nodup_range n).map (fun a b hab => (vrName_inj hab).2)
    have hrest := ih hnd.2
    rw [canonVars, List.flatMap_cons]
    rw [List.nodup_append]
    refine ⟨hblock, hrest, ?_⟩
    intro v hv1 hv2
    obtain ⟨p, _, rfl⟩ := List.mem_map.mp hv1
    obtain ⟨nid', hnid', p', hp', heq⟩ := mem_canonVars.mp hv2
    obtain ⟨h1, _⟩ := vrName_inj heq
    exact hnd.1 (h1 ▸ hnid')

theorem canonVars_length (node_ids : List Str) (n : ℕ) :
    (canonVars node_ids n).length = node_ids.length * n := by
  induction node_ids with
  | nil => simp [canonVars]
  | cons nid rest ih =>
    rw [canonVars, List.flatMap_cons, List.length_append, List.length_map,
      List.length_range]
    rw [canonVars] at ih
    rw [ih, List.length_cons]
    ring

/-! ## Registration loop effects -/

theorem foldl_add_variable_vars {α : Type} (key : α → Str) :
    ∀ (xs : List α) (b : BQM), (xs.map key).Nodup →
      (∀ x ∈ xs, key x ∉ b.vars) →
      (xs.foldl (fun b x => b.add_variable (key x) 0) b).vars =
        b.vars ++ xs.map key := by
  intro xs
  induction xs with
  | nil =>
    intro b _ _
    simp
  | cons x xs ih =>
    intro b hnd hfresh
    rw [List.map_cons, List.nodup_cons] at hnd
    rw [List.foldl_cons]
    have hstep : (b.add_variable (key x) 0).vars = b.vars ++ [key x] := by
      simp [BQM.add_variable, hfresh x (List.mem_cons_self x xs)]
    have hfresh' : ∀ y ∈ xs, key y ∉ (b.add_variable (key x) 0).vars := by
      intro y hy
      rw [hstep]
      simp only [List.mem_append, List.mem_singleton]
      push_neg
      exact ⟨hfresh y (List.mem_cons_of_mem x hy),
        fun hc => hnd.1 (hc ▸ List.mem_map_of_mem key hy)⟩
    rw [ih (b.add_variable (key x) 0) hnd.2 hfresh', hstep, List.append_assoc]
    rfl

theorem foldl_add_variable_linear {α : Type} (key : α → Str) :
    ∀ (xs : List α) (b : BQM) (v : Str),
      (xs.foldl (fun b x => b.add_variable (key x) 0) b).linear v = b.linear v := by
  intro xs
  induction xs with
  | nil => intro b v; rfl
  | cons x xs ih =>
    intro b v
    rw [List.foldl_cons, ih]
    by_cases hv : v = key x <;> simp [BQM.add_variable, hv]

theorem foldl_add_variable_quad {α : Type} (key : α → Str) :
    ∀ (xs : List α) (b : BQM) (v w : Str),
      (xs.foldl (fun b x => b.add_variable (key x) 0) b).quad v w = b.quad v w := by
  intro xs
  induction xs with
  | nil => intro b v w; rfl
  | cons x xs ih =>
    intro b v w
    rw [List.foldl_cons, ih]
    rfl

theorem addVarsLoop_vars (n : ℕ) :
    ∀ (node_ids : List Str) (b : BQM), (canonVars node_ids n).Nodup →
      (∀ v ∈ canonVars node_ids n, v ∉ b.vars) →
      (addVarsLoop node_ids n b).vars = b.vars ++ canonVars node_ids n := by
  intro node_ids
  induction node_ids with
  | nil =>
    intro b _ _
    simp [addVarsLoop, canonVars]
  | cons nid rest ih =>
    intro b hnd hfresh
    have hsplit : canonVars (nid :: rest) n =
        (List.range n).map (vrName nid) ++ canonVars rest n := by
      rw [canonVars, List.flatMap_cons]
      rfl
    rw [hsplit] at hnd hfresh
    rw [List.nodup_append] at hnd
    have hblockFresh : ∀ p ∈ List.range n, vrName nid p ∉ b.vars := by
      intro p hp
      exact hfresh _ (List.mem_append_left _ (List.mem_map_of_mem _ hp))
    have hinner :
        ((List.range n).foldl (fun b p => b.add_variable (vrName nid p) 0) b).vars
          = b.vars ++ (List.range n).map (vrName nid) :=
      foldl_add_variable_vars (vrName nid) (List.range n) b hnd.1 hblockFresh
    have hfresh' : ∀ v ∈ canonVars rest n,
        v ∉ ((List.range n).foldl (fun b p => b.add_variable (vrName nid p) 0) b).vars := by
      intro v hv
      rw [hinner]
      simp only [List.mem_append]
      push_neg
      exact ⟨hfresh v (List.mem_append_right _ hv), fun hc => hnd.2.2 hc hv⟩
    have hstep : addVarsLoop (nid :: rest) n b =
        addVarsLoop rest n
          ((List.range n).foldl (fun b p => b.add_variable (vrName nid p) 0) b) := by
      rw [addVarsLoop, addVarsLoop, List.foldl_cons]
    rw [hstep, ih _ hnd.2.1 hfresh', hinner, hsplit, List.append_assoc]

theorem addVarsLoop_linear (node_ids : List Str) (n : ℕ) (b : BQM) (v : Str) :
    (addVarsLoop node_ids n b).linear v = b.linear v := by
  induction node_ids generalizing b with
  | nil => rfl
  | cons nid rest ih =>
    have hstep : addVarsLoop (nid :: rest) n b =
        addVarsLoop rest n
          ((List.range n).foldl (fun b p => b.add_variable (vrName nid p) 0) b) := by
      rw [addVarsLoop, addVarsLoop, List.foldl_cons]
    rw [hstep, ih, foldl_add_variable_linear]

theorem addVarsLoop_quad (node_ids : List Str) (n : ℕ) (b : BQM) (v w : Str) :
    (addVarsLoop node_ids n b).quad v w = b.quad v w := by
  induction node_ids generalizing b with
  | nil => rfl
  | cons nid rest ih =>
    have hstep : addVarsLoop (nid :: rest) n b =
        addVarsLoop rest n
          ((List.range n).foldl (fun b p => b.add_variable (vrName nid p) 0) b) := by
      rw [addVarsLoop, addVarsLoop, List.foldl_cons]
    rw [hstep, ih, foldl_add_variable_quad]

/-! ## Per-constraint bias contributions -/

theorem sum_map_zero {α : Type} (xs : List α) (f : α → ℝ)
    (h : ∀ x ∈ xs, f x = 0) : (xs.map f).sum = 0 := by
  apply List.sum_eq_zero
  intro y hy
  obtain ⟨x, hx, rfl⟩ := List.mem_map.mp hy
  exact h x hx

theorem mem_enum_snd {α : Type} {l : List α} {q : ℕ × α} (h : q ∈ l.enum) :
    q.2 ∈ l := by
  have := List.mem_map_of_mem Prod.snd h
  rwa [List.enum_map_snd] at this

/-- Linear contribution of constraint 1. -/
def dL1 (node_ids : List Str) (n : ℕ) (A : ℚ) (v : Str) : ℝ :=
  ((List.range n).map (fun p =>
    (node_ids.map (fun nid => if v = vrName nid p then -2 * (A : ℝ) else 0)).sum)).sum

/-- Quadratic contribution of constraint 1. -/
def dQ1 (node_ids : List Str) (n : ℕ) (A : ℚ) (v w : Str) : ℝ :=
  ((List.range n).map (fun p =>
    (node_ids.enum.map (fun pi =>
      (node_ids.enum.map (fun pj =>
        if pi.1 < pj.1 then
          (if (v = vrName pi.2 p ∧ w = vrName pj.2 p) ∨
              (v = vrName pj.2 p ∧ w = vrName pi.2 p) then 2 * (A : ℝ) else 0)
        else 0)).sum)).sum)).sum

theorem constraint1_addUpd (node_ids : List Str) (n : ℕ) (A : ℚ) (V : List Str)
    (hmem : ∀ nid ∈ node_ids, ∀ p, p < n → vrName nid p ∈ V) :
    AddUpd (constraint1 node_ids n A) V (dL1 node_ids n A) (dQ1 node_ids n A) := by
  have hstep : ∀ p ∈ List.range n,
      AddUpd (fun b =>
        let b1 := node_ids.foldl (fun b nid =>
          b.add_linear (vrName nid p) (-2 * (A : ℝ))) b
        let b2 := node_ids.enum.foldl (fun b pi =>
          node_ids.enum.foldl (fun b pj =>
            if pi.1 < pj.1 then
              b.add_quadratic (vrName pi.2 p) (vrName pj.2 p) (2 * (A : ℝ))
            else b) b) b1
        { b2 with offset := b2.offset + (A : ℝ) }) V
      (fun v =>
        (node_ids.map (fun nid => if v = vrName nid p then -2 * (A : ℝ) else 0)).sum)
      (fun v w =>
        (node_ids.enum.map (fun pi =>
          (node_ids.enum.map (fun pj =>
            if pi.1 < pj.1 then
              (if (v = vrName pi.2 p ∧ w = vrName pj.2 p) ∨
                  (v = vrName pj.2 p ∧ w = vrName pi.2 p) then 2 * (A : ℝ) else 0)
            else 0)).sum)).sum) := by
    intro p hp
    have hp' := List.mem_range.mp hp
    have h1 := addUpd_foldl V
      (fun nid => fun b => b.add_linear (vrName nid p) (-2 * (A : ℝ)))
      (fun nid v => if v = vrName nid p then -2 * (A : ℝ) else 0)
      (fun _ _ _ => 0)
      node_ids
      (fun nid hnid => addUpd_add_linear V (vrName nid p) _ (hmem nid hnid p hp'))
    have h2 := addUpd_foldl V
      (fun pi => fun b =>
        node_ids.enum.foldl (fun b pj =>
          if pi.1 < pj.1 then
            b.add_quadratic (vrName pi.2 p) (vrName pj.2 p) (2 * (A : ℝ))
          else b) b)
      (fun pi v =>
        (node_ids.enum.map (fun _ => (0 : ℝ))).sum)
      (fun pi v w =>
        (node_ids.enum.map (fun pj =>
          if pi.1 < pj.1 then
            (if (v = vrName pi.2 p ∧ w = vrName pj.2 p) ∨
                (v = vrName pj.2 p ∧ w = vrName pi.2 p) then 2 * (A : ℝ) else 0)
          else 0)).sum)
      node_ids.enum
      (fun pi hpi => by
        have hin := addUpd_foldl V
          (fun pj => fun b =>
            if pi.1 < pj.1 then
              b.add_quadratic (vrName pi.2 p) (vrName pj.2 p) (2 * (A : ℝ))
            else b)
          (fun pj v => if pi.1 < pj.1 then 0 else 0)
          (fun pj v w =>
            if pi.1 < pj.1 then
              (if (v = vrName pi.2 p ∧ w = vrName pj.2 p) ∨
                  (v = vrName pj.2 p ∧ w = vrName pi.2 p) then 2 * (A : ℝ) else 0)
            else 0)
          node_ids.enum
          (fun pj hpj =>
            addUpd_ite (addUpd_add_quadratic V (vrName pi.2 p) (vrName pj.2 p) _
              (hmem pi.2 (mem_enum_snd hpi) p hp')
              (hmem pj.2 (mem_enum_snd hpj) p hp')))
        refine addUpd_congr hin ?_ ?_
        · intro v
          simp
        · intro v w
          rfl)
    have h3 := addUpd_offset V (fun b => b.offset + (A : ℝ))
    have hcomp := addUpd_comp (addUpd_comp h1 h2) h3
    refine addUpd_congr hcomp ?_ ?_
    · intro v
      have hz : ((node_ids.enum.map (fun _ =>
          (node_ids.enum.map (fun _ => (0 : ℝ))).sum)).sum) = 0 := by
        apply sum_map_zero
        intro x _
        exact sum_map_zero _ _ (fun _ _ => rfl)
      rw [hz]
      ring
    · intro v w
      have hz : (node_ids.map (fun _ => (0 : ℝ))).sum = 0 :=
        sum_map_zero _ _ (fun _ _ => rfl)
      rw [hz]
      ring
  have := addUpd_foldl V _ _ _ (List.range n) hstep
  exact this

/-- Linear contribution of constraint 2 (also, with Bp in place of A
and the priority ids in place of all delivery ids, of constraint 4). -/
def dL2 (node_ids : List Str) (n : ℕ) (A : ℚ) (v : Str) : ℝ :=
  (node_ids.map (fun nid =>
    ((List.range n).map (fun p => if v = vrName nid p then -2 * (A : ℝ) else 0)).sum)).sum

/-- Quadratic contribution of constraint 2 (and of constraint 4). -/
def dQ2 (node_ids : List Str) (n : ℕ) (A : ℚ) (v w : Str) : ℝ :=
  (node_ids.map (fun nid =>
    ((List.range n).map (fun p =>
      ((List.range' (p + 1) (n - (p + 1))).map (fun q =>
        if (v = vrName nid p ∧ w = vrName nid q) ∨
            (v = vrName nid q ∧ w = vrName nid p) then 2 * (A : ℝ) else 0)).sum)).sum)).sum

theorem constraint2_addUpd (node_ids : List Str) (n : ℕ) (A : ℚ) (V : List Str)
    (hmem : ∀ nid ∈ node_ids, ∀ p, p < n → vrName nid p ∈ V) :
    AddUpd (constraint2 node_ids n A) V (dL2 node_ids n A) (dQ2 node_ids n A) := by
  have hstep : ∀ nid ∈ node_ids,
      AddUpd (fun b =>
        let b1 := (List.range n).foldl (fun b p =>
          b.add_linear (vrName nid p) (-2 * (A : ℝ))) b
        let b2 := (List.range n).foldl (fun b p =>
          (List.range' (p + 1) (n - (p + 1))).foldl (fun b q =>
            b.add_quadratic (vrName nid p) (vrName nid q) (2 * (A : ℝ))) b) b1
        { b2 with offset := b2.offset + (A : ℝ) }) V
      (fun v =>
        ((List.range n).map (fun p => if v = vrName nid p then -2 * (A : ℝ) else 0)).sum)
      (fun v w =>
        ((List.range n).map (fun p =>
          ((List.range' (p + 1) (n - (p + 1))).map (fun q =>
            if (v = vrName nid p ∧ w = vrName nid q) ∨
                (v = vrName nid q ∧ w = vrName nid p) then 2 * (A : ℝ) else 0)).sum)).sum) := by
    intro nid hnid
    have h1 := addUpd_foldl V
      (fun p => fun b => b.add_linear (vrName nid p) (-2 * (A : ℝ)))
      (fun p v => if v = vrName nid p then -2 * (A : ℝ) else 0)
      (fun _ _ _ => 0)
      (List.range n)
      (fun p hp => addUpd_add_linear V (vrName nid p) _
        (hmem nid hnid p (List.mem_range.mp hp)))
    have h2 := addUpd_foldl V
      (fun p => fun b =>
        (List.range' (p + 1) (n - (p + 1))).foldl (fun b q =>
          b.add_quadratic (vrName nid p) (vrName nid q) (2 * (A : ℝ))) b)
      (fun p v => ((List.range' (p + 1) (n - (p + 1))).map (fun _ => (0 : ℝ))).sum)
      (fun p v w =>
        ((List.range' (p + 1) (n - (p + 1))).map (fun q =>
          if (v = vrName nid p ∧ w = vrName nid q) ∨
              (v = vrName nid q ∧ w = vrName nid p) then 2 * (A : ℝ) else 0)).sum)
      (List.range n)
      (fun p hp => by
        have hp' := List.mem_range.mp hp
        exact addUpd_foldl V
          (fun q => fun b =>
            b.add_quadratic (vrName nid p) (vrName nid q) (2 * (A : ℝ)))
          (fun _ _ => 0)
          (fun q v w =>
            if (v = vrName nid p ∧ w = vrName nid q) ∨
                (v = vrName nid q ∧ w = vrName nid p) then 2 * (A : ℝ) else 0)
          (List.range' (p + 1) (n - (p + 1)))
          (fun q hq => by
            have hq' := List.mem_range'_1.mp hq
            exact addUpd_add_quadratic V (vrName nid p) (vrName nid q) _
              (hmem nid hnid p hp') (hmem nid hnid q (by omega))))
    have h3 := addUpd_offset V (fun b => b.offset + (A : ℝ))
    have hcomp := addUpd_comp (addUpd_comp h1 h2) h3
    refine addUpd_congr hcomp ?_ ?_
    · intro v
      have hz : (((List.range n).map (fun p =>
          ((List.range' (p + 1) (n - (p + 1))).map (fun _ => (0 : ℝ))).sum)).sum) = 0 := by
        apply sum_map_zero
        intro x _
        exact sum_map_zero _ _ (fun _ _ => rfl)
      rw [hz]
      ring
    · intro v w
      have hz : ((List.range n).map (fun _ => (0 : ℝ))).sum = 0 :=
        sum_map_zero _ _ (fun _ _ => rfl)
      rw [hz]
      ring
  exact addUpd_foldl V _ _ _ node_ids hstep

theorem constraint4_eq_constraint2 : constraint4 = constraint2 := rfl

/-- Linear contribution of the priority-zone constraint 3. -/
def dL3 (priority_ids normal_ids : List Str) (n k : ℕ) (B : ℚ) (v : Str) : ℝ :=
  (priority_ids.map (fun nid =>
    ((List.range' k (n - k)).map (fun p =>
      if v = vrName nid p then (B : ℝ) else 0)).sum)).sum +
  (normal_ids.map (fun nid =>
    ((List.range k).map (fun p =>
      if v = vrName nid p then (B : ℝ) else 0)).sum)).sum

theorem constraint3_addUpd (priority_ids normal_ids : List Str) (n k : ℕ) (B : ℚ)
    (V : List Str)
    (hmemP : ∀ nid ∈ priority_ids, ∀ p, p < n → vrName nid p ∈ V)
    (hmemN : ∀ nid ∈ normal_ids, ∀ p, p < n → vrName nid p ∈ V)
    (hk : k ≤ n) :
    AddUpd (constraint3 priority_ids normal_ids n k B) V
      (dL3 priority_ids normal_ids n k B) (fun _ _ => 0) := by
  have h1 := addUpd_foldl V
    (fun nid => fun b =>
      (List.range' k (n - k)).foldl (fun b p =>
        b.add_linear (vrName nid p) (B : ℝ)) b)
    (fun nid v =>
      ((List.range' k (n - k)).map (fun p =>
        if v = vrName nid p then (B : ℝ) else 0)).sum)
    (fun nid v w => ((List.range' k (n - k)).map (fun _ => (0 : ℝ))).sum)
    priority_ids
    (fun nid hnid =>
      addUpd_foldl V _ _ _ (List.range' k (n - k))
        (fun p hp => by
          have hp' := List.mem_range'_1.mp hp
          exact addUpd_add_linear V (vrName nid p) _
            (hmemP nid hnid p (by omega))))
  have h2 := addUpd_foldl V
    (fun nid => fun b =>
      (List.range k).foldl (fun b p => b.add_linear (vrName nid p) (B : ℝ)) b)
    (fun nid v =>
      ((List.range k).map (fun p => if v = vrName nid p then (B : ℝ) else 0)).sum)
    (fun nid v w => ((List.range k).map (fun _ => (0 : ℝ))).sum)
    normal_ids
    (fun nid hnid =>
      addUpd_foldl V _ _ _ (List.range k)
        (fun p hp => by
          have hp' := List.mem_range.mp hp
          exact addUpd_add_linear V (vrName nid p) _
            (hmemN nid hnid p (by omega))))
  have hcomp := addUpd_comp h1 h2
  refine addUpd_congr hcomp ?_ ?_
  · intro v
    rfl
  · intro v w
    have hz1 : (priority_ids.map (fun _ =>
        ((List.range' k (n - k)).map (fun _ => (0 : ℝ))).sum)).sum = 0 := by
      apply sum_map_zero
      intro x _
      exact sum_map_zero _ _ (fun _ _ => rfl)
    have hz2 : (normal_ids.map (fun _ =>
        ((List.range k).map (fun _ => (0 : ℝ))).sum)).sum = 0 := by
      apply sum_map_zero
      intro x _
      exact sum_map_zero _ _ (fun _ _ => rfl)
    rw [hz1, hz2]
    ring

/-- Quadratic contribution of the distance objective. -/
noncomputable def dQobj (g : CityGraph) (node_ids : List Str) (n : ℕ) (C : ℚ)
    (v w : Str) : ℝ :=
  ((List.range (n - 1)).map (fun p =>
    (node_ids.map (fun u =>
      (node_ids.map (fun v' =>
        if u ≠ v' then
          (match g.get_edge_weight u v' with
          | some wt =>
              if (v = vrName u p ∧ w = vrName v' (p + 1)) ∨
                  (v = vrName v' (p + 1) ∧ w = vrName u p) then (C : ℝ) * wt else 0
          | none => 0)
        else 0)).sum)).sum)).sum

theorem objectiveLoop_addUpd (g : CityGraph) (node_ids : List Str) (n : ℕ) (C : ℚ)
    (V : List Str)
    (hmem : ∀ nid ∈ node_ids, ∀ p, p < n → vrName nid p ∈ V) :
    AddUpd (objectiveLoop g node_ids n C) V (fun _ => 0) (dQobj g node_ids n C) := by
  have hstep : ∀ p ∈ List.range (n - 1),
      AddUpd (fun b =>
        node_ids.foldl (fun b u =>
          node_ids.foldl (fun b v =>
            if u ≠ v then
              match g.get_edge_weight u v with
              | some w => b.add_quadratic (vrName u p) (vrName v (p + 1)) ((C : ℝ) * w)
              | none => b
            else b) b) b) V
      (fun _ => 0)
      (fun v w =>
        (node_ids.map (fun u =>
          (node_ids.map (fun v' =>
            if u ≠ v' then
              (match g.get_edge_weight u v' with
              | some wt =>
                  if (v = vrName u p ∧ w = vrName v' (p + 1)) ∨
                      (v = vrName v' (p + 1) ∧ w = vrName u p) then (C : ℝ) * wt
                  else 0
              | none => 0)
            else 0)).sum)).sum) := by
    intro p hp
    have hp' := List.mem_range.mp hp
    have hinner : ∀ u ∈ node_ids,
        AddUpd (fun b =>
          node_ids.foldl (fun b v =>
            if u ≠ v then
              match g.get_edge_weight u v with
              | some w => b.add_quadratic (vrName u p) (vrName v (p + 1)) ((C : ℝ) * w)
              | none => b
            else b) b) V
        (fun _ => 0)
        (fun v w =>
          (node_ids.map (fun v' =>
            if u ≠ v' then
              (match g.get_edge_weight u v' with
              | some wt =>
                  if (v = vrName u p ∧ w = vrName v' (p + 1)) ∨
                      (v = vrName v' (p + 1) ∧ w = vrName u p) then (C : ℝ) * wt
                  else 0
              | none => 0)
            else 0)).sum) := by
      intro u hu
      have hper : ∀ v' ∈ node_ids,
          AddUpd (fun b =>
            if u ≠ v' then
              match g.get_edge_weight u v' with
              | some w => b.add_quadratic (vrName u p) (vrName v' (p + 1)) ((C : ℝ) * w)
              | none => b
            else b) V
          (fun _ => 0)
          (fun v w =>
            if u ≠ v' then
              (match g.get_edge_weight u v' with
              | some wt =>
                  if (v = vrName u p ∧ w = vrName v' (p + 1)) ∨
                      (v = vrName v' (p + 1) ∧ w = vrName u p) then (C : ℝ) * wt
                  else 0
              | none => 0)
            else 0) := by
        intro v' hv'
        by_cases hc : u ≠ v'
        · rcases hw : g.get_edge_weight u v' with _ | wt
          · simp only [hw, if_pos hc]
            exact addUpd_id V
          · simp only [hw, if_pos hc]
            exact addUpd_add_quadratic V (vrName u p) (vrName v' (p + 1)) _
              (hmem u hu p (by omega)) (hmem v' hv' (p + 1) (by omega))
        · simp only [if_neg hc]
          exact addUpd_id V
      have := addUpd_foldl V _ _ _ node_ids hper
      refine addUpd_congr this ?_ ?_
      · intro v
        exact (sum_map_zero _ _ (fun _ _ => rfl)).symm
      · intro v w
        rfl
    have := addUpd_foldl V _ _ _ node_ids hinner
    refine addUpd_congr this ?_ ?_
    · intro v
      exact (sum_map_zero _ _ (fun _ _ => rfl)).symm
    · intro v w
      rfl
  have := addUpd_foldl V _ _ _ (List.range (n - 1)) hstep
  refine addUpd_congr this ?_ ?_
  · intro v
    exact (sum_map_zero _ _ (fun _ _ => rfl)).symm
  · intro v w
    rfl

/-- Linear contribution of the depot bias. -/
noncomputable def dLdep (g : CityGraph) (node_ids : List Str) (C : ℚ) (v : Str) : ℝ :=
  match g.depot_node with
  | some d =>
      (node_ids.map (fun nid =>
        match g.get_edge_weight d.id nid with
        | some wt => if v = vrName nid 0 then (C : ℝ) * wt else 0
        | none => 0)).sum
  | none => 0

theorem depotLoop_addUpd (g : CityGraph) (node_ids : List Str) (C : ℚ)
    (V : List Str) (hmem0 : ∀ nid ∈ node_ids, vrName nid 0 ∈ V) :
    AddUpd (depotLoop g node_ids C) V (dLdep g node_ids C) (fun _ _ => 0) := by
  unfold depotLoop dLdep
  cases g.depot_node with
  | none => exact addUpd_id V
  | some d =>
    have hper : ∀ nid ∈ node_ids,
        AddUpd (fun b =>
          match g.get_edge_weight d.id nid with
          | some w => b.add_linear (vrName nid 0) ((C : ℝ) * w)
          | none => b) V
        (fun v =>
          match g.get_edge_weight d.id nid with
          | some wt => if v = vrName nid 0 then (C : ℝ) * wt else 0
          | none => 0)
        (fun _ _ => 0) := by
      intro nid hnid
      rcases hw : g.get_edge_weight d.id nid with _ | wt
      · simp only [hw]
        exact addUpd_id V
      · simp only [hw]
        exact addUpd_add_linear V (vrName nid 0) _ (hmem0 nid hnid)
    have := addUpd_foldl V _ _ _ node_ids hper
    refine addUpd_congr this ?_ ?_
    · intro v
      rfl
    · intro v w
      exact (sum_map_zero _ _ (fun _ _ => rfl)).symm

/-! ## Full characterization of build_qubo's fields -/

theorem mem_canonVars_of (node_ids : List Str) (n : ℕ) {nid : Str} {p : ℕ}
    (hm : nid ∈ node_ids) (hp : p < n) : vrName nid p ∈ canonVars node_ids n :=
  mem_canonVars.mpr ⟨nid, hm, p, hp, rfl⟩

theorem filterIds_subset (l : List Node) (q : Node → Bool) :
    ∀ x ∈ (l.filter q).map Node.id, x ∈ l.map Node.id := by
  intro x hx
  obtain ⟨nd, hnd, rfl⟩ := List.mem_map.mp hx
  exact List.mem_map_of_mem Node.id (List.mem_of_mem_filter hnd)

theorem build_qubo_fields (g : CityGraph) (params : QUBOParams)
    (hnd : (g.delivery_nodes.map Node.id).Nodup) :
    (build_qubo g params).vars =
      canonVars (g.delivery_nodes.map Node.id) g.delivery_nodes.length ∧
    (∀ v, (build_qubo g params).linear v =
      dL1 (g.delivery_nodes.map Node.id) g.delivery_nodes.length params.A v +
      dL2 (g.delivery_nodes.map Node.id) g.delivery_nodes.length params.A v +
      dL3 ((g.delivery_nodes.filter (fun nd => nd.type == NodeType.priority)).map Node.id)
        ((g.delivery_nodes.filter (fun nd => nd.type == NodeType.normal)).map Node.id)
        g.delivery_nodes.length
        ((g.delivery_nodes.filter (fun nd => nd.type == NodeType.priority)).map Node.id).length
        params.B v +
      dL2 ((g.delivery_nodes.filter (fun nd => nd.type == NodeType.priority)).map Node.id)
        g.delivery_nodes.length params.Bp v +
      dLdep g (g.delivery_nodes.map Node.id) params.C v) ∧
    (∀ v w, (build_qubo g params).quad v w =
      dQ1 (g.delivery_nodes.map Node.id) g.delivery_nodes.length params.A v w +
      dQ2 (g.delivery_nodes.map Node.id) g.delivery_nodes.length params.A v w +
      dQ2 ((g.delivery_nodes.filter (fun nd => nd.type == NodeType.priority)).map Node.id)
        g.delivery_nodes.length params.Bp v w +
      dQobj g (g.delivery_nodes.map Node.id) g.delivery_nodes.length params.C v w) := by
  set ids := g.delivery_nodes.map Node.id with hids
  set n := g.delivery_nodes.length with hn
  set pri := (g.delivery_nodes.filter (fun nd => nd.type == NodeType.priority)).map Node.id
    with hpri
  set nor := (g.delivery_nodes.filter (fun nd => nd.type == NodeType.normal)).map Node.id
    with hnor
  set V := canonVars ids n with hV
  have hlen_ids : ids.length = n := by rw [hids, hn, List.length_map]
  have hmemIds : ∀ nid ∈ ids, ∀ p, p < n → vrName nid p ∈ V :=
    fun nid hm p hp => mem_canonVars_of ids n hm hp
  have hsubP : ∀ x ∈ pri, x ∈ ids := filterIds_subset _ _
  have hsubN : ∀ x ∈ nor, x ∈ ids := filterIds_subset _ _
  have hmemPri : ∀ nid ∈ pri, ∀ p, p < n → vrName nid p ∈ V :=
    fun nid hm p hp => hmemIds nid (hsubP nid hm) p hp
  have hmemNor : ∀ nid ∈ nor, ∀ p, p < n → vrName nid p ∈ V :=
    fun nid hm p hp => hmemIds nid (hsubN nid hm) p hp
  have hk : pri.length ≤ n := by
    rw [hpri, hn, List.length_map]
    exact List.length_filter_le _ _
  have hmem0 : ∀ nid ∈ ids, vrName nid 0 ∈ V := by
    intro nid hm
    refine hmemIds nid hm 0 ?_
    have : ids ≠ [] := List.ne_nil_of_mem hm
    have h1 : 0 < ids.length := List.length_pos.mpr this
    omega
  have h0vars : (addVarsLoop ids n emptyBQM).vars = V := by
    have := addVarsLoop_vars n ids emptyBQM (canonVars_nodup ids n hnd)
      (fun v _ => by simp [emptyBQM])
    simpa [emptyBQM] using this
  have h1 := constraint1_addUpd ids n params.A V hmemIds
  have h2 := constraint2_addUpd ids n params.A V hmemIds
  have h3 := constraint3_addUpd pri nor n pri.length params.B V hmemPri hmemNor hk
  have h4 : AddUpd (constraint4 pri n params.Bp) V
      (dL2 pri n params.Bp) (dQ2 pri n params.Bp) := by
    rw [constraint4_eq_constraint2]
    exact constraint2_addUpd pri n params.Bp V hmemPri
  have hobj := objectiveLoop_addUpd g ids n params.C V hmemIds
  have hdep := depotLoop_addUpd g ids params.C V hmem0
  have hC := addUpd_comp (addUpd_comp (addUpd_comp (addUpd_comp (addUpd_comp h1 h2) h3) h4) hobj) hdep
  obtain ⟨hv, hl, hq⟩ := hC (addVarsLoop ids n emptyBQM) h0vars
  refine ⟨hv, ?_, ?_⟩
  · intro v
    have h' := hl v
    rw [addVarsLoop_linear] at h'
    have hb : emptyBQM.linear v = 0 := rfl
    rw [hb] at h'
    exact h'.trans (by ring)
  · intro v w
    have h' := hq v w
    rw [addVarsLoop_quad] at h'
    have hb : emptyBQM.quad v w = 0 := rfl
    rw [hb] at h'
    exact h'.trans (by ring)

/-! ## Evaluating the linear contributions at a concrete variable -/

theorem sum_indicator_unique {α : Type} [DecidableEq α] (c : ℝ) :
    ∀ (xs : List α), xs.Nodup → ∀ x0 ∈ xs,
      (xs.map (fun x => if x0 = x then c else 0)).sum = c := by
  intro xs
  induction xs with
  | nil =>
    intro _ x0 h
    simp at h
  | cons y ys ih =>
    intro hnd x0 hx0
    rw [List.nodup_cons] at hnd
    rw [List.map_cons, List.sum_cons]
    rcases List.mem_cons.mp hx0 with rfl | hmem
    · rw [if_pos rfl]
      have hz : (ys.map (fun x => if x0 = x then c else 0)).sum = 0 := by
        apply sum_map_zero
        intro x hx
        rw [if_neg (fun hc => hnd.1 (by rw [hc]; exact hx))]
      rw [hz]
      ring
    · rw [if_neg (fun hc => hnd.1 (by rw [← hc]; exact hmem)), ih hnd.2 x0 hmem]
      ring

theorem double_sum_indicator (xs : List Str) (ys : List ℕ)
    (hx : xs.Nodup) (hy : ys.Nodup) {nid : Str} {p : ℕ}
    (hmx : nid ∈ xs) (hmy : p ∈ ys) (c : ℝ) :
    (xs.map (fun nid' => (ys.map (fun p' =>
      if vrName nid p = vrName nid' p' then c else 0)).sum)).sum = c := by
  have houter : ∀ nid' ∈ xs,
      (ys.map (fun p' => if vrName nid p = vrName nid' p' then c else 0)).sum =
        if nid = nid' then c else 0 := by
    intro nid' _
    by_cases hnn : nid = nid'
    · subst hnn
      rw [if_pos rfl]
      rw [List.map_congr_left (fun p' _ =>
        if_congr ((vrName_eq_iff nid p nid p').trans
          ⟨fun h => h.2, fun h => ⟨rfl, h⟩⟩) rfl rfl)]
      exact sum_indicator_unique c ys hy p hmy
    · rw [if_neg hnn]
      apply sum_map_zero
      intro p' _
      rw [if_neg (fun hc => hnn (vrName_inj hc).1)]
  rw [List.map_congr_left houter]
  exact sum_indicator_unique c xs hx nid hmx

theorem double_sum_indicator_swap (ys : List ℕ) (xs : List Str)
    (hy : ys.Nodup) (hx : xs.Nodup) {nid : Str} {p : ℕ}
    (hmx : nid ∈ xs) (hmy : p ∈ ys) (c : ℝ) :
    (ys.map (fun p' => (xs.map (fun nid' =>
      if vrName nid p = vrName nid' p' then c else 0)).sum)).sum = c := by
  have houter : ∀ p' ∈ ys,
      (xs.map (fun nid' => if vrName nid p = vrName nid' p' then c else 0)).sum =
        if p = p' then c else 0 := by
    intro p' _
    by_cases hpp : p = p'
    · subst hpp
      rw [if_pos rfl]
      rw [List.map_congr_left (fun nid' _ =>
        if_congr ((vrName_eq_iff nid p nid' p).trans
          ⟨fun h => h.1, fun h => ⟨h, rfl⟩⟩) rfl rfl)]
      exact sum_indicator_unique c xs hx nid hmx
    · rw [if_neg hpp]
      apply sum_map_zero
      intro nid' _
      rw [if_neg (fun hc => hpp (vrName_inj hc).2)]
  rw [List.map_congr_left houter]
  exact sum_indicator_unique c ys hy p hmy

theorem double_sum_indicator_zero (xs : List Str) (ys : List ℕ)
    {nid : Str} {p : ℕ} (h : nid ∉ xs) (c : ℝ) :
    (xs.map (fun nid' => (ys.map (fun p' =>
      if vrName nid p = vrName nid' p' then c else 0)).sum)).sum = 0 := by
  apply sum_map_zero
  intro nid' hnid'
  apply sum_map_zero
  intro p' _
  rw [if_neg (fun hc => h (by rw [(vrName_inj hc).1]; exact hnid'))]

theorem dL1_eval (node_ids : List Str) (n : ℕ) (A : ℚ) {nid : Str} {p : ℕ}
    (hnd : node_ids.Nodup) (hm : nid ∈ node_ids) (hp : p < n) :
    dL1 node_ids n A (vrName nid p) = -2 * (A : ℝ) :=
  double_sum_indicator_swap (List.range n) node_ids (List.nodup_range n) hnd
    hm (List.mem_range.mpr hp) _

theorem dL2_eval (node_ids : List Str) (n : ℕ) (A : ℚ) {nid : Str} {p : ℕ}
    (hnd : node_ids.Nodup) (hm : nid ∈ node_ids) (hp : p < n) :
    dL2 node_ids n A (vrName nid p) = -2 * (A : ℝ) :=
  double_sum_indicator node_ids (List.range n) hnd (List.nodup_range n)
    hm (List.mem_range.mpr hp) _

theorem dL2_zero (node_ids : List Str) (n : ℕ) (A : ℚ) {nid : Str} {p : ℕ}
    (h : nid ∉ node_ids) :
    dL2 node_ids n A (vrName nid p) = 0 :=
  double_sum_indicator_zero node_ids (List.range n) h _

theorem dL3_eval (priority_ids normal_ids : List Str) (n k : ℕ) (B : ℚ)
    {nid : Str} {p : ℕ} (hndN : normal_ids.Nodup)
    (hnmem : nid ∈ normal_ids) (hpmem : nid ∉ priority_ids) (hp : p < k) :
    dL3 priority_ids normal_ids n k B (vrName nid p) = (B : ℝ) := by
  unfold dL3
  rw [double_sum_indicator_zero priority_ids _ hpmem,
    double_sum_indicator normal_ids (List.range k) hndN (List.nodup_range k)
      hnmem (List.mem_range.mpr hp)]
  ring

theorem dLdep_none (g : CityGraph) (node_ids : List Str) (C : ℚ) (v : Str)
    (h : g.depot_node = none) : dLdep g node_ids C v = 0 := by
  unfold dLdep
  rw [h]

/-- C4: for every graph with unique node ids that contains a depot,
encode registers exactly n·n variables, one per (delivery node,
position) pair, and every variable is named `x_<nid>_<p>` for a
delivery node id — never for the depot's id. -/
theorem build_qubo_vars_exclude_depot (g : CityGraph) (params : QUBOParams)
    (hnd : (g.nodes.map Node.id).Nodup)
    (_hdep : ∃ d, g.depot_node = some d) :
    (build_qubo g params).vars.length =
      g.delivery_nodes.length * g.delivery_nodes.length ∧
    (∀ v ∈ (build_qubo g params).vars, ∃ nid p,
      nid ∈ g.delivery_nodes.map Node.id ∧ p < g.delivery_nodes.length ∧
      v = vrName nid p ∧ ∀ d, g.depot_node = some d → nid ≠ d.id) := by
  have hdel_nd : (g.delivery_nodes.map Node.id).Nodup :=
    List.Nodup.sublist ((List.filter_sublist _).map _) hnd
  obtain ⟨hvars, _, _⟩ := build_qubo_fields g params hdel_nd
  constructor
  · rw [hvars, canonVars_length, List.length_map]
  · intro v hv
    rw [hvars] at hv
    obtain ⟨nid, hm, p, hp, rfl⟩ := mem_canonVars.mp hv
    refine ⟨nid, p, hm, hp, rfl, ?_⟩
    intro d hd heq
    obtain ⟨m, hmf, hmid⟩ := List.mem_map.mp hm
    have hmnodes : m ∈ g.nodes := List.mem_of_mem_filter hmf
    have hmtype : m.type ≠ NodeType.depot := by
      have := List.of_mem_filter hmf
      simpa using this
    have hdnodes : d ∈ g.nodes := List.mem_of_find?_eq_some hd
    have hdtype : d.type = NodeType.depot := by
      have := List.find?_some hd
      simpa using this
    have : m = d := List.inj_on_of_nodup_map hnd hmnodes hdnodes (by rw [hmid, heq])
    rw [this, hdtype] at hmtype
    exact hmtype rfl

/-- The Scenario B graph: depot D0 plus three delivery nodes, one of
them priority. -/
def gB : CityGraph :=
  ⟨[⟨"D0".toList, 5, 5, NodeType.depot⟩, ⟨"P1".toList, 0, 0, NodeType.priority⟩,
    ⟨"N1".toList, 1, 0, NodeType.normal⟩, ⟨"N2".toList, 2, 0, NodeType.normal⟩],
   [⟨"D0".toList, "P1".toList, 1, TrafficLevel.low⟩,
    ⟨"P1".toList, "N1".toList, 1, TrafficLevel.low⟩,
    ⟨"N1".toList, "N2".toList, 1, TrafficLevel.low⟩],
   defaultMultipliers⟩

theorem build_qubo_vars_exclude_depot_witness :
    (build_qubo gB {}).vars.length =
      gB.delivery_nodes.length * gB.delivery_nodes.length ∧
    (∀ v ∈ (build_qubo gB {}).vars, ∃ nid p,
      nid ∈ gB.delivery_nodes.map Node.id ∧ p < gB.delivery_nodes.length ∧
      v = vrName nid p ∧ ∀ d, gB.depot_node = some d → nid ≠ d.id) :=
  build_qubo_vars_exclude_depot gB {} (by decide)
    ⟨⟨"D0".toList, 5, 5, NodeType.depot⟩, by decide⟩

/-- C6: for every graph with unique node ids and no depot, the
accumulated linear bias of a normal-delivery-node variable at a
position p < k (k = priority count) is exactly −4A + B: −2A from each
of the two one-hot constraints, +B from the priority-zone exclusion,
nothing from the purely quadratic distance objective, and no depot
bias. -/
theorem build_qubo_normal_linear (g : CityGraph) (params : QUBOParams)
    (hnd : (g.nodes.map Node.id).Nodup)
    (hnodep : g.depot_node = none)
    {nid : Str}
    (hnid : nid ∈
      (g.delivery_nodes.filter (fun nd => nd.type == NodeType.normal)).map Node.id)
    {p : ℕ}
    (hp : p <
      ((g.delivery_nodes.filter (fun nd => nd.type == NodeType.priority)).map Node.id).length) :
    (build_qubo g params).linear (vrName nid p) =
      -4 * (params.A : ℝ) + (params.B : ℝ) := by
  have hdel_nd : (g.delivery_nodes.map Node.id).Nodup :=
    List.Nodup.sublist ((List.filter_sublist _).map _) hnd
  have hnor_nd :
      ((g.delivery_nodes.filter (fun nd => nd.type == NodeType.normal)).map Node.id).Nodup :=
    List.Nodup.sublist ((List.filter_sublist _).map _) hdel_nd
  have hids : nid ∈ g.delivery_nodes.map Node.id := filterIds_subset _ _ nid hnid
  have hnotpri : nid ∉
      (g.delivery_nodes.filter (fun nd => nd.type == NodeType.priority)).map Node.id := by
    intro hin
    obtain ⟨m1, hm1, hid1⟩ := List.mem_map.mp hnid
    obtain ⟨m2, hm2, hid2⟩ := List.mem_map.mp hin
    have ht1 : m1.type = NodeType.normal := by
      have := List.of_mem_filter hm1
      simpa using this
    have ht2 : m2.type = NodeType.priority := by
      have := List.of_mem_filter hm2
      simpa using this
    have hn1 : m1 ∈ g.nodes :=
      List.mem_of_mem_filter (List.mem_of_mem_filter hm1)
    have hn2 : m2 ∈ g.nodes :=
      List.mem_of_mem_filter (List.mem_of_mem_filter hm2)
    have : m1 = m2 := List.inj_on_of_nodup_map hnd hn1 hn2 (by rw [hid1, hid2])
    rw [this, ht2] at ht1
    cases ht1
  have hkn :
      ((g.delivery_nodes.filter (fun nd => nd.type == NodeType.priority)).map Node.id).length
        ≤ g.delivery_nodes.length := by
    rw [List.length_map]
    exact List.length_filter_le _ _
  have hpn : p < g.delivery_nodes.length := by omega
  obtain ⟨_, hlin, _⟩ := build_qubo_fields g params hdel_nd
  rw [hlin (vrName nid p),
    dL1_eval _ _ _ hdel_nd hids hpn,
    dL2_eval _ _ _ hdel_nd hids hpn,
    dL3_eval _ _ _ _ _ hnor_nd hnid hnotpri hp,
    dL2_zero _ _ _ hnotpri,
    dLdep_none g _ _ _ hnodep]
  ring

theorem build_qubo_normal_linear_witness :
    (build_qubo gP1N1 {}).linear (vrName "N1".toList 0) =
      -4 * (({} : QUBOParams).A : ℝ) + (({} : QUBOParams).B : ℝ) :=
  build_qubo_normal_linear gP1N1 {} (by decide) (by decide) (by decide) (by decide)

/-! ## MockSampler (backend/src/qaoa_solver.py)

`MockSampler.sample` parses every variable name into (node, position),
groups variables by position (dict insertion order), then walks the
positions in ascending order, fixing at each position the unused node
of lowest marginal energy (linear bias plus quadratic interactions
with the variables already fixed to 1).  `int(parts[-1])` raising
anywhere aborts the call (`none`); the returned SampleSet's energy
value is not read by any claim and is omitted. -/

/-- The sampler's variable-parsing loop; any parse failure raises. -/
def parseAllVars : List Str → Option (List (Str × Str × ℤ))
  | [] => some []
  | v :: vs =>
    match parseVarName v, parseAllVars vs with
    | some (nid, pos), some rest => some ((v, nid, pos) :: rest)
    | _, _ => none

/-- The position keys in dict insertion order (first occurrence). -/
def posKeysAux (ks : List ℤ) (parsed : List (Str × Str × ℤ)) : List ℤ :=
  parsed.foldl (fun ks t => if t.2.2 ∈ ks then ks else ks ++ [t.2.2]) ks

def posKeys (parsed : List (Str × Str × ℤ)) : List ℤ := posKeysAux [] parsed

/-- The (variable, node) list grouped under one position key. -/
def posList (parsed : List (Str × Str × ℤ)) (pos : ℤ) : List (Str × Str) :=
  (parsed.filter (fun t => t.2.2 = pos)).map (fun t => (t.1, t.2.1))

/-- One candidate of the per-position scan: skip used nodes, keep the
strictly lowest marginal seen so far (first candidate wins ties;
`none` is the initial `best_marginal = inf`). -/
noncomputable def selStep (bqm : BQM) (assigned used : List Str)
    (best : Option (Str × Str × ℝ)) (t : Str × Str) : Option (Str × Str × ℝ) :=
  if t.2 ∈ used then best
  else
    let marginal := bqm.linear t.1 + (assigned.map (fun a => bqm.quad t.1 a)).sum
    match best with
    | none => some (t.1, t.2, marginal)
    | some (bv, bn, bm) =>
        if marginal < bm then some (t.1, t.2, marginal) else some (bv, bn, bm)

/-- The per-position candidate scan. -/
noncomputable def selBest (bqm : BQM) (assigned used : List Str)
    (cands : List (Str × Str)) : Option (Str × Str × ℝ) :=
  cands.foldl (selStep bqm assigned used) none

/-- The ascending position loop carrying the used-node and
assigned-variable lists. -/
noncomputable def selLoop (bqm : BQM) (posL : ℤ → List (Str × Str)) :
    List ℤ → List Str → List Str → List Str × List Str
  | [], used, assigned => (used, assigned)
  | pos :: rest, used, assigned =>
    match selBest bqm assigned used (posL pos) with
    | some (bv, bn, _) => selLoop bqm posL rest (used ++ [bn]) (assigned ++ [bv])
    | none => selLoop bqm posL rest used assigned

/-- `MockSampler.sample`, returning the assignment's item list in dict
insertion order (the variables' registration order). -/
noncomputable def mockSample (bqm : BQM) : Option (List (Str × ℕ)) :=
  match parseAllVars bqm.vars with
  | none => none
  | some parsed =>
    let sorted := List.insertionSort (· ≤ ·) (posKeys parsed)
    let result := selLoop bqm (posList parsed) sorted [] []
    some (bqm.vars.map (fun v => (v, if v ∈ result.2 then 1 else 0)))

/-! ## Sampler characterization on encoder output -/

theorem parseAllVars_append {xs ys : List Str}
    {as bs : List (Str × Str × ℤ)}
    (hx : parseAllVars xs = some as) (hy : parseAllVars ys = some bs) :
    parseAllVars (xs ++ ys) = some (as ++ bs) := by
  induction xs generalizing as with
  | nil =>
    simp only [parseAllVars, Option.some.injEq] at hx
    subst hx
    simpa using hy
  | cons v vs ih =>
    cases hpv : parseVarName v with
    | none => simp [parseAllVars, hpv] at hx
    | some t =>
      obtain ⟨nid, pos⟩ := t
      cases hrest : parseAllVars vs with
      | none => simp [parseAllVars, hpv, hrest] at hx
      | some rest =>
        simp only [parseAllVars, hpv, hrest, Option.some.injEq] at hx
        subst hx
        simp [parseAllVars, hpv, ih hrest]

theorem parseAllVars_block (nid : Str) :
    ∀ ps : List ℕ,
      parseAllVars (ps.map (vrName nid)) =
        some (ps.map (fun p => (vrName nid p, nid, (p : ℤ)))) := by
  intro ps
  induction ps with
  | nil => rfl
  | cons p ps ih =>
    simp [parseAllVars, parseVarName_vrName, ih]

/-- The parsed triple list for the encoder's canonical variables. -/
def canonParsed (node_ids : List Str) (n : ℕ) : List (Str × Str × ℤ) :=
  node_ids.flatMap (fun nid => (List.range n).map (fun p => (vrName nid p, nid, (p : ℤ))))

theorem parseAllVars_canon (node_ids : List Str) (n : ℕ) :
    parseAllVars (canonVars node_ids n) = some (canonParsed node_ids n) := by
  induction node_ids with
  | nil => rfl
  | cons nid rest ih =>
    have h1 : canonVars (nid :: rest) n =
        (List.range n).map (vrName nid) ++ canonVars rest n := by
      rw [canonVars, List.flatMap_cons]
      rfl
    have h2 : canonParsed (nid :: rest) n =
        (List.range n).map (fun p => (vrName nid p, nid, (p : ℤ))) ++
          canonParsed rest n := by
      rw [canonParsed, List.flatMap_cons]
      rfl
    rw [h1, h2]
    exact parseAllVars_append (parseAllVars_block nid (List.range n)) ih

theorem posKeysAux_append (ks : List ℤ) (xs ys : List (Str × Str × ℤ)) :
    posKeysAux ks (xs ++ ys) = posKeysAux (posKeysAux ks xs) ys := by
  unfold posKeysAux
  rw [List.foldl_append]

theorem posKeysAux_no_new (ks : List ℤ) :
    ∀ parsed : List (Str × Str × ℤ), (∀ t ∈ parsed, t.2.2 ∈ ks) →
      posKeysAux ks parsed = ks := by
  intro parsed
  induction parsed with
  | nil => intro _; rfl
  | cons t ts ih =>
    intro h
    unfold posKeysAux
    rw [List.foldl_cons, if_pos (h t (List.mem_cons_self t ts))]
    exact ih (fun y hy => h y (List.mem_cons_of_mem t hy))

/-- The positions 0..n-1 as integer dict keys. -/
def castRange (n : ℕ) : List ℤ := (List.range n).map (fun p : ℕ => (p : ℤ))

theorem posKeysAux_block (nid : Str) :
    ∀ (ps : List ℕ) (ks : List ℤ), ps.Nodup → (∀ p ∈ ps, ((p : ℤ)) ∉ ks) →
      posKeysAux ks (ps.map (fun p => (vrName nid p, nid, (p : ℤ)))) =
        ks ++ ps.map (fun p : ℕ => (p : ℤ)) := by
  intro ps
  induction ps with
  | nil =>
    intro ks _ _
    simp [posKeysAux]
  | cons p ps ih =>
    intro ks hnd hfresh
    rw [List.nodup_cons] at hnd
    rw [List.map_cons]
    unfold posKeysAux
    rw [List.foldl_cons]
    rw [if_neg (hfresh p (List.mem_cons_self p ps))]
    have : ∀ q ∈ ps, ((q : ℤ)) ∉ ks ++ [((p : ℤ))] := by
      intro q hq
      simp only [List.mem_append, List.mem_singleton]
      push_neg
      refine ⟨hfresh q (List.mem_cons_of_mem p hq), ?_⟩
      intro hc
      have : q = p := by exact_mod_cast hc
      exact hnd.1 (this ▸ hq)
    have hrec := ih (ks ++ [((p : ℤ))]) hnd.2 this
    unfold posKeysAux at hrec
    rw [hrec, List.append_assoc]
    rfl

theorem posKeys_canonParsed (node_ids : List Str) (n : ℕ) (hne : node_ids ≠ []) :
    posKeys (canonParsed node_ids n) = castRange n := by
  cases node_ids with
  | nil => exact absurd rfl hne
  | cons nid rest =>
    have h2 : canonParsed (nid :: rest) n =
        (List.range n).map (fun p => (vrName nid p, nid, (p : ℤ))) ++
          canonParsed rest n := by
      rw [canonParsed, List.flatMap_cons]
      rfl
    rw [posKeys, h2, posKeysAux_append,
      posKeysAux_block nid (List.range n) [] (List.nodup_range n) (by simp)]
    rw [List.nil_append]
    show posKeysAux (castRange n) (canonParsed rest n) = castRange n
    apply posKeysAux_no_new
    intro t ht
    rw [canonParsed] at ht
    obtain ⟨nid', _, ht'⟩ := List.mem_flatMap.mp ht
    obtain ⟨p, hp, rfl⟩ := List.mem_map.mp ht'
    show ((p : ℤ)) ∈ castRange n
    exact List.mem_map_of_mem _ hp

theorem sorted_castRange (n : ℕ) :
    List.Sorted (· ≤ ·) (castRange n) :=
  List.Pairwise.map (fun p : ℕ => (p : ℤ))
    (fun _ _ hab => Int.ofNat_le.mpr (Nat.le_of_lt hab))
    (List.pairwise_lt_range n)

theorem filter_block_single (nid : Str) (p : ℕ) :
    ∀ ps : List ℕ, ps.Nodup → p ∈ ps →
      (ps.map (fun q => (vrName nid q, nid, (q : ℤ)))).filter
          (fun t => t.2.2 = ((p : ℤ))) =
        [(vrName nid p, nid, ((p : ℤ)))] := by
  intro ps
  induction ps with
  | nil =>
    intro _ h
    simp at h
  | cons q qs ih =>
    intro hnd hmem
    rw [List.nodup_cons] at hnd
    rw [List.map_cons]
    by_cases hq : q = p
    · subst hq
      rw [List.filter_cons_of_pos (by simp)]
      have hz : (qs.map (fun q' => (vrName nid q', nid, (q' : ℤ)))).filter
          (fun t => t.2.2 = ((q : ℤ))) = [] := by
        rw [List.filter_eq_nil_iff]
        intro t ht
        obtain ⟨q', hq', rfl⟩ := List.mem_map.mp ht
        simp only [decide_eq_true_eq]
        intro hc
        have : q' = q := by exact_mod_cast hc
        exact hnd.1 (this ▸ hq')
      rw [hz]
    · rw [List.filter_cons_of_neg (by
        simp only [decide_eq_true_eq]
        intro hc
        exact hq (by exact_mod_cast hc))]
      exact ih hnd.2 (by
        rcases List.mem_cons.mp hmem with h | h
        · exact absurd h.symm hq
        · exact h)

theorem posList_canonParsed (node_ids : List Str) (n : ℕ) {p : ℕ} (hp : p < n) :
    posList (canonParsed node_ids n) ((p : ℤ)) =
      node_ids.map (fun nid => (vrName nid p, nid)) := by
  induction node_ids with
  | nil => rfl
  | cons nid rest ih =>
    have h2 : canonParsed (nid :: rest) n =
        (List.range n).map (fun q => (vrName nid q, nid, (q : ℤ))) ++
          canonParsed rest n := by
      rw [canonParsed, List.flatMap_cons]
      rfl
    rw [posList, h2, List.filter_append, List.map_append,
      filter_block_single nid p (List.range n) (List.nodup_range n)
        (List.mem_range.mpr hp)]
    rw [posList] at ih
    rw [ih, List.map_cons]
    rfl

theorem selStep_cases (bqm : BQM) (assigned used : List Str)
    (acc : Option (Str × Str × ℝ)) (t : Str × Str) :
    selStep bqm assigned used acc t = acc ∨
    (t.2 ∉ used ∧ ∃ m, selStep bqm assigned used acc t = some (t.1, t.2, m)) := by
  unfold selStep
  by_cases ht : t.2 ∈ used
  · rw [if_pos ht]
    exact Or.inl rfl
  · rw [if_neg ht]
    cases acc with
    | none => exact Or.inr ⟨ht, _, rfl⟩
    | some q =>
      obtain ⟨qv, qn, qm⟩ := q
      by_cases hlt : bqm.linear t.1 +
          (assigned.map (fun a => bqm.quad t.1 a)).sum < qm
      · refine Or.inr ⟨ht,
          bqm.linear t.1 + (assigned.map (fun a => bqm.quad t.1 a)).sum, ?_⟩
        show (if bqm.linear t.1 + (assigned.map (fun a => bqm.quad t.1 a)).sum < qm
            then some (t.1, t.2,
              bqm.linear t.1 + (assigned.map (fun a => bqm.quad t.1 a)).sum)
            else some (qv, qn, qm)) =
          some (t.1, t.2,
            bqm.linear t.1 + (assigned.map (fun a => bqm.quad t.1 a)).sum)
        rw [if_pos hlt]
      · refine Or.inl ?_
        show (if bqm.linear t.1 + (assigned.map (fun a => bqm.quad t.1 a)).sum < qm
            then some (t.1, t.2,
              bqm.linear t.1 + (assigned.map (fun a => bqm.quad t.1 a)).sum)
            else some (qv, qn, qm)) = some (qv, qn, qm)
        rw [if_neg hlt]

theorem selStep_isSome_left (bqm : BQM) (assigned used : List Str)
    (acc : Option (Str × Str × ℝ)) (t : Str × Str) (h : acc.isSome) :
    (selStep bqm assigned used acc t).isSome := by
  unfold selStep
  by_cases ht : t.2 ∈ used
  · rw [if_pos ht]
    exact h
  · rw [if_neg ht]
    cases acc with
    | none => simp at h
    | some q =>
      obtain ⟨qv, qn, qm⟩ := q
      show (if bqm.linear t.1 + (assigned.map (fun a => bqm.quad t.1 a)).sum < qm
          then some (t.1, t.2,
            bqm.linear t.1 + (assigned.map (fun a => bqm.quad t.1 a)).sum)
          else some (qv, qn, qm)).isSome
      split <;> rfl

theorem selStep_isSome_unused (bqm : BQM) (assigned used : List Str)
    (acc : Option (Str × Str × ℝ)) (t : Str × Str) (h : t.2 ∉ used) :
    (selStep bqm assigned used acc t).isSome := by
  unfold selStep
  rw [if_neg h]
  cases acc with
  | none => rfl
  | some q =>
    obtain ⟨qv, qn, qm⟩ := q
    show (if bqm.linear t.1 + (assigned.map (fun a => bqm.quad t.1 a)).sum < qm
        then some (t.1, t.2,
          bqm.linear t.1 + (assigned.map (fun a => bqm.quad t.1 a)).sum)
        else some (qv, qn, qm)).isSome
    split <;> rfl

theorem selBest_fold_mem (bqm : BQM) (assigned used : List Str) :
    ∀ (cands : List (Str × Str)) (acc : Option (Str × Str × ℝ))
      (x : Str × Str × ℝ),
      cands.foldl (selStep bqm assigned used) acc = some x →
      acc = some x ∨ ((x.1, x.2.1) ∈ cands ∧ x.2.1 ∉ used) := by
  intro cands
  induction cands with
  | nil =>
    intro acc x h
    exact Or.inl h
  | cons t ts ih =>
    intro acc x h
    rw [List.foldl_cons] at h
    rcases ih _ x h with hacc | hmem
    · rcases selStep_cases bqm assigned used acc t with he | ⟨ht, m, he⟩
      · exact Or.inl (he ▸ hacc)
      · rw [he] at hacc
        obtain ⟨h1, h2⟩ : t.1 = x.1 ∧ (t.2, m) = x.2 :=
          Prod.mk.inj (Option.some.inj hacc)
        have h3 : t.2 = x.2.1 := by rw [← h2]
        refine Or.inr ⟨?_, ?_⟩
        · rw [← h1, ← h3]
          exact List.mem_cons_self _ _
        · rw [← h3]
          exact ht
    · exact Or.inr ⟨List.mem_cons_of_mem t hmem.1, hmem.2⟩

theorem selBest_fold_isSome (bqm : BQM) (assigned used : List Str) :
    ∀ (cands : List (Str × Str)) (acc : Option (Str × Str × ℝ)),
      (acc.isSome ∨ ∃ t ∈ cands, t.2 ∉ used) →
      (cands.foldl (selStep bqm assigned used) acc).isSome := by
  intro cands
  induction cands with
  | nil =>
    intro acc h
    rcases h with h | ⟨t, ht, _⟩
    · simpa using h
    · simp at ht
  | cons t ts ih =>
    intro acc h
    rw [List.foldl_cons]
    apply ih
    rcases h with h | ⟨s, hs, hsu⟩
    · exact Or.inl (selStep_isSome_left bqm assigned used acc t h)
    · rcases List.mem_cons.mp hs with rfl | hs'
      · exact Or.inl (selStep_isSome_unused bqm assigned used acc s hsu)
      · exact Or.inr ⟨s, hs', hsu⟩

theorem selBest_some (bqm : BQM) (assigned used : List Str)
    (cands : List (Str × Str)) (h : ∃ t ∈ cands, t.2 ∉ used) :
    ∃ bv bn bm, selBest bqm assigned used cands = some (bv, bn, bm) ∧
      (bv, bn) ∈ cands ∧ bn ∉ used := by
  have hs := selBest_fold_isSome bqm assigned used cands none (Or.inr h)
  rcases hf : cands.foldl (selStep bqm assigned used) none with _ | x
  · rw [hf] at hs
    simp at hs
  · obtain ⟨bv, bn, bm⟩ := x
    rcases selBest_fold_mem bqm assigned used cands none (bv, bn, bm) hf with h' | h'
    · simp at h'
    · exact ⟨bv, bn, bm, by rw [selBest, hf], h'.1, h'.2⟩

theorem exists_unused (node_ids used : List Str) (hnd : node_ids.Nodup)
    (hlen : used.length < node_ids.length) :
    ∃ x ∈ node_ids, x ∉ used := by
  by_contra hcon
  push_neg at hcon
  have hsub' : node_ids ⊆ used := fun x hx => hcon x hx
  have := (List.subperm_of_subset hnd hsub').length_le
  omega

theorem selLoop_cons_some (bqm : BQM) (posL : ℤ → List (Str × Str))
    (pos : ℤ) (rest : List ℤ) (used assigned : List Str)
    (bv bn : Str) (bm : ℝ)
    (h : selBest bqm assigned used (posL pos) = some (bv, bn, bm)) :
    selLoop bqm posL (pos :: rest) used assigned =
      selLoop bqm posL rest (used ++ [bn]) (assigned ++ [bv]) := by
  show (match selBest bqm assigned used (posL pos) with
    | some (bv', bn', _) => selLoop bqm posL rest (used ++ [bn']) (assigned ++ [bv'])
    | none => selLoop bqm posL rest used assigned) =
    selLoop bqm posL rest (used ++ [bn]) (assigned ++ [bv])
  rw [h]

theorem selLoop_extends (bqm : BQM) (posL : ℤ → List (Str × Str))
    (ids : List Str) (hnd : ids.Nodup) :
    ∀ (ps : List ℕ) (used assigned : List Str),
      (∀ p ∈ ps, posL ((p : ℤ)) = ids.map (fun nid => (vrName nid p, nid))) →
      (∀ x ∈ used, x ∈ ids) →
      used.Nodup →
      used.length + ps.length ≤ ids.length →
      ∃ sel : List Str,
        selLoop bqm posL (ps.map (fun p : ℕ => ((p : ℤ)))) used assigned =
          (used ++ sel,
            assigned ++ (ps.zip sel).map (fun t => vrName t.2 t.1)) ∧
        sel.length = ps.length ∧ (used ++ sel).Nodup ∧ ∀ x ∈ sel, x ∈ ids := by
  intro ps
  induction ps with
  | nil =>
    intro used assigned _ _ hnd2 _
    exact ⟨[], by simp [selLoop], rfl, by simpa using hnd2, by simp⟩
  | cons p ps ih =>
    intro used assigned hposL hsub hnd2 hlen
    have hlt : used.length < ids.length := by
      simp only [List.length_cons] at hlen
      omega
    obtain ⟨x, hxids, hxun⟩ := exists_unused ids used hnd hlt
    have hex : ∃ t ∈ posL ((p : ℤ)), t.2 ∉ used := by
      refine ⟨(vrName x p, x), ?_, hxun⟩
      rw [hposL p (List.mem_cons_self p ps)]
      exact List.mem_map_of_mem _ hxids
    obtain ⟨bv, bn, bm, hsel, hmem, hbnun⟩ :=
      selBest_some bqm assigned used (posL ((p : ℤ))) hex
    rw [hposL p (List.mem_cons_self p ps)] at hmem
    obtain ⟨nid, hnid, heq⟩ := List.mem_map.mp hmem
    obtain ⟨h1, h2⟩ := Prod.mk.inj heq
    have hbv : bv = vrName bn p := by rw [← h1, h2]
    have hbn : bn ∈ ids := h2 ▸ hnid
    have hstep := selLoop_cons_some bqm posL ((p : ℤ))
      (ps.map (fun q : ℕ => ((q : ℤ)))) used assigned bv bn bm hsel
    obtain ⟨sel, hloop, hslen, hsnd, hssub⟩ :=
      ih (used ++ [bn]) (assigned ++ [bv])
        (fun q hq => hposL q (List.mem_cons_of_mem p hq))
        (by
          intro y hy
          rcases List.mem_append.mp hy with hy | hy
          · exact hsub y hy
          · rw [List.mem_singleton.mp hy]
            exact hbn)
        (by
          rw [List.nodup_append]
          exact ⟨hnd2, List.nodup_singleton bn,
            fun y hy hy2 => hbnun ((List.mem_singleton.mp hy2) ▸ hy)⟩)
        (by
          simp only [List.length_append, List.length_singleton]
          simp only [List.length_cons] at hlen
          omega)
    refine ⟨bn :: sel, ?_, by simp [hslen], ?_, ?_⟩
    · rw [List.map_cons, hstep, hloop]
      have hfst : used ++ [bn] ++ sel = used ++ bn :: sel := by
        rw [List.append_assoc]
        rfl
      have hsnd2 : assigned ++ [bv] ++ (ps.zip sel).map (fun t => vrName t.2 t.1) =
          assigned ++ ((p :: ps).zip (bn :: sel)).map (fun t => vrName t.2 t.1) := by
        rw [hbv, List.append_assoc]
        rfl
      rw [hfst, hsnd2]
    · rw [List.append_assoc] at hsnd
      exact hsnd
    · intro y hy
      rcases List.mem_cons.mp hy with rfl | hy'
      · exact hbn
      · exact hssub y hy'

theorem mockSample_canon (bqm : BQM) (ids : List Str)
    (hnd : ids.Nodup) (hne : ids ≠ [])
    (hv : bqm.vars = canonVars ids ids.length) :
    ∃ sel : List Str, sel.length = ids.length ∧ sel.Nodup ∧
      (∀ x ∈ sel, x ∈ ids) ∧
      mockSample bqm =
        some ((canonVars ids ids.length).map (fun v =>
          (v, if v ∈ sel.enum.map (fun t => vrName t.2 t.1) then 1 else 0))) := by
  obtain ⟨sel, hloop, hslen, hsnd, hssub⟩ :=
    selLoop_extends bqm (posList (canonParsed ids ids.length)) ids hnd
      (List.range ids.length) [] []
      (fun p hp => posList_canonParsed ids ids.length (List.mem_range.mp hp))
      (by simp) List.nodup_nil (by simp)
  rw [List.length_range] at hslen
  have hsel_nodup : sel.Nodup := by simpa using hsnd
  have hsort : List.insertionSort (· ≤ ·) (posKeys (canonParsed ids ids.length)) =
      (List.range ids.length).map (fun p : ℕ => ((p : ℤ))) := by
    rw [posKeys_canonParsed ids ids.length hne]
    exact List.Sorted.insertionSort_eq (sorted_castRange ids.length)
  have henum : sel.enum = (List.range ids.length).zip sel := by
    rw [List.enum_eq_zip_range, hslen]
  refine ⟨sel, hslen, hsel_nodup, hssub, ?_⟩
  unfold mockSample
  rw [hv]
  simp only [parseAllVars_canon, hsort, hloop, List.nil_append, henum]

/-- C5: on the BQM produced by `build_qubo` from a graph with
delivery nodes of distinct ids (at least one), the deterministic
energy-greedy `MockSampler` returns an assignment in which, for every
position p, the 1-valued variables at position p are exactly the
single variable `x_<sel[p]>_<p>` of one chosen delivery node when
p < n and none when p ≥ n, and the n chosen nodes are pairwise
distinct delivery nodes (no node occupies two positions). -/
theorem mockSample_one_per_position (g : CityGraph) (params : QUBOParams)
    (hnd : (g.delivery_nodes.map Node.id).Nodup)
    (hne : g.delivery_nodes.map Node.id ≠ []) :
    ∃ (sel : List Str) (sample : List (Str × ℕ)),
      mockSample (build_qubo g params) = some sample ∧
      sel.length = g.delivery_nodes.length ∧ sel.Nodup ∧
      (∀ x ∈ sel, x ∈ g.delivery_nodes.map Node.id) ∧
      (∀ (p : ℕ) (nid : Str), nid ∈ g.delivery_nodes.map Node.id →
        ((vrName nid p, 1) ∈ sample ↔ sel.get? p = some nid)) := by
  obtain ⟨hv, _, _⟩ := build_qubo_fields g params hnd
  have hlen : (g.delivery_nodes.map Node.id).length = g.delivery_nodes.length :=
    List.length_map _ _
  have hv' : (build_qubo g params).vars =
      canonVars (g.delivery_nodes.map Node.id)
        (g.delivery_nodes.map Node.id).length := by
    rw [hlen]
    exact hv
  obtain ⟨sel, hslen, hsnd, hssub, hsample⟩ :=
    mockSample_canon (build_qubo g params) (g.delivery_nodes.map Node.id)
      hnd hne hv'
  refine ⟨sel, _, hsample, by rw [hslen, hlen], hsnd, hssub, ?_⟩
  intro p nid hnid
  constructor
  · intro hin
    obtain ⟨v, hvmem, hveq⟩ := List.mem_map.mp hin
    obtain ⟨he1, he2⟩ := Prod.mk.inj hveq
    rw [he1] at he2
    by_cases hc : vrName nid p ∈ sel.enum.map (fun t => vrName t.2 t.1)
    · obtain ⟨⟨t1, t2⟩, htmem, hteq⟩ := List.mem_map.mp hc
      obtain ⟨hteq1, hteq2⟩ := vrName_inj hteq
      have h1 : t2 = nid := hteq1
      have h2 : t1 = p := hteq2
      rw [h1, h2] at htmem
      exact List.mk_mem_enum_iff_get?.mp htmem
    · rw [if_neg hc] at he2
      cases he2
  · intro hget
    have hpmem : (p, nid) ∈ sel.enum := (List.mk_mem_enum_iff_get? ).mpr hget
    have hplt : p < sel.length := by
      have := List.get?_eq_some.mp hget
      exact this.1
    have hA : vrName nid p ∈ sel.enum.map (fun t => vrName t.2 t.1) := by
      refine List.mem_map.mpr ⟨(p, nid), hpmem, rfl⟩
    have hV : vrName nid p ∈
        canonVars (g.delivery_nodes.map Node.id)
          (g.delivery_nodes.map Node.id).length := by
      refine mem_canonVars_of _ _ hnid ?_
      rw [← hslen]
      exact hplt
    refine List.mem_map.mpr ⟨vrName nid p, hV, ?_⟩
    rw [if_pos hA]

theorem mockSample_one_per_position_witness :
    ((gP1N1.delivery_nodes.map Node.id).Nodup ∧
      gP1N1.delivery_nodes.map Node.id ≠ []) ∧
    (∃ (sel : List Str) (sample : List (Str × ℕ)),
      mockSample (build_qubo gP1N1 {}) = some sample ∧
      sel.length = gP1N1.delivery_nodes.length ∧ sel.Nodup ∧
      (∀ x ∈ sel, x ∈ gP1N1.delivery_nodes.map Node.id) ∧
      (∀ (p : ℕ) (nid : Str), nid ∈ gP1N1.delivery_nodes.map Node.id →
        ((vrName nid p, 1) ∈ sample ↔ sel.get? p = some nid))) :=
  ⟨⟨by decide, by decide⟩,
    mockSample_one_per_position gP1N1 {} (by decide) (by decide)⟩

/-! ## Scenario A: the concrete end-to-end pipeline -/

/-- The Scenario A graph: P1, P2 priority and N1, N2 normal;
low-traffic distance-1.0 edges P1–P2, P1–N1, P2–N2, N1–N2 and
medium-traffic distance-1.41 edges P1–N2, P2–N1; default traffic
multipliers. -/
def gA : CityGraph :=
  ⟨[⟨"P1".toList, 0, 0, NodeType.priority⟩, ⟨"P2".toList, 1, 0, NodeType.priority⟩,
    ⟨"N1".toList, 0, 1, NodeType.normal⟩, ⟨"N2".toList, 1, 1, NodeType.normal⟩],
   [⟨"P1".toList, "P2".toList, 1, TrafficLevel.low⟩,
    ⟨"P1".toList, "N1".toList, 1, TrafficLevel.low⟩,
    ⟨"P2".toList, "N2".toList, 1, TrafficLevel.low⟩,
    ⟨"N1".toList, "N2".toList, 1, TrafficLevel.low⟩,
    ⟨"P1".toList, "N2".toList, 141/100, TrafficLevel.medium⟩,
    ⟨"P2".toList, "N1".toList, 141/100, TrafficLevel.medium⟩],
   defaultMultipliers⟩

theorem gwA_P1_P2 : gA.get_edge_weight "P1".toList "P2".toList = some 1 := by
  show some ((1 * 1 : ℚ) : ℝ) = some 1
  norm_num

theorem gwA_P1_N1 : gA.get_edge_weight "P1".toList "N1".toList = some 1 := by
  show some ((1 * 1 : ℚ) : ℝ) = some 1
  norm_num

theorem gwA_P1_N2 : gA.get_edge_weight "P1".toList "N2".toList =
    some ((423 / 200 : ℝ)) := by
  show some ((141/100 * (3/2) : ℚ) : ℝ) = some ((423 / 200 : ℝ))
  push_cast
  norm_num

theorem gwA_P2_N1 : gA.get_edge_weight "P2".toList "N1".toList =
    some ((423 / 200 : ℝ)) := by
  show some ((141/100 * (3/2) : ℚ) : ℝ) = some ((423 / 200 : ℝ))
  push_cast
  norm_num

theorem gwA_P2_N2 : gA.get_edge_weight "P2".toList "N2".toList = some 1 := by
  show some ((1 * 1 : ℚ) : ℝ) = some 1
  norm_num

theorem gwA_N2_N1 : gA.get_edge_weight "N2".toList "N1".toList = some 1 := by
  show some ((1 * 1 : ℚ) : ℝ) = some 1
  norm_num

/-! ## Evaluating the quadratic contributions at concrete variables -/

theorem dQ1_zero_pos (node_ids : List Str) (n : ℕ) (A : ℚ)
    {a b : Str} {q p : ℕ} (hqp : q ≠ p) :
    dQ1 node_ids n A (vrName a q) (vrName b p) = 0 := by
  apply sum_map_zero
  intro r _
  apply sum_map_zero
  intro pi _
  apply sum_map_zero
  intro pj _
  by_cases hij : pi.1 < pj.1
  · rw [if_pos hij, if_neg]
    rintro (⟨h1, h2⟩ | ⟨h1, h2⟩)
    · exact hqp ((vrName_inj h1).2.trans (vrName_inj h2).2.symm)
    · exact hqp ((vrName_inj h1).2.trans (vrName_inj h2).2.symm)
  · rw [if_neg hij]

theorem dQ2_zero_node (node_ids : List Str) (n : ℕ) (A : ℚ)
    {a b : Str} {q p : ℕ} (hab : a ≠ b) :
    dQ2 node_ids n A (vrName a q) (vrName b p) = 0 := by
  apply sum_map_zero
  intro nid _
  apply sum_map_zero
  intro r _
  apply sum_map_zero
  intro s _
  rw [if_neg]
  rintro (⟨h1, h2⟩ | ⟨h1, h2⟩)
  · exact hab ((vrName_inj h1).1.trans (vrName_inj h2).1.symm)
  · exact hab ((vrName_inj h1).1.trans (vrName_inj h2).1.symm)

theorem dQobj_zero_far (g : CityGraph) (node_ids : List Str) (n : ℕ) (C : ℚ)
    {a b : Str} {q p : ℕ} (h1 : q ≠ p + 1) (h2 : p ≠ q + 1) :
    dQobj g node_ids n C (vrName a q) (vrName b p) = 0 := by
  apply sum_map_zero
  intro r _
  apply sum_map_zero
  intro u _
  apply sum_map_zero
  intro v' _
  by_cases hc : u ≠ v'
  · rw [if_pos hc]
    rcases hw : g.get_edge_weight u v' with _ | wt
    · simp only [hw]
    · simp only [hw]
      rw [if_neg]
      rintro (⟨hc1, hc2⟩ | ⟨hc1, hc2⟩)
      · have e1 := (vrName_inj hc1).2
        have e2 := (vrName_inj hc2).2
        exact h2 (by omega)
      · have e1 := (vrName_inj hc1).2
        have e2 := (vrName_inj hc2).2
        exact h1 (by omega)
  · rw [if_neg hc]

theorem dQobj_eval (g : CityGraph) (node_ids : List Str) (n : ℕ) (C : ℚ)
    (hnd : node_ids.Nodup) {a b : Str} {p q : ℕ} (hq : q = p + 1)
    (ha : a ∈ node_ids) (hb : b ∈ node_ids) (hab : b ≠ a) (hpn : p + 1 < n)
    {wt : ℝ} (hw : g.get_edge_weight b a = some wt) :
    dQobj g node_ids n C (vrName a q) (vrName b p) = (C : ℝ) * wt := by
  subst hq
  have houter : ∀ r ∈ List.range (n - 1),
      (node_ids.map (fun u =>
        (node_ids.map (fun v' =>
          if u ≠ v' then
            (match g.get_edge_weight u v' with
            | some wt' =>
                if (vrName a (p + 1) = vrName u r ∧ vrName b p = vrName v' (r + 1)) ∨
                    (vrName a (p + 1) = vrName v' (r + 1) ∧ vrName b p = vrName u r)
                then (C : ℝ) * wt' else 0
            | none => 0)
          else 0)).sum)).sum = if p = r then (C : ℝ) * wt else 0 := by
    intro r _
    by_cases hpr : p = r
    · subst hpr
      rw [if_pos rfl]
      have hmid : ∀ u ∈ node_ids,
          (node_ids.map (fun v' =>
            if u ≠ v' then
              (match g.get_edge_weight u v' with
              | some wt' =>
                  if (vrName a (p + 1) = vrName u p ∧ vrName b p = vrName v' (p + 1)) ∨
                      (vrName a (p + 1) = vrName v' (p + 1) ∧ vrName b p = vrName u p)
                  then (C : ℝ) * wt' else 0
              | none => 0)
            else 0)).sum = if b = u then (C : ℝ) * wt else 0 := by
        intro u _
        by_cases hbu : b = u
        · subst hbu
          rw [if_pos rfl]
          have hin : ∀ v' ∈ node_ids,
              (if b ≠ v' then
                (match g.get_edge_weight b v' with
                | some wt' =>
                    if (vrName a (p + 1) = vrName b p ∧ vrName b p = vrName v' (p + 1)) ∨
                        (vrName a (p + 1) = vrName v' (p + 1) ∧ vrName b p = vrName b p)
                    then (C : ℝ) * wt' else 0
                | none => 0)
              else 0) = if a = v' then (C : ℝ) * wt else 0 := by
            intro v' _
            by_cases hav : a = v'
            · subst hav
              have hrhs : (if a = a then (C : ℝ) * wt else 0) = (C : ℝ) * wt :=
                if_pos rfl
              rw [hrhs, if_pos hab]
              simp only [hw]
              simp
            · rw [if_neg hav]
              by_cases hbv : b ≠ v'
              · rw [if_pos hbv]
                rcases hw' : g.get_edge_weight b v' with _ | wt'
                · simp only [hw']
                · simp only [hw']
                  rw [if_neg]
                  rintro (⟨hc1, hc2⟩ | ⟨hc1, hc2⟩)
                  · have := (vrName_inj hc1).2
                    omega
                  · exact hav ((vrName_inj hc1).1)
              · rw [if_neg hbv]
          rw [List.map_congr_left hin]
          exact sum_indicator_unique _ node_ids hnd a ha
        · rw [if_neg hbu]
          apply sum_map_zero
          intro v' _
          by_cases huv : u ≠ v'
          · rw [if_pos huv]
            rcases hw' : g.get_edge_weight u v' with _ | wt'
            · simp only [hw']
            · simp only [hw']
              rw [if_neg]
              rintro (⟨hc1, hc2⟩ | ⟨hc1, hc2⟩)
              · have := (vrName_inj hc1).2
                omega
              · exact hbu ((vrName_inj hc2).1)
          · rw [if_neg huv]
      rw [List.map_congr_left hmid]
      exact sum_indicator_unique _ node_ids hnd b hb
    · rw [if_neg hpr]
      apply sum_map_zero
      intro u _
      apply sum_map_zero
      intro v' _
      by_cases huv : u ≠ v'
      · rw [if_pos huv]
        rcases hw' : g.get_edge_weight u v' with _ | wt'
        · simp only [hw']
        · simp only [hw']
          rw [if_neg]
          rintro (⟨hc1, hc2⟩ | ⟨hc1, hc2⟩)
          · have e1 := (vrName_inj hc1).2
            have e2 := (vrName_inj hc2).2
            omega
          · have e1 := (vrName_inj hc1).2
            exact hpr (by omega)
      · rw [if_neg huv]
  unfold dQobj
  rw [List.map_congr_left houter]
  exact sum_indicator_unique _ (List.range (n - 1)) (List.nodup_range _) p
    (List.mem_range.mpr (by omega))

theorem dL3_zero_low (priority_ids normal_ids : List Str) (n k : ℕ) (B : ℚ)
    {nid : Str} {p : ℕ} (hn : nid ∉ normal_ids) (hp : p < k) :
    dL3 priority_ids normal_ids n k B (vrName nid p) = 0 := by
  unfold dL3
  have h1 : (priority_ids.map (fun nid' =>
      ((List.range' k (n - k)).map (fun p' =>
        if vrName nid p = vrName nid' p' then (B : ℝ) else 0)).sum)).sum = 0 := by
    apply sum_map_zero
    intro nid' _
    apply sum_map_zero
    intro p' hp'
    have hk := (List.mem_range'_1.mp hp').1
    rw [if_neg]
    intro hc
    have := (vrName_inj hc).2
    omega
  rw [h1, double_sum_indicator_zero normal_ids (List.range k) hn]
  ring

theorem dL3_zero_high (priority_ids normal_ids : List Str) (n k : ℕ) (B : ℚ)
    {nid : Str} {p : ℕ} (hn : nid ∉ priority_ids) (hp : k ≤ p) :
    dL3 priority_ids normal_ids n k B (vrName nid p) = 0 := by
  unfold dL3
  have h2 : (normal_ids.map (fun nid' =>
      ((List.range k).map (fun p' =>
        if vrName nid p = vrName nid' p' then (B : ℝ) else 0)).sum)).sum = 0 := by
    apply sum_map_zero
    intro nid' _
    apply sum_map_zero
    intro p' hp'
    have hk := List.mem_range.mp hp'
    rw [if_neg]
    intro hc
    have := (vrName_inj hc).2
    omega
  rw [h2, double_sum_indicator_zero priority_ids (List.range' k (n - k)) hn]
  ring

theorem pri_norm_disjoint (g : CityGraph) (hnd : (g.nodes.map Node.id).Nodup)
    {nid : Str}
    (h1 : nid ∈
      (g.delivery_nodes.filter (fun nd => nd.type == NodeType.priority)).map Node.id)
    (h2 : nid ∈
      (g.delivery_nodes.filter (fun nd => nd.type == NodeType.normal)).map Node.id) :
    False := by
  obtain ⟨m1, hm1, hid1⟩ := List.mem_map.mp h1
  obtain ⟨m2, hm2, hid2⟩ := List.mem_map.mp h2
  have ht1 : m1.type = NodeType.priority := by
    have := List.of_mem_filter hm1
    simpa using this
  have ht2 : m2.type = NodeType.normal := by
    have := List.of_mem_filter hm2
    simpa using this
  have hn1 : m1 ∈ g.nodes :=
    List.mem_of_mem_filter (List.mem_of_mem_filter hm1)
  have hn2 : m2 ∈ g.nodes :=
    List.mem_of_mem_filter (List.mem_of_mem_filter hm2)
  have : m1 = m2 := List.inj_on_of_nodup_map hnd hn1 hn2 (by rw [hid1, hid2])
  rw [this, ht2] at ht1
  cases ht1

theorem build_qubo_linear_pri (g : CityGraph) (params : QUBOParams)
    (hnd : (g.nodes.map Node.id).Nodup)
    (hnodep : g.depot_node = none)
    {nid : Str}
    (hnid : nid ∈
      (g.delivery_nodes.filter (fun nd => nd.type == NodeType.priority)).map Node.id)
    {p : ℕ}
    (hp : p <
      ((g.delivery_nodes.filter (fun nd => nd.type == NodeType.priority)).map Node.id).length) :
    (build_qubo g params).linear (vrName nid p) =
      -4 * (params.A : ℝ) - 2 * (params.Bp : ℝ) := by
  have hdel_nd : (g.delivery_nodes.map Node.id).Nodup :=
    List.Nodup.sublist ((List.filter_sublist _).map _) hnd
  have hpri_nd :
      ((g.delivery_nodes.filter (fun nd => nd.type == NodeType.priority)).map Node.id).Nodup :=
    List.Nodup.sublist ((List.filter_sublist _).map _) hdel_nd
  have hids : nid ∈ g.delivery_nodes.map Node.id := filterIds_subset _ _ nid hnid
  have hnotnor : nid ∉
      (g.delivery_nodes.filter (fun nd => nd.type == NodeType.normal)).map Node.id :=
    fun h => pri_norm_disjoint g hnd hnid h
  have hkn :
      ((g.delivery_nodes.filter (fun nd => nd.type == NodeType.priority)).map Node.id).length
        ≤ g.delivery_nodes.length := by
    rw [List.length_map]
    exact List.length_filter_le _ _
  have hpn : p < g.delivery_nodes.length := by omega
  obtain ⟨_, hlin, _⟩ := build_qubo_fields g params hdel_nd
  rw [hlin (vrName nid p),
    dL1_eval _ _ _ hdel_nd hids hpn,
    dL2_eval _ _ _ hdel_nd hids hpn,
    dL3_zero_low _ _ _ _ _ hnotnor hp,
    dL2_eval _ _ _ hpri_nd hnid hpn,
    dLdep_none g _ _ _ hnodep]
  ring

theorem build_qubo_linear_norm_lowzone (g : CityGraph) (params : QUBOParams)
    (hnd : (g.nodes.map Node.id).Nodup)
    (hnodep : g.depot_node = none)
    {nid : Str}
    (hnid : nid ∈
      (g.delivery_nodes.filter (fun nd => nd.type == NodeType.normal)).map Node.id)
    {p : ℕ}
    (hp : p <
      ((g.delivery_nodes.filter (fun nd => nd.type == NodeType.priority)).map Node.id).length) :
    (build_qubo g params).linear (vrName nid p) =
      -4 * (params.A : ℝ) + (params.B : ℝ) := by
  have hdel_nd : (g.delivery_nodes.map Node.id).Nodup :=
    List.Nodup.sublist ((List.filter_sublist _).map _) hnd
  have hnor_nd :
      ((g.delivery_nodes.filter (fun nd => nd.type == NodeType.normal)).map Node.id).Nodup :=
    List.Nodup.sublist ((List.filter_sublist _).map _) hdel_nd
  have hids : nid ∈ g.delivery_nodes.map Node.id := filterIds_subset _ _ nid hnid
  have hnotpri : nid ∉
      (g.delivery_nodes.filter (fun nd => nd.type == NodeType.priority)).map Node.id :=
    fun h => pri_norm_disjoint g hnd h hnid
  have hkn :
      ((g.delivery_nodes.filter (fun nd => nd.type == NodeType.priority)).map Node.id).length
        ≤ g.delivery_nodes.length := by
    rw [List.length_map]
    exact List.length_filter_le _ _
  have hpn : p < g.delivery_nodes.length := by omega
  obtain ⟨_, hlin, _⟩ := build_qubo_fields g params hdel_nd
  rw [hlin (vrName nid p),
    dL1_eval _ _ _ hdel_nd hids hpn,
    dL2_eval _ _ _ hdel_nd hids hpn,
    dL3_eval _ _ _ _ _ hnor_nd hnid hnotpri hp,
    dL2_zero _ _ _ hnotpri,
    dLdep_none g _ _ _ hnodep]
  ring

theorem build_qubo_linear_norm_highzone (g : CityGraph) (params : QUBOParams)
    (hnd : (g.nodes.map Node.id).Nodup)
    (hnodep : g.depot_node = none)
    {nid : Str}
    (hnid : nid ∈
      (g.delivery_nodes.filter (fun nd => nd.type == NodeType.normal)).map Node.id)
    {p : ℕ}
    (hpk :
      ((g.delivery_nodes.filter (fun nd => nd.type == NodeType.priority)).map Node.id).length
        ≤ p)
    (hpn : p < g.delivery_nodes.length) :
    (build_qubo g params).linear (vrName nid p) = -4 * (params.A : ℝ) := by
  have hdel_nd : (g.delivery_nodes.map Node.id).Nodup :=
    List.Nodup.sublist ((List.filter_sublist _).map _) hnd
  have hids : nid ∈ g.delivery_nodes.map Node.id := filterIds_subset _ _ nid hnid
  have hnotpri : nid ∉
      (g.delivery_nodes.filter (fun nd => nd.type == NodeType.priority)).map Node.id :=
    fun h => pri_norm_disjoint g hnd h hnid
  obtain ⟨_, hlin, _⟩ := build_qubo_fields g params hdel_nd
  rw [hlin (vrName nid p),
    dL1_eval _ _ _ hdel_nd hids hpn,
    dL2_eval _ _ _ hdel_nd hids hpn,
    dL3_zero_high _ _ _ _ _ hnotpri hpk,
    dL2_zero _ _ _ hnotpri,
    dLdep_none g _ _ _ hnodep]
  ring

theorem build_qubo_quad_far (g : CityGraph) (params : QUBOParams)
    (hnd : (g.delivery_nodes.map Node.id).Nodup)
    {a b : Str} {q p : ℕ} (hab : a ≠ b) (h1 : q ≠ p + 1) (h2 : p ≠ q + 1)
    (h3 : q ≠ p) :
    (build_qubo g params).quad (vrName a q) (vrName b p) = 0 := by
  obtain ⟨_, _, hq⟩ := build_qubo_fields g params hnd
  rw [hq, dQ1_zero_pos _ _ _ h3, dQ2_zero_node _ _ _ hab, dQ2_zero_node _ _ _ hab,
    dQobj_zero_far _ _ _ _ h1 h2]
  ring

theorem build_qubo_quad_adj (g : CityGraph) (params : QUBOParams)
    (hnd : (g.delivery_nodes.map Node.id).Nodup)
    {a b : Str} {p q : ℕ} (hq : q = p + 1)
    (ha : a ∈ g.delivery_nodes.map Node.id)
    (hb : b ∈ g.delivery_nodes.map Node.id)
    (hab : b ≠ a)
    (hpn : p + 1 < g.delivery_nodes.length) {wt : ℝ}
    (hw : g.get_edge_weight b a = some wt) :
    (build_qubo g params).quad (vrName a q) (vrName b p) = (params.C : ℝ) * wt := by
  obtain ⟨_, _, hqf⟩ := build_qubo_fields g params hnd
  have hab' : a ≠ b := fun h => hab h.symm
  rw [hqf, dQ1_zero_pos _ _ _ (by omega), dQ2_zero_node _ _ _ hab',
    dQ2_zero_node _ _ _ hab',
    dQobj_eval g _ _ _ hnd hq ha hb hab hpn hw]
  ring

/-! ## Scenario A bias values -/

theorem linA_P1_0 : (build_qubo gA {}).linear (vrName "P1".toList 0) = -2400 := by
  rw [build_qubo_linear_pri gA {} (by decide) (by decide) (by decide) (by decide)]
  norm_num

theorem linA_P2_0 : (build_qubo gA {}).linear (vrName "P2".toList 0) = -2400 := by
  rw [build_qubo_linear_pri gA {} (by decide) (by decide) (by decide) (by decide)]
  norm_num

theorem linA_N1_0 : (build_qubo gA {}).linear (vrName "N1".toList 0) = 100 := by
  rw [build_qubo_linear_norm_lowzone gA {} (by decide) (by decide) (by decide)
    (by decide)]
  norm_num

theorem linA_N2_0 : (build_qubo gA {}).linear (vrName "N2".toList 0) = 100 := by
  rw [build_qubo_linear_norm_lowzone gA {} (by decide) (by decide) (by decide)
    (by decide)]
  norm_num

theorem linA_P2_1 : (build_qubo gA {}).linear (vrName "P2".toList 1) = -2400 := by
  rw [build_qubo_linear_pri gA {} (by decide) (by decide) (by decide) (by decide)]
  norm_num

theorem linA_N1_1 : (build_qubo gA {}).linear (vrName "N1".toList 1) = 100 := by
  rw [build_qubo_linear_norm_lowzone gA {} (by decide) (by decide) (by decide)
    (by decide)]
  norm_num

theorem linA_N2_1 : (build_qubo gA {}).linear (vrName "N2".toList 1) = 100 := by
  rw [build_qubo_linear_norm_lowzone gA {} (by decide) (by decide) (by decide)
    (by decide)]
  norm_num

theorem linA_N1_2 : (build_qubo gA {}).linear (vrName "N1".toList 2) = -400 := by
  rw [build_qubo_linear_norm_highzone gA {} (by decide) (by decide) (by decide)
    (by decide) (by decide)]
  norm_num

theorem linA_N2_2 : (build_qubo gA {}).linear (vrName "N2".toList 2) = -400 := by
  rw [build_qubo_linear_norm_highzone gA {} (by decide) (by decide) (by decide)
    (by decide) (by decide)]
  norm_num

theorem linA_N1_3 : (build_qubo gA {}).linear (vrName "N1".toList 3) = -400 := by
  rw [build_qubo_linear_norm_highzone gA {} (by decide) (by decide) (by decide)
    (by decide) (by decide)]
  norm_num

theorem quadA_P2_1_P1_0 :
    (build_qubo gA {}).quad (vrName "P2".toList 1) (vrName "P1".toList 0) = 1 := by
  rw [build_qubo_quad_adj gA {} (by decide) rfl (by decide) (by decide) (by decide)
    (by decide) gwA_P1_P2]
  norm_num

theorem quadA_N1_1_P1_0 :
    (build_qubo gA {}).quad (vrName "N1".toList 1) (vrName "P1".toList 0) = 1 := by
  rw [build_qubo_quad_adj gA {} (by decide) rfl (by decide) (by decide) (by decide)
    (by decide) gwA_P1_N1]
  norm_num

theorem quadA_N2_1_P1_0 :
    (build_qubo gA {}).quad (vrName "N2".toList 1) (vrName "P1".toList 0) =
      423 / 200 := by
  rw [build_qubo_quad_adj gA {} (by decide) rfl (by decide) (by decide) (by decide)
    (by decide) gwA_P1_N2]
  norm_num

theorem quadA_N1_2_P1_0 :
    (build_qubo gA {}).quad (vrName "N1".toList 2) (vrName "P1".toList 0) = 0 :=
  build_qubo_quad_far gA {} (by decide) (by decide) (by decide) (by decide)
    (by decide)

theorem quadA_N2_2_P1_0 :
    (build_qubo gA {}).quad (vrName "N2".toList 2) (vrName "P1".toList 0) = 0 :=
  build_qubo_quad_far gA {} (by decide) (by decide) (by decide) (by decide)
    (by decide)

theorem quadA_N1_2_P2_1 :
    (build_qubo gA {}).quad (vrName "N1".toList 2) (vrName "P2".toList 1) =
      423 / 200 := by
  rw [build_qubo_quad_adj gA {} (by decide) rfl (by decide) (by decide) (by decide)
    (by decide) gwA_P2_N1]
  norm_num

theorem quadA_N2_2_P2_1 :
    (build_qubo gA {}).quad (vrName "N2".toList 2) (vrName "P2".toList 1) = 1 := by
  rw [build_qubo_quad_adj gA {} (by decide) rfl (by decide) (by decide) (by decide)
    (by decide) gwA_P2_N2]
  norm_num

theorem quadA_N1_3_P1_0 :
    (build_qubo gA {}).quad (vrName "N1".toList 3) (vrName "P1".toList 0) = 0 :=
  build_qubo_quad_far gA {} (by decide) (by decide) (by decide) (by decide)
    (by decide)

theorem quadA_N1_3_P2_1 :
    (build_qubo gA {}).quad (vrName "N1".toList 3) (vrName "P2".toList 1) = 0 :=
  build_qubo_quad_far gA {} (by decide) (by decide) (by decide) (by decide)
    (by decide)

theorem quadA_N1_3_N2_2 :
    (build_qubo gA {}).quad (vrName "N1".toList 3) (vrName "N2".toList 2) = 1 := by
  rw [build_qubo_quad_adj gA {} (by decide) rfl (by decide) (by decide) (by decide)
    (by decide) gwA_N2_N1]
  norm_num

/-! ## Running the sampler's per-position scan on concrete candidates -/

theorem selStep_skip (bqm : BQM) (assigned used : List Str)
    (acc : Option (Str × Str × ℝ)) (v nid : Str) (h : nid ∈ used) :
    selStep bqm assigned used acc (v, nid) = acc := by
  unfold selStep
  exact if_pos h

theorem selStep_first (bqm : BQM) (assigned used : List Str) (v nid : Str)
    (h : nid ∉ used) :
    selStep bqm assigned used none (v, nid) =
      some (v, nid,
        bqm.linear v + (assigned.map (fun a => bqm.quad v a)).sum) := by
  unfold selStep
  rw [if_neg h]

theorem selStep_keep (bqm : BQM) (assigned used : List Str) (v nid bv bn : Str)
    (bm : ℝ) (h : nid ∉ used)
    (hm : ¬ bqm.linear v + (assigned.map (fun a => bqm.quad v a)).sum < bm) :
    selStep bqm assigned used (some (bv, bn, bm)) (v, nid) = some (bv, bn, bm) := by
  unfold selStep
  rw [if_neg h]
  show (if bqm.linear v + (assigned.map (fun a => bqm.quad v a)).sum < bm
      then some (v, nid,
        bqm.linear v + (assigned.map (fun a => bqm.quad v a)).sum)
      else some (bv, bn, bm)) = some (bv, bn, bm)
  rw [if_neg hm]

theorem selStep_better (bqm : BQM) (assigned used : List Str) (v nid bv bn : Str)
    (bm : ℝ) (h : nid ∉ used)
    (hm : bqm.linear v + (assigned.map (fun a => bqm.quad v a)).sum < bm) :
    selStep bqm assigned used (some (bv, bn, bm)) (v, nid) =
      some (v, nid,
        bqm.linear v + (assigned.map (fun a => bqm.quad v a)).sum) := by
  unfold selStep
  rw [if_neg h]
  show (if bqm.linear v + (assigned.map (fun a => bqm.quad v a)).sum < bm
      then some (v, nid,
        bqm.linear v + (assigned.map (fun a => bqm.quad v a)).sum)
      else some (bv, bn, bm)) =
    some (v, nid,
      bqm.linear v + (assigned.map (fun a => bqm.quad v a)).sum)
  rw [if_pos hm]

theorem selA0 : selBest (build_qubo gA {}) [] []
    [(vrName "P1".toList 0, "P1".toList), (vrName "P2".toList 0, "P2".toList),
     (vrName "N1".toList 0, "N1".toList), (vrName "N2".toList 0, "N2".toList)] =
    some (vrName "P1".toList 0, "P1".toList,
      (build_qubo gA {}).linear (vrName "P1".toList 0) +
        (([] : List Str).map
          (fun a => (build_qubo gA {}).quad (vrName "P1".toList 0) a)).sum) := by
  unfold selBest
  rw [List.foldl_cons, selStep_first _ _ _ _ _ (by decide),
    List.foldl_cons, selStep_keep _ _ _ _ _ _ _ _ (by decide)
      (by simp only [linA_P2_0, linA_P1_0]; norm_num),
    List.foldl_cons, selStep_keep _ _ _ _ _ _ _ _ (by decide)
      (by simp only [linA_N1_0, linA_P1_0]; norm_num),
    List.foldl_cons, selStep_keep _ _ _ _ _ _ _ _ (by decide)
      (by simp only [linA_N2_0, linA_P1_0]; norm_num),
    List.foldl_nil]

theorem selA1 : selBest (build_qubo gA {}) [vrName "P1".toList 0] ["P1".toList]
    [(vrName "P1".toList 1, "P1".toList), (vrName "P2".toList 1, "P2".toList),
     (vrName "N1".toList 1, "N1".toList), (vrName "N2".toList 1, "N2".toList)] =
    some (vrName "P2".toList 1, "P2".toList,
      (build_qubo gA {}).linear (vrName "P2".toList 1) +
        ([vrName "P1".toList 0].map
          (fun a => (build_qubo gA {}).quad (vrName "P2".toList 1) a)).sum) := by
  unfold selBest
  rw [List.foldl_cons, selStep_skip _ _ _ _ _ _ (by decide),
    List.foldl_cons, selStep_first _ _ _ _ _ (by decide),
    List.foldl_cons, selStep_keep _ _ _ _ _ _ _ _ (by decide)
      (by simp only [List.map_cons, List.map_nil, List.sum_cons, List.sum_nil,
            linA_N1_1, linA_P2_1, quadA_N1_1_P1_0, quadA_P2_1_P1_0]
          norm_num),
    List.foldl_cons, selStep_keep _ _ _ _ _ _ _ _ (by decide)
      (by simp only [List.map_cons, List.map_nil, List.sum_cons, List.sum_nil,
            linA_N2_1, linA_P2_1, quadA_N2_1_P1_0, quadA_P2_1_P1_0]
          norm_num),
    List.foldl_nil]

theorem selA2 : selBest (build_qubo gA {})
    [vrName "P1".toList 0, vrName "P2".toList 1] ["P1".toList, "P2".toList]
    [(vrName "P1".toList 2, "P1".toList), (vrName "P2".toList 2, "P2".toList),
     (vrName "N1".toList 2, "N1".toList), (vrName "N2".toList 2, "N2".toList)] =
    some (vrName "N2".toList 2, "N2".toList,
      (build_qubo gA {}).linear (vrName "N2".toList 2) +
        ([vrName "P1".toList 0, vrName "P2".toList 1].map
          (fun a => (build_qubo gA {}).quad (vrName "N2".toList 2) a)).sum) := by
  unfold selBest
  rw [List.foldl_cons, selStep_skip _ _ _ _ _ _ (by decide),
    List.foldl_cons, selStep_skip _ _ _ _ _ _ (by decide),
    List.foldl_cons, selStep_first _ _ _ _ _ (by decide),
    List.foldl_cons, selStep_better _ _ _ _ _ _ _ _ (by decide)
      (by simp only [List.map_cons, List.map_nil, List.sum_cons, List.sum_nil,
            linA_N2_2, linA_N1_2, quadA_N2_2_P1_0, quadA_N2_2_P2_1,
            quadA_N1_2_P1_0, quadA_N1_2_P2_1]
          norm_num),
    List.foldl_nil]

theorem selA3 : selBest (build_qubo gA {})
    [vrName "P1".toList 0, vrName "P2".toList 1, vrName "N2".toList 2]
    ["P1".toList, "P2".toList, "N2".toList]
    [(vrName "P1".toList 3, "P1".toList), (vrName "P2".toList 3, "P2".toList),
     (vrName "N1".toList 3, "N1".toList), (vrName "N2".toList 3, "N2".toList)] =
    some (vrName "N1".toList 3, "N1".toList,
      (build_qubo gA {}).linear (vrName "N1".toList 3) +
        ([vrName "P1".toList 0, vrName "P2".toList 1, vrName "N2".toList 2].map
          (fun a => (build_qubo gA {}).quad (vrName "N1".toList 3) a)).sum) := by
  unfold selBest
  rw [List.foldl_cons, selStep_skip _ _ _ _ _ _ (by decide),
    List.foldl_cons, selStep_skip _ _ _ _ _ _ (by decide),
    List.foldl_cons, selStep_first _ _ _ _ _ (by decide),
    List.foldl_cons, selStep_skip _ _ _ _ _ _ (by decide),
    List.foldl_nil]

theorem plA0 : posList
    (canonParsed ["P1".toList, "P2".toList, "N1".toList, "N2".toList] 4)
    ((0 : ℕ) : ℤ) =
    [(vrName "P1".toList 0, "P1".toList), (vrName "P2".toList 0, "P2".toList),
     (vrName "N1".toList 0, "N1".toList), (vrName "N2".toList 0, "N2".toList)] := by
  rw [posList_canonParsed _ 4 (by norm_num)]
  simp

theorem plA1 : posList
    (canonParsed ["P1".toList, "P2".toList, "N1".toList, "N2".toList] 4)
    ((1 : ℕ) : ℤ) =
    [(vrName "P1".toList 1, "P1".toList), (vrName "P2".toList 1, "P2".toList),
     (vrName "N1".toList 1, "N1".toList), (vrName "N2".toList 1, "N2".toList)] := by
  rw [posList_canonParsed _ 4 (by norm_num)]
  simp

theorem plA2 : posList
    (canonParsed ["P1".toList, "P2".toList, "N1".toList, "N2".toList] 4)
    ((2 : ℕ) : ℤ) =
    [(vrName "P1".toList 2, "P1".toList), (vrName "P2".toList 2, "P2".toList),
     (vrName "N1".toList 2, "N1".toList), (vrName "N2".toList 2, "N2".toList)] := by
  rw [posList_canonParsed _ 4 (by norm_num)]
  simp

theorem plA3 : posList
    (canonParsed ["P1".toList, "P2".toList, "N1".toList, "N2".toList] 4)
    ((3 : ℕ) : ℤ) =
    [(vrName "P1".toList 3, "P1".toList), (vrName "P2".toList 3, "P2".toList),
     (vrName "N1".toList 3, "N1".toList), (vrName "N2".toList 3, "N2".toList)] := by
  rw [posList_canonParsed _ 4 (by norm_num)]
  simp

theorem mockSampleA :
    mockSample (build_qubo gA {}) =
      some [(vrName "P1".toList 0, 1), (vrName "P1".toList 1, 0),
        (vrName "P1".toList 2, 0), (vrName "P1".toList 3, 0),
        (vrName "P2".toList 0, 0), (vrName "P2".toList 1, 1),
        (vrName "P2".toList 2, 0), (vrName "P2".toList 3, 0),
        (vrName "N1".toList 0, 0), (vrName "N1".toList 1, 0),
        (vrName "N1".toList 2, 0), (vrName "N1".toList 3, 1),
        (vrName "N2".toList 0, 0), (vrName "N2".toList 1, 0),
        (vrName "N2".toList 2, 1), (vrName "N2".toList 3, 0)] := by
  have hv : (build_qubo gA {}).vars =
      canonVars ["P1".toList, "P2".toList, "N1".toList, "N2".toList] 4 :=
    (build_qubo_fields gA {} (by decide)).1
  have hsortA : List.insertionSort (· ≤ ·)
      (posKeys (canonParsed
        ["P1".toList, "P2".toList, "N1".toList, "N2".toList] 4)) =
      [((0 : ℕ) : ℤ), ((1 : ℕ) : ℤ), ((2 : ℕ) : ℤ), ((3 : ℕ) : ℤ)] := by
    rw [posKeys_canonParsed _ 4 (by decide),
      List.Sorted.insertionSort_eq (sorted_castRange 4)]
    rfl
  have hloopA : selLoop (build_qubo gA {})
      (posList (canonParsed
        ["P1".toList, "P2".toList, "N1".toList, "N2".toList] 4))
      [((0 : ℕ) : ℤ), ((1 : ℕ) : ℤ), ((2 : ℕ) : ℤ), ((3 : ℕ) : ℤ)] [] [] =
      (["P1".toList, "P2".toList, "N2".toList, "N1".toList],
       [vrName "P1".toList 0, vrName "P2".toList 1, vrName "N2".toList 2,
        vrName "N1".toList 3]) := by
    rw [selLoop_cons_some _ _ _ _ _ _ _ _ _ (by rw [plA0]; exact selA0)]
    simp only [List.nil_append]
    rw [selLoop_cons_some _ _ _ _ _ _ _ _ _ (by rw [plA1]; exact selA1)]
    simp only [List.cons_append, List.nil_append]
    rw [selLoop_cons_some _ _ _ _ _ _ _ _ _ (by rw [plA2]; exact selA2)]
    simp only [List.cons_append, List.nil_append]
    rw [selLoop_cons_some _ _ _ _ _ _ _ _ _ (by rw [plA3]; exact selA3)]
    simp only [List.cons_append, List.nil_append]
    rfl
  unfold mockSample
  rw [hv]
  simp only [parseAllVars_canon, hsortA, hloopA]
  have hc : canonVars ["P1".toList, "P2".toList, "N1".toList, "N2".toList] 4 =
      [vrName "P1".toList 0, vrName "P1".toList 1, vrName "P1".toList 2,
       vrName "P1".toList 3, vrName "P2".toList 0, vrName "P2".toList 1,
       vrName "P2".toList 2, vrName "P2".toList 3, vrName "N1".toList 0,
       vrName "N1".toList 1, vrName "N1".toList 2, vrName "N1".toList 3,
       vrName "N2".toList 0, vrName "N2".toList 1, vrName "N2".toList 2,
       vrName "N2".toList 3] := rfl
  rw [hc]
  simp +decide [List.mem_cons, List.not_mem_nil, vrName_eq_iff]

theorem natChars_small {p : ℕ} (h : p < 10) : natChars p = [digChar p] := by
  rw [natChars]
  rw [dif_pos h]

theorem vrName_digit (nid : Str) {p : ℕ} (h : p < 10) :
    vrName nid p = 'x' :: '_' :: (nid ++ ['_', digChar p]) := by
  rw [vrName, natChars_small h]

theorem mockSampleA_names :
    mockSample (build_qubo gA {}) =
      some [("x_P1_0".toList, 1), ("x_P1_1".toList, 0),
        ("x_P1_2".toList, 0), ("x_P1_3".toList, 0),
        ("x_P2_0".toList, 0), ("x_P2_1".toList, 1),
        ("x_P2_2".toList, 0), ("x_P2_3".toList, 0),
        ("x_N1_0".toList, 0), ("x_N1_1".toList, 0),
        ("x_N1_2".toList, 0), ("x_N1_3".toList, 1),
        ("x_N2_0".toList, 0), ("x_N2_1".toList, 0),
        ("x_N2_2".toList, 1), ("x_N2_3".toList, 0)] := by
  rw [mockSampleA]
  simp only [vrName_digit _ (by norm_num : (0:ℕ) < 10),
    vrName_digit _ (by norm_num : (1:ℕ) < 10),
    vrName_digit _ (by norm_num : (2:ℕ) < 10),
    vrName_digit _ (by norm_num : (3:ℕ) < 10)]
  rfl

theorem decodeA :
    decode_route [("x_P1_0".toList, 1), ("x_P1_1".toList, 0),
        ("x_P1_2".toList, 0), ("x_P1_3".toList, 0),
        ("x_P2_0".toList, 0), ("x_P2_1".toList, 1),
        ("x_P2_2".toList, 0), ("x_P2_3".toList, 0),
        ("x_N1_0".toList, 0), ("x_N1_1".toList, 0),
        ("x_N1_2".toList, 0), ("x_N1_3".toList, 1),
        ("x_N2_0".toList, 0), ("x_N2_1".toList, 0),
        ("x_N2_2".toList, 1), ("x_N2_3".toList, 0)]
      ["P1".toList, "P2".toList, "N1".toList, "N2".toList] none =
    some ["P1".toList, "P2".toList, "N2".toList, "N1".toList] := by
  decide

theorem validateA :
    validate_route ["P1".toList, "P2".toList, "N2".toList, "N1".toList] gA =
      (true, true) := by
  decide

/-- C1: on the Scenario A graph (P1, P2 priority and N1, N2 normal,
low-traffic distance-1.0 edges P1–P2, P1–N1, P2–N2, N1–N2,
medium-traffic distance-1.41 edges P1–N2, P2–N1, default multipliers
and default penalties), the encode → sample → decode pipeline with the
deterministic energy-greedy sampler returns the route
[P1, P2, N2, N1]: its first two entries are {P1, P2} in some order and
`validate_route` returns feasible = true and
priority_satisfied = true. -/
theorem scenarioA_pipeline :
    ∃ sample route,
      mockSample (build_qubo gA {}) = some sample ∧
      decode_route sample (gA.delivery_nodes.map Node.id)
        (gA.depot_node.map Node.id) = some route ∧
      route = ["P1".toList, "P2".toList, "N2".toList, "N1".toList] ∧
      (route.take 2 = ["P1".toList, "P2".toList] ∨
        route.take 2 = ["P2".toList, "P1".toList]) ∧
      validate_route route gA = (true, true) := by
  refine ⟨_, ["P1".toList, "P2".toList, "N2".toList, "N1".toList],
    mockSampleA_names, ?_, rfl, Or.inl rfl, validateA⟩
  exact decodeA
